import Mathlib

/-! Polyphone: MIDI controller state machine and voice parameter resolution.

A shallow embedding of `sources/context/mididevice.cpp`,
`sources/sound_engine/voiceparam.cpp` and of the functions of the other sources that the
sections below name, followed by the properties proved about them.

Conventions of the embedding:
* C++ `int` values that are only stored and compared are `Int`; the results of `qint32`
  arithmetic are wrapped to 32 bits (`wrapInt32`), casts to `quint32` are taken modulo
  `2^32` (`toUInt32`);
* members of classes that are not among the sources (`ModulatedParameter`,
  `SoundfontManager`) are modelled from the specification or taken as parameters;
* a `double` is held as the rational number it denotes; the arithmetic of
  `processControllerChanged` on doubles is rounded to binary64 after each operation
  (`toDouble`), the conversion of an `int` to `double` being exact; `getRealValue`, which is
  not among the sources, is a parameter;
* signals that are emitted and calls into collaborators (keyboard widget, controller
  area, synth, configuration) are appended, in program order, to the `out` field of the
  device state;
* the mutex around the value fields is not modelled (one thread);
* a `while` loop takes a fuel argument and fails with `Fault.outOfFuel` when it is
  exhausted; a call through a null collaborator pointer fails with `Fault.nullDeref`, an
  access `at(i)` beyond the end of a vector with `Fault.outOfRange`.
-/

namespace Polyphone

/-! ## Double-precision arithmetic -/

/-- The quotient `n / d` of natural numbers rounded to the nearest natural number, a tie
going to the even one. -/
def roundHalfEven (n d : Nat) : Nat :=
  if 2 * (n % d) < d then n / d
  else if d < 2 * (n % d) then n / d + 1
  else if n / d % 2 = 0 then n / d
  else n / d + 1

/-- The integer part of the binary logarithm of `n`, 0 for `n = 0`, by halving at most `fuel`
times. -/
def floorLog2Fuel : Nat → Nat → Nat
  | 0, _ => 0
  | fuel + 1, n => if n < 2 then 0 else floorLog2Fuel fuel (n / 2) + 1

/-- The integer part of the binary logarithm of `n`, 0 for `n = 0`. -/
def floorLog2 (n : Nat) : Nat := floorLog2Fuel n n

/-- Whether `2 ^ k ≤ n / d`, for natural numbers `n` and `d > 0` and an integer `k`. -/
def leQuotient (k : Int) (n d : Nat) : Bool :=
  if 0 ≤ k then decide (d * 2 ^ k.toNat ≤ n) else decide (d ≤ n * 2 ^ (-k).toNat)

/-- The exponent of the unit in the last place of the binary64 numbers next to the positive
rational `n / d`: the integer `e` with `2 ^ 52 ≤ (n / d) / 2 ^ e < 2 ^ 53`, and -1074 in the
subnormal range. -/
def ulpExponent (n d : Nat) : Int :=
  let k : Int := (floorLog2 n : Int) - (floorLog2 d : Int)
  let e : Int := if leQuotient k n d then k - 52 else k - 53
  if e < -1074 then -1074 else e

/-- The binary64 number nearest to `n / d`, for natural numbers `n` and `d > 0` (rounding to
nearest, ties to even): `m * 2 ^ e`, where `e` is the exponent of the unit in the last place
and `m` the rounded quotient of `n / d` by `2 ^ e`. -/
def roundBinary64 (n d : Nat) : ℚ :=
  if 0 ≤ ulpExponent n d then
    ((roundHalfEven n (d * 2 ^ (ulpExponent n d).toNat) * 2 ^ (ulpExponent n d).toNat : Nat) : ℚ)
  else
    mkRat (roundHalfEven (n * 2 ^ (-ulpExponent n d).toNat) d : Nat)
      (2 ^ (-ulpExponent n d).toNat)

/-- The `double` nearest to the rational `q`, as a rational: the rounding that IEEE 754
prescribes for the result of an operation (to nearest, ties to even). For `|q| ≥ 2 ^ 1024` the
IEEE result is an infinity, which is outside the model; no operation on `int` operands below
comes near that range. -/
def toDouble (q : ℚ) : ℚ :=
  if q.num < 0 then -roundBinary64 q.num.natAbs q.den else roundBinary64 q.num.natAbs q.den

/-- The product of two `double` values. -/
def dmul (a b : ℚ) : ℚ := toDouble (a * b)

/-- The quotient of two `double` values, for a divisor other than 0. -/
def ddiv (a b : ℚ) : ℚ := toDouble (a / b)

/-- The sum of two `double` values. -/
def dadd (a b : ℚ) : ℚ := toDouble (a + b)

/-- The difference of two `double` values. -/
def dsub (a b : ℚ) : ℚ := toDouble (a - b)

/-! ## MidiDevice -/

/-- Ways in which a modelled member function can fail to return. -/
inductive Fault where
  | outOfFuel
  | nullDeref
  | outOfRange
  deriving DecidableEq, Repr

/-- Signals emitted by `MidiDevice` and calls it makes into its collaborators. -/
inductive Effect where
  /-- Signal `keyPlayed(key, vel)`. -/
  | keyPlayed (key vel : Int)
  /-- Signal `bendSensitivityChanged(semitones)`. -/
  | bendSensitivityChanged (semitones : ℚ)
  /-- Call `_keyboard->inputNoteOn(key, vel)`. -/
  | inputNoteOn (key vel : Int)
  /-- Call `_keyboard->inputNoteOff(key)`. -/
  | inputNoteOff (key : Int)
  /-- Call `_keyboard->removeCurrentRange(key)`. -/
  | removeCurrentRange (key : Int)
  /-- Call `_keyboard->clearCustomization()`. -/
  | clearCustomization
  /-- Call `_synth->play(EltID(), key, vel)`. -/
  | synthPlay (key vel : Int)
  /-- Call `_synth->stop()`. -/
  | synthStop
  /-- Call `_configuration->setValue(SECTION_SOUND_ENGINE, "gain", vol)`. -/
  | setGain (vol : ℚ)
  /-- Call `_controllerArea->updateController(num, value)`. -/
  | updateController (num value : Int)
  /-- Call `_controllerArea->updateBendSensitivity(semitones)`. -/
  | updateBendSensitivity (semitones : ℚ)
  /-- Signal `polyPressureChanged(key, pressure)`. -/
  | polyPressureChanged (key pressure : Int)
  /-- Signal `monoPressureChanged(value)`. -/
  | monoPressureChanged (value : Int)
  /-- Call `_controllerArea->updateMonoPressure(value)`. -/
  | updateMonoPressure (value : Int)
  /-- Signal `bendChanged(value)`. -/
  | bendChanged (value : Int)
  /-- Call `_controllerArea->updateBend(value)`. -/
  | updateBend (value : Int)
  deriving DecidableEq, Repr

/-- The fields of `MidiDevice` that the processing functions read or write, and the
log `out` of what the device emitted. `keyboard` and `controllerArea` tell whether the
pointers `_keyboard` and `_controllerArea` are non-null. -/
structure MidiDevice where
  keyboard : Bool
  controllerArea : Bool
  controllerValues : Int → Option Int
  bendValue : Int
  bendSensitivityValue : ℚ
  monoPressureValue : Int
  isSustainOn : Bool
  listKeysToRelease : List Int
  rpnHistory : List (Int × Int)
  out : List Effect

namespace MidiDevice

/-- State built by the constructor `MidiDevice::MidiDevice` (the MIDI port apart). -/
def init : MidiDevice where
  keyboard := false
  controllerArea := false
  controllerValues := fun _ => none
  bendValue := -1
  bendSensitivityValue := -1
  monoPressureValue := -1
  isSustainOn := false
  listKeysToRelease := []
  rpnHistory := []
  out := []

/-- Append effects to the log. -/
def emit (s : MidiDevice) (es : List Effect) : MidiDevice :=
  { s with out := s.out ++ es }

/-- Modelled from the spec: the default value of the `syncKeyboard` argument, declared in
`mididevice.h` (not among the sources). Display-origin events, which arrive through the
slots with the default, "do not re-echo to themselves". -/
def syncKeyboardDefault : Bool := false

/-- Member function `MidiDevice::processKeyOff(int key, bool syncKeyboard)`. -/
def processKeyOff (s : MidiDevice) (key : Int) (syncKeyboard : Bool) : MidiDevice :=
  let s1 := if s.keyboard && syncKeyboard then
      s.emit [Effect.inputNoteOff key, Effect.removeCurrentRange key]
    else s
  if key = -1 then
    s1.emit [Effect.synthPlay (-1) 0]
  else if s1.isSustainOn then
    if !s1.listKeysToRelease.contains key then
      { s1 with listKeysToRelease := s1.listKeysToRelease ++ [key] }
    else s1
  else
    s1.emit [Effect.keyPlayed key 0]

/-- Member function `MidiDevice::processKeyOn(int key, int vel, bool syncKeyboard)`. -/
def processKeyOn (s : MidiDevice) (key vel : Int) (syncKeyboard : Bool) : MidiDevice :=
  let s1 := if s.keyboard && syncKeyboard then
      s.emit [Effect.inputNoteOn key vel]
    else s
  let s2 := if s1.listKeysToRelease.contains key then
      processKeyOff s1 key syncKeyboardDefault
    else s1
  s2.emit [Effect.keyPlayed key vel]

/-- The loop `while (_listKeysToRelease.size()) processKeyOff(_listKeysToRelease.takeFirst(), true);`
shared by `processControllerChanged` and `stopAll`. -/
def releaseSustainedKeys : Nat → MidiDevice → Except Fault MidiDevice
  | 0, s =>
    match s.listKeysToRelease with
    | [] => Except.ok s
    | _ :: _ => Except.error Fault.outOfFuel
  | n + 1, s =>
    match s.listKeysToRelease with
    | [] => Except.ok s
    | k :: rest =>
      releaseSustainedKeys n (processKeyOff { s with listKeysToRelease := rest } k true)

/-- Member function `MidiDevice::processBendSensitivityChanged(double semitones, bool syncControllerArea)`. -/
def processBendSensitivityChanged (s : MidiDevice) (semitones : ℚ)
    (syncControllerArea : Bool) : Except Fault MidiDevice :=
  let s1 := { s with bendSensitivityValue := semitones }
  let s2 := s1.emit [Effect.bendSensitivityChanged semitones]
  if syncControllerArea then
    if s2.controllerArea then Except.ok (s2.emit [Effect.updateBendSensitivity semitones])
    else Except.error Fault.nullDeref
  else Except.ok s2

/-- Member function `MidiDevice::processControllerChanged(int numController, int value, bool syncControllerArea)`. -/
def processControllerChanged (fuel : Nat) (s : MidiDevice) (numController value : Int)
    (syncControllerArea : Bool) : Except Fault MidiDevice := do
  let s1 : MidiDevice := { s with
    controllerValues := fun n => if n = numController then some value else s.controllerValues n }
  let s2 ←
    if numController = 64 then
      let s3 : MidiDevice := { s1 with isSustainOn := decide (value ≥ 64) }
      if !s3.isSustainOn then releaseSustainedKeys fuel s3 else Except.ok s3
    else if numController = 7 then
      let vol : ℚ := dsub (dmul (ddiv (value : ℚ) 127) 101) (101 / 2)
      Except.ok (s1.emit [Effect.setGain vol])
    else if numController = 101 ∨ numController = 100 ∨ numController = 6 ∨ numController = 38 then
      let h1 := s1.rpnHistory ++ [(numController, value)]
      let h2 := if h1.length > 4 then h1.tail else h1
      let s3 : MidiDevice := { s1 with rpnHistory := h2 }
      if numController = 38 ∧ h2.length = 4 then
        match h2 with
        | [r0, r1, r2, r3] =>
          if r0.1 = 101 ∧ r0.2 = 0 ∧ r1.1 = 100 ∧ r1.2 = 0 ∧ r2.1 = 6 ∧ r3.1 = 38 then
            let pitch : ℚ := dadd (dmul (toDouble (1 / 100)) (r3.2 : ℚ)) (r2.2 : ℚ)
            processBendSensitivityChanged s3 pitch syncControllerArea
          else Except.ok s3
        | _ => Except.ok s3
      else Except.ok s3
    else Except.ok s1
  if syncControllerArea then
    if s2.controllerArea then Except.ok (s2.emit [Effect.updateController numController value])
    else Except.error Fault.nullDeref
  else Except.ok s2

/-- Member function `MidiDevice::stopAll()`. -/
def stopAll (fuel : Nat) (s : MidiDevice) : Except Fault MidiDevice := do
  let s1 ← releaseSustainedKeys fuel s
  if s1.keyboard then
    Except.ok ((s1.emit [Effect.clearCustomization]).emit [Effect.synthStop])
  else Except.error Fault.nullDeref

/-- Member function `MidiDevice::getBendSensitivityValue()`. -/
def getBendSensitivityValue (s : MidiDevice) : ℚ := s.bendSensitivityValue

/-- Member function `MidiDevice::getControllerValue(int controllerNumber)`. -/
def getControllerValue (s : MidiDevice) (controllerNumber : Int) : Int :=
  match s.controllerValues controllerNumber with
  | some v => v
  | none => -1

/-- Member function `MidiDevice::processPolyPressureChanged(int key, int pressure, bool syncKeyboard)`. -/
def processPolyPressureChanged (s : MidiDevice) (key pressure : Int) : MidiDevice :=
  s.emit [Effect.polyPressureChanged key pressure]

/-- Member function `MidiDevice::processMonoPressureChanged(int value, bool syncControllerArea)`. -/
def processMonoPressureChanged (s : MidiDevice) (value : Int)
    (syncControllerArea : Bool) : Except Fault MidiDevice :=
  let s1 := { s with monoPressureValue := value }
  let s2 := s1.emit [Effect.monoPressureChanged value]
  if syncControllerArea then
    if s2.controllerArea then Except.ok (s2.emit [Effect.updateMonoPressure value])
    else Except.error Fault.nullDeref
  else Except.ok s2

/-- Member function `MidiDevice::processBendChanged(int value, bool syncControllerArea)`. -/
def processBendChanged (s : MidiDevice) (value : Int)
    (syncControllerArea : Bool) : Except Fault MidiDevice :=
  let s1 := { s with bendValue := value }
  let s2 := s1.emit [Effect.bendChanged value]
  if syncControllerArea then
    if s2.controllerArea then Except.ok (s2.emit [Effect.updateBend value])
    else Except.error Fault.nullDeref
  else Except.ok s2

/-- Feed a sequence of controller messages, in order, stopping at the first fault. -/
def feedControllers (fuel : Nat) (sync : Bool) : MidiDevice → List (Int × Int) → Except Fault MidiDevice
  | s, [] => Except.ok s
  | s, m :: ms => do
    let s1 ← processControllerChanged fuel s m.1 m.2 sync
    feedControllers fuel sync s1 ms

end MidiDevice

/-- Modelled from the spec: the event classes `NoteEvent`, `ControllerEvent`,
`PolyPressureEvent`, `MonoPressureEvent`, `BendEvent` and `ProgramEvent`, declared in headers
that are not among the sources; the transport "decodes into semantic events (note,
controller, bend, pressure, program)". Each class is taken to carry the event type under
which `customEvent` casts to it (`QEvent::User` for a note, `+1` controller, `+2` poly
pressure, `+3` mono pressure, `+4` bend, `+5` program). The fields are the bytes given to
the constructor. -/
inductive MidiEvent where
  | note (note velocity : Nat)
  | controller (numController value : Nat)
  | polyPressure (note pressure : Nat)
  | monoPressure (pressure : Nat)
  | bend (value : Nat)
  | program (program : Nat)
  deriving DecidableEq, Repr

/-- The access `message->at(i)` to a vector of bytes. -/
def byteAt (message : List Nat) (i : Nat) : Except Fault Nat :=
  match message[i]? with
  | some b => Except.ok b
  | none => Except.error Fault.outOfRange

/-- The function `midiCallback(deltatime, message, userData)`: the event that it posts to
the device, if any. -/
def midiCallback (message : List Nat) : Except Fault (Option MidiEvent) := do
  let b0 ← byteAt message 0
  let status := b0 &&& 0xF0
  if status = 0x80 ∨ status = 0x90 then
    let isOff ← if status = 0x80 then Except.ok true else do
      let v ← byteAt message 2
      Except.ok (decide (v = 0))
    if isOff then
      let n ← byteAt message 1
      Except.ok (some (MidiEvent.note n 0))
    else
      let n ← byteAt message 1
      let v ← byteAt message 2
      Except.ok (some (MidiEvent.note n v))
  else if status = 0xA0 then
    let n ← byteAt message 1
    let v ← byteAt message 2
    Except.ok (some (MidiEvent.polyPressure n v))
  else if status = 0xB0 then
    let n ← byteAt message 1
    let v ← byteAt message 2
    Except.ok (some (MidiEvent.controller n v))
  else if status = 0xC0 then
    let n ← byteAt message 1
    Except.ok (some (MidiEvent.program n))
  else if status = 0xD0 then
    let n ← byteAt message 1
    Except.ok (some (MidiEvent.monoPressure n))
  else if status = 0xE0 then
    let n ← byteAt message 1
    Except.ok (some (MidiEvent.bend n))
  else Except.ok none

/-- Member function `MidiDevice::customEvent(QEvent * event)`. -/
def MidiDevice.customEvent (fuel : Nat) (s : MidiDevice) (event : MidiEvent) :
    Except Fault MidiDevice :=
  match event with
  | MidiEvent.note note velocity =>
    if velocity > 0 then Except.ok (s.processKeyOn note velocity true)
    else Except.ok (s.processKeyOff note true)
  | MidiEvent.controller numController value =>
    s.processControllerChanged fuel numController value true
  | MidiEvent.polyPressure note pressure =>
    Except.ok (s.processPolyPressureChanged note pressure)
  | MidiEvent.monoPressure pressure => s.processMonoPressureChanged pressure true
  | MidiEvent.bend value => s.processBendChanged value true
  | MidiEvent.program _ => Except.ok s

/-- The states that the device reaches from its initial state, with or without keyboard
and controller area, by calls of `processKeyOn`, `processKeyOff` and
`processControllerChanged` that return. -/
inductive MidiDevice.Reachable : MidiDevice → Prop where
  | init (kb ca : Bool) :
    MidiDevice.Reachable { MidiDevice.init with keyboard := kb, controllerArea := ca }
  | keyOn {s : MidiDevice} (k v : Int) (sync : Bool) :
    MidiDevice.Reachable s → MidiDevice.Reachable (s.processKeyOn k v sync)
  | keyOff {s : MidiDevice} (k : Int) (sync : Bool) :
    MidiDevice.Reachable s → MidiDevice.Reachable (s.processKeyOff k sync)
  | controller {s s2 : MidiDevice} (fuel : Nat) (n v : Int) (sync : Bool) :
    MidiDevice.Reachable s → s.processControllerChanged fuel n v sync = Except.ok s2 →
    MidiDevice.Reachable s2

/-- The state `t` has the controller store, the collaborators, the RPN history and the bend
sensitivity of `s`, and has published the same bend sensitivities. -/
def MidiDevice.SameControllerState (s t : MidiDevice) : Prop :=
  t.controllerValues = s.controllerValues ∧ t.keyboard = s.keyboard ∧
  t.controllerArea = s.controllerArea ∧ t.rpnHistory = s.rpnHistory ∧
  t.bendSensitivityValue = s.bendSensitivityValue ∧
  (t.out.filterMap fun e =>
    match e with
    | Effect.bendSensitivityChanged x => some x
    | _ => none) =
  (s.out.filterMap fun e =>
    match e with
    | Effect.bendSensitivityChanged x => some x
    | _ => none)

/-- The controllers whose messages are recorded in the RPN history. -/
def isRpnController (n : Int) : Prop := n = 101 ∨ n = 100 ∨ n = 6 ∨ n = 38

instance isRpnControllerDecidable (n : Int) : Decidable (isRpnController n) := by
  unfold isRpnController
  infer_instance

/-- The RPN history after one more message: the message is appended and, beyond four
entries, the oldest one is dropped. -/
def rpnPush (h : List (Int × Int)) (m : Int × Int) : List (Int × Int) :=
  if (h ++ [m]).length > 4 then (h ++ [m]).tail else h ++ [m]

/-- The pitch that a history of four messages encodes when it has the shape
`(101,0), (100,0), (6,semitones), (38,cents)`. -/
def rpnBendSensitivity : List (Int × Int) → Option ℚ
  | [r0, r1, r2, r3] =>
    if r0.1 = 101 ∧ r0.2 = 0 ∧ r1.1 = 100 ∧ r1.2 = 0 ∧ r2.1 = 6 ∧ r3.1 = 38 then
      some (dadd (dmul (toDouble (1 / 100)) (r3.2 : ℚ)) (r2.2 : ℚ))
    else none
  | _ => none

/-- The pitch published on reception of a message of controller `n`, `h` being the history
with that message already pushed. -/
def rpnPublished (h : List (Int × Int)) (n : Int) : Option ℚ :=
  if n = 38 then rpnBendSensitivity h else none

/-- The pitches published while a sequence of RPN messages is received, oldest first. -/
def rpnPublishedAll : List (Int × Int) → List (Int × Int) → List ℚ
  | _, [] => []
  | h, m :: ms => (rpnPublished (rpnPush h m) m.1).toList ++ rpnPublishedAll (rpnPush h m) ms

/-- The four messages that set a bend sensitivity of 12 semitones and 50 cents. -/
def rpnBendMessages : List (Int × Int) := [(101, 0), (100, 0), (6, 12), (38, 50)]

/-- The `keyPlayed(key, vel)` signals of a log, in emission order. -/
def keyPlayedEvents (out : List Effect) : List (Int × Int) :=
  out.filterMap fun e =>
    match e with
    | Effect.keyPlayed k v => some (k, v)
    | _ => none

/-- The values published through `bendSensitivityChanged`, in emission order. -/
def bendSensitivityEvents (out : List Effect) : List ℚ :=
  out.filterMap fun e =>
    match e with
    | Effect.bendSensitivityChanged x => some x
    | _ => none



/-- The values written to the `gain` setting of the sound engine, in order. -/
def gainEvents (out : List Effect) : List ℚ :=
  out.filterMap fun e =>
    match e with
    | Effect.setGain x => some x
    | _ => none

/-- The messages of a sequence that the RPN branch of `processControllerChanged` records. -/
def recordedRpn (msgs : List (Int × Int)) : List (Int × Int) :=
  msgs.filter fun p => decide (isRpnController p.1)

/-- The last four entries of a list, all of them when there are fewer. -/
def lastFour (l : List (Int × Int)) : List (Int × Int) := l.drop (l.length - 4)

/-! ## VoiceParam -/

/-- Value of a C++ `qint32` expression whose mathematical value is `x` (two's complement
wrap-around). -/
def wrapInt32 (x : Int) : Int := (x + 2147483648) % 4294967296 - 2147483648

/-- Value of `static_cast<quint32>(x)`. -/
def toUInt32 (x : Int) : Nat := (x % 4294967296).toNat

/-- The integer `x` is representable as a `qint32`. -/
def fitsInt32 (x : Int) : Prop := -2147483648 ≤ x ∧ x < 2147483648

instance fitsInt32Decidable (x : Int) : Decidable (fitsInt32 x) := by
  unfold fitsInt32
  infer_instance

/-- The values of the enumeration `ElementType` that the sources name. -/
inductive ElementType where
  | elementUnknown
  | elementSmpl
  | elementInst
  | elementPrst
  | elementInstSmpl
  | elementPrstInst
  | elementInstMod
  | elementPrstMod
  | elementInstSmplMod
  | elementPrstInstMod
  deriving DecidableEq, Repr

/-- Identifier of an element of a soundfont (`EltID`). -/
structure EltID where
  typeElement : ElementType
  indexSf2 : Int
  indexElt : Int
  indexElt2 : Int
  indexMod : Int
  deriving DecidableEq, Repr

/-- Modelled from the spec: the constructor `EltID(type, indexSf2, indexElt)` of
`basetypes.h` (not among the sources). The identity is "a composite identity" that keys the
attribute store; the two indexes that are not given are taken to be -1. -/
def EltID.ofElt (t : ElementType) (indexSf2 indexElt : Int) : EltID :=
  { typeElement := t, indexSf2 := indexSf2, indexElt := indexElt, indexElt2 := -1,
    indexMod := -1 }

/-- The values of the enumeration `AttributeType` that the sources name: first the 48
generator types for which `prepareParameters` creates a slot, then the others. -/
inductive AttributeType where
  | champ_startAddrsOffset
  | champ_startAddrsCoarseOffset
  | champ_endAddrsOffset
  | champ_endAddrsCoarseOffset
  | champ_startloopAddrsOffset
  | champ_startloopAddrsCoarseOffset
  | champ_endloopAddrsOffset
  | champ_endloopAddrsCoarseOffset
  | champ_delayVolEnv
  | champ_attackVolEnv
  | champ_holdVolEnv
  | champ_decayVolEnv
  | champ_sustainVolEnv
  | champ_releaseVolEnv
  | champ_keynumToVolEnvHold
  | champ_keynumToVolEnvDecay
  | champ_delayModEnv
  | champ_attackModEnv
  | champ_holdModEnv
  | champ_decayModEnv
  | champ_sustainModEnv
  | champ_releaseModEnv
  | champ_keynumToModEnvHold
  | champ_keynumToModEnvDecay
  | champ_modEnvToFilterFc
  | champ_modEnvToPitch
  | champ_delayModLFO
  | champ_freqModLFO
  | champ_modLfoToPitch
  | champ_modLfoToFilterFc
  | champ_modLfoToVolume
  | champ_delayVibLFO
  | champ_freqVibLFO
  | champ_vibLfoToPitch
  | champ_initialFilterFc
  | champ_initialFilterQ
  | champ_initialAttenuation
  | champ_chorusEffectsSend
  | champ_reverbEffectsSend
  | champ_pan
  | champ_coarseTune
  | champ_fineTune
  | champ_scaleTuning
  | champ_overridingRootKey
  | champ_keynum
  | champ_velocity
  | champ_sampleModes
  | champ_exclusiveClass
  | champ_byOriginalPitch
  | champ_chPitchCorrection
  | champ_dwEndLoop
  | champ_dwLength
  | champ_dwStart16
  | champ_dwStartLoop
  | champ_instrument
  | champ_keyRange
  | champ_modAmount
  | champ_name
  | champ_sampleID
  | champ_sfModAmtSrcOper
  | champ_sfModDestOper
  | champ_sfModSrcOper
  | champ_sfModTransOper
  | champ_sfSampleType
  | champ_unknown
  | champ_wPreset
  deriving DecidableEq, Repr

/-- Modelled from the spec: the union `AttributeValue` of `basetypes.h` (not among the
sources), "numeric, semantics depend on type: signed 16-bit for most, unsigned for some".
The members share one storage, held here as the number `bits`; each member reads its low
bytes. -/
structure AttributeValue where
  bits : Nat
  deriving DecidableEq, Repr

namespace AttributeValue

/-- Member `cValue` (signed, 8 bits). -/
def cValue (v : AttributeValue) : Int :=
  if v.bits % 256 < 128 then (v.bits % 256 : Nat) else (v.bits % 256 : Nat) - 256

/-- Member `wValue` (unsigned, 16 bits). -/
def wValue (v : AttributeValue) : Nat := v.bits % 65536

/-- Member `shValue` (signed, 16 bits). -/
def shValue (v : AttributeValue) : Int :=
  if v.bits % 65536 < 32768 then (v.bits % 65536 : Nat) else (v.bits % 65536 : Nat) - 65536

/-- Member `dwValue` (unsigned, 32 bits). -/
def dwValue (v : AttributeValue) : Nat := v.bits % 4294967296

/-- The assignment `value.wValue = static_cast<quint16>(x)`: the low 16 bits are
replaced, the rest of the storage is kept. -/
def setWValue (v : AttributeValue) (x : Int) : AttributeValue :=
  { bits := v.bits / 65536 * 65536 + (x % 65536).toNat }

/-- The assignment `value.shValue = static_cast<qint16>(x)`: the low 16 bits are
replaced by the two's complement of `x`, the rest of the storage is kept. -/
def setShValue (v : AttributeValue) (x : Int) : AttributeValue :=
  { bits := v.bits / 65536 * 65536 + (x % 65536).toNat }

end AttributeValue

/-- The values of the enumeration `SFSampleLink` that the sources name; `other` stands
for its remaining values (declared in `basetypes.h`, not among the sources). -/
inductive SFSampleLink where
  | leftSample
  | rightSample
  | RomLeftSample
  | RomRightSample
  | other (code : Nat)
  deriving DecidableEq, Repr

/-- Modelled from the spec: the class `ModulatedParameter` (not among the sources), a
generator slot that holds "an instrument-level override" and "a preset-level override",
both of which "default to unset". -/
structure ModulatedParameter where
  type : AttributeType
  instValue : Option AttributeValue
  prstValue : Option AttributeValue
  deriving DecidableEq, Repr

namespace ModulatedParameter

/-- Modelled from the spec: the constructor `ModulatedParameter(type)` (not among the
sources); both contributions "default to unset". -/
def create (t : AttributeType) : ModulatedParameter :=
  { type := t, instValue := none, prstValue := none }

/-- Modelled from the spec: `ModulatedParameter::initInst` (not among the sources);
"`initInst(value)` and `initPrst(value)` set the instrument- and preset-level
contributions respectively". -/
def initInst (p : ModulatedParameter) (v : AttributeValue) : ModulatedParameter :=
  { p with instValue := some v }

/-- Modelled from the spec: `ModulatedParameter::initPrst` (not among the sources);
"`initInst(value)` and `initPrst(value)` set the instrument- and preset-level
contributions respectively". -/
def initPrst (p : ModulatedParameter) (v : AttributeValue) : ModulatedParameter :=
  { p with prstValue := some v }

end ModulatedParameter

/-- The part of `SoundfontManager` that `VoiceParam` calls. `getAllAttributes` fills its two
output lists in step, so they are held as one list of pairs; `get` reads one attribute. -/
structure SoundfontManager where
  get : EltID → AttributeType → AttributeValue
  getAllAttributes : EltID → List (AttributeType × AttributeValue)

/-- The members of `VoiceParam`: the map `_parameters` and the scalar fields. -/
structure VoiceParam where
  parameters : AttributeType → Option ModulatedParameter
  sampleFineTune : Int
  sampleLength : Int
  sampleLoopStart : Int
  sampleLoopEnd : Int
  wPresetNumber : Int

namespace VoiceParam

/-- The generator types for which `prepareParameters` creates a slot, in source order. -/
def recognizedTypes : List AttributeType :=
  [
    AttributeType.champ_startAddrsOffset, AttributeType.champ_startAddrsCoarseOffset,
    AttributeType.champ_endAddrsOffset, AttributeType.champ_endAddrsCoarseOffset,
    AttributeType.champ_startloopAddrsOffset, AttributeType.champ_startloopAddrsCoarseOffset,
    AttributeType.champ_endloopAddrsOffset, AttributeType.champ_endloopAddrsCoarseOffset,
    AttributeType.champ_delayVolEnv, AttributeType.champ_attackVolEnv,
    AttributeType.champ_holdVolEnv, AttributeType.champ_decayVolEnv,
    AttributeType.champ_sustainVolEnv, AttributeType.champ_releaseVolEnv,
    AttributeType.champ_keynumToVolEnvHold, AttributeType.champ_keynumToVolEnvDecay,
    AttributeType.champ_delayModEnv, AttributeType.champ_attackModEnv,
    AttributeType.champ_holdModEnv, AttributeType.champ_decayModEnv,
    AttributeType.champ_sustainModEnv, AttributeType.champ_releaseModEnv,
    AttributeType.champ_keynumToModEnvHold, AttributeType.champ_keynumToModEnvDecay,
    AttributeType.champ_modEnvToFilterFc, AttributeType.champ_modEnvToPitch,
    AttributeType.champ_delayModLFO, AttributeType.champ_freqModLFO,
    AttributeType.champ_modLfoToPitch, AttributeType.champ_modLfoToFilterFc,
    AttributeType.champ_modLfoToVolume, AttributeType.champ_delayVibLFO,
    AttributeType.champ_freqVibLFO, AttributeType.champ_vibLfoToPitch,
    AttributeType.champ_initialFilterFc, AttributeType.champ_initialFilterQ,
    AttributeType.champ_initialAttenuation, AttributeType.champ_chorusEffectsSend,
    AttributeType.champ_reverbEffectsSend, AttributeType.champ_pan,
    AttributeType.champ_coarseTune, AttributeType.champ_fineTune,
    AttributeType.champ_scaleTuning, AttributeType.champ_overridingRootKey,
    AttributeType.champ_keynum, AttributeType.champ_velocity, AttributeType.champ_sampleModes,
    AttributeType.champ_exclusiveClass]

/-- A `VoiceParam` before its constructor runs: no slot, scalar members not yet assigned
(the constructor assigns every one of them). -/
def blank : VoiceParam :=
  { parameters := fun _ => none, sampleFineTune := 0, sampleLength := 0,
    sampleLoopStart := 0, sampleLoopEnd := 0, wPresetNumber := 0 }

/-- The test `_parameters.contains(type)`. -/
def contains (vp : VoiceParam) (t : AttributeType) : Bool := (vp.parameters t).isSome

/-- Member function `VoiceParam::prepareParameters()`. -/
def prepareParameters (vp : VoiceParam) : VoiceParam :=
  recognizedTypes.foldl
    (fun acc t => { acc with
      parameters := Function.update acc.parameters t (some (ModulatedParameter.create t)) })
    vp

/-- The call `_parameters[t]->init(v)` for a key `t` of the map, `init` being `initInst` or
`initPrst`. In `readInstSmpl` and `readPrstInst` it is reached under
`_parameters.contains(t)` only. -/
def applyInit (init : ModulatedParameter → AttributeValue → ModulatedParameter)
    (vp : VoiceParam) (t : AttributeType) (v : AttributeValue) : VoiceParam :=
  match vp.parameters t with
  | some p => { vp with parameters := Function.update vp.parameters t (some (init p v)) }
  | none => vp

/-- Member function `VoiceParam::readSmpl(EltID idSmpl)`; `none` when the slot of `champ_overridingRootKey`
is missing (null pointer). -/
def readSmpl (sm : SoundfontManager) (vp : VoiceParam) (idSmpl : EltID) : Option VoiceParam :=
  match vp.parameters AttributeType.champ_overridingRootKey with
  | none => none
  | some _ =>
    let vp1 := applyInit ModulatedParameter.initInst vp AttributeType.champ_overridingRootKey
      (sm.get idSmpl AttributeType.champ_byOriginalPitch)
    some { vp1 with
      sampleFineTune := (sm.get idSmpl AttributeType.champ_chPitchCorrection).cValue
      sampleLength := wrapInt32 (sm.get idSmpl AttributeType.champ_dwLength).dwValue
      sampleLoopStart := wrapInt32 (sm.get idSmpl AttributeType.champ_dwStartLoop).dwValue
      sampleLoopEnd := wrapInt32 (sm.get idSmpl AttributeType.champ_dwEndLoop).dwValue }

/-- Body of the first loop of `readInstSmpl` and `readPrstInst`, for the division
attribute `a`. -/
def divisionStep (init : ModulatedParameter → AttributeValue → ModulatedParameter)
    (vp : VoiceParam) (a : AttributeType × AttributeValue) : VoiceParam :=
  if vp.contains a.1 then applyInit init vp a.1 a.2 else vp

/-- Body of the second loop of `readInstSmpl` and `readPrstInst`, for the global
attribute `a`, `divisionAttributeTypes` being the types that the division sets. -/
def globalStep (init : ModulatedParameter → AttributeValue → ModulatedParameter)
    (divisionAttributeTypes : List AttributeType) (vp : VoiceParam)
    (a : AttributeType × AttributeValue) : VoiceParam :=
  if !divisionAttributeTypes.contains a.1 && vp.contains a.1 then applyInit init vp a.1 a.2
  else vp

/-- The two loops of `readInstSmpl` and `readPrstInst`, on the attributes of the division
and on those of its parent. -/
def readZone (init : ModulatedParameter → AttributeValue → ModulatedParameter)
    (division global : List (AttributeType × AttributeValue)) (vp : VoiceParam) : VoiceParam :=
  let vp1 := division.foldl (divisionStep init) vp
  global.foldl (globalStep init (division.map Prod.fst)) vp1

/-- Member function `VoiceParam::readInstSmpl(EltID idInstSmpl)`. -/
def readInstSmpl (sm : SoundfontManager) (vp : VoiceParam) (idInstSmpl : EltID) : VoiceParam :=
  let division := sm.getAllAttributes idInstSmpl
  let idInst := EltID.ofElt ElementType.elementInst idInstSmpl.indexSf2 idInstSmpl.indexElt
  let global := sm.getAllAttributes idInst
  readZone ModulatedParameter.initInst division global vp

/-- Member function `VoiceParam::readPrstInst(EltID idPrstInst)`. -/
def readPrstInst (sm : SoundfontManager) (vp : VoiceParam) (idPrstInst : EltID) : VoiceParam :=
  let division := sm.getAllAttributes idPrstInst
  let idPrst := EltID.ofElt ElementType.elementPrst idPrstInst.indexSf2 idPrstInst.indexElt
  let global := sm.getAllAttributes idPrst
  readZone ModulatedParameter.initPrst division global vp

/-- The constructor `VoiceParam::VoiceParam(idPrstInst, idInstSmpl, idSmpl)`. -/
def construct (sm : SoundfontManager) (idPrstInst idInstSmpl idSmpl : EltID) :
    Option VoiceParam :=
  match readSmpl sm (prepareParameters blank) idSmpl with
  | none => none
  | some vp1 =>
    let vp2 := if idInstSmpl.typeElement ≠ ElementType.elementUnknown then
        readInstSmpl sm vp1 idInstSmpl
      else vp1
    if idPrstInst.typeElement ≠ ElementType.elementUnknown then
      let vp3 := readPrstInst sm vp2 idPrstInst
      some { vp3 with
        wPresetNumber := ((sm.get
          (EltID.ofElt ElementType.elementPrst idPrstInst.indexSf2 idPrstInst.indexElt)
          AttributeType.champ_wPreset).wValue : Nat) }
    else
      some { vp2 with wPresetNumber := -1 }

/-- Member function `VoiceParam::getInteger(AttributeType type)`. The query `getIntValue` of
`ModulatedParameter` is not among the sources and is a parameter. -/
def getInteger (getIntValue : ModulatedParameter → Int) (vp : VoiceParam)
    (type : AttributeType) : Int :=
  match vp.parameters type with
  | some p =>
    wrapInt32 ((if type = AttributeType.champ_fineTune then vp.sampleFineTune else 0)
      + getIntValue p)
  | none =>
    if type = AttributeType.champ_wPreset then vp.wPresetNumber else 0

/-- Member function `VoiceParam::getDouble(AttributeType type)`. The query `getRealValue` of
`ModulatedParameter` is not among the sources and is a parameter. -/
def getDouble (getRealValue : ModulatedParameter → ℚ) (vp : VoiceParam)
    (type : AttributeType) : ℚ :=
  match vp.parameters type with
  | some p => getRealValue p
  | none => 0

/-- The expression `_parameters[fine]->getIntValue() + 32768 * _parameters[coarse]->getIntValue()`
assigned to a `qint32`; `none` when one of the two slots is missing (null pointer). -/
def offsetOf (getIntValue : ModulatedParameter → Int) (vp : VoiceParam)
    (fine coarse : AttributeType) : Option Int :=
  match vp.parameters fine, vp.parameters coarse with
  | some pf, some pc => some (wrapInt32 (getIntValue pf + wrapInt32 (32768 * getIntValue pc)))
  | _, _ => none

/-- Case `champ_dwLength` of `VoiceParam::getPosition`. -/
def getPositionLength (getIntValue : ModulatedParameter → Int) (vp : VoiceParam) : Option Nat :=
  match offsetOf getIntValue vp AttributeType.champ_endAddrsOffset
      AttributeType.champ_endAddrsCoarseOffset with
  | none => none
  | some offset =>
    if wrapInt32 (vp.sampleLength + offset) < 0 then some 0
    else if offset > 0 then some (toUInt32 vp.sampleLength)
    else some (toUInt32 (wrapInt32 (vp.sampleLength + offset)))

/-- The clamp `if (result > currentLength) result = currentLength` of the start and loop
cases of `VoiceParam::getPosition`, `currentLength` being `getPosition(champ_dwLength)`. -/
def clampToLength (getIntValue : ModulatedParameter → Int) (vp : VoiceParam) (result : Nat) :
    Option Nat :=
  match getPositionLength getIntValue vp with
  | none => none
  | some currentLength => if result > currentLength then some currentLength else some result

/-- Member function `VoiceParam::getPosition(AttributeType type)`. -/
def getPosition (getIntValue : ModulatedParameter → Int) (vp : VoiceParam)
    (type : AttributeType) : Option Nat :=
  match type with
  | AttributeType.champ_dwStart16 =>
    match offsetOf getIntValue vp AttributeType.champ_startAddrsOffset
        AttributeType.champ_startAddrsCoarseOffset with
    | none => none
    | some offset =>
      if offset < 0 then some 0
      else clampToLength getIntValue vp (toUInt32 offset)
  | AttributeType.champ_dwLength => getPositionLength getIntValue vp
  | AttributeType.champ_dwStartLoop =>
    match offsetOf getIntValue vp AttributeType.champ_startloopAddrsOffset
        AttributeType.champ_startloopAddrsCoarseOffset with
    | none => none
    | some offset =>
      if wrapInt32 (vp.sampleLoopStart + offset) < 0 then some 0
      else clampToLength getIntValue vp (toUInt32 (wrapInt32 (vp.sampleLoopStart + offset)))
  | AttributeType.champ_dwEndLoop =>
    match offsetOf getIntValue vp AttributeType.champ_endloopAddrsOffset
        AttributeType.champ_endloopAddrsCoarseOffset with
    | none => none
    | some offset =>
      if wrapInt32 (vp.sampleLoopEnd + offset) < 0 then some 0
      else clampToLength getIntValue vp (toUInt32 (wrapInt32 (vp.sampleLoopEnd + offset)))
  | _ => some 0

/-- The number `qRound(1200. * qLn(0.2) / 0.69314718056)` of `prepareForSmpl`, the
timecents of a release of 0.2 s: the quotient is -2786.31..., which rounds to -2786
(`releaseTimecents_eq_round` proves it in real arithmetic). -/
def releaseTimecents : Int := -2786

/-- Member function `VoiceParam::prepareForSmpl(int key, SFSampleLink link)`. The local
`AttributeValue value` is not initialised by the source: `value0` is the storage it starts
with. The result is `none` when one of the three slots is missing (null pointer). -/
def prepareForSmpl (value0 : AttributeValue) (vp : VoiceParam) (key : Int)
    (link : SFSampleLink) : Option VoiceParam :=
  match vp.parameters AttributeType.champ_exclusiveClass,
      vp.parameters AttributeType.champ_releaseVolEnv,
      vp.parameters AttributeType.champ_pan with
  | some _, some _, some _ =>
    let value1 := value0.setWValue key
    let vp1 := applyInit ModulatedParameter.initInst vp AttributeType.champ_exclusiveClass value1
    let value2 := value1.setShValue releaseTimecents
    let vp2 := applyInit ModulatedParameter.initInst vp1 AttributeType.champ_releaseVolEnv value2
    match link with
    | SFSampleLink.leftSample | SFSampleLink.RomLeftSample =>
      some (applyInit ModulatedParameter.initInst vp2 AttributeType.champ_pan
        (value2.setShValue (-500)))
    | SFSampleLink.rightSample | SFSampleLink.RomRightSample =>
      some (applyInit ModulatedParameter.initInst vp2 AttributeType.champ_pan
        (value2.setShValue 500))
    | _ =>
      some (applyInit ModulatedParameter.initInst vp2 AttributeType.champ_pan
        (value2.setShValue 0))
  | _, _, _ => none

/-- The instrument-level value of the slot of `t`, if the slot exists and the value is set. -/
def instValueOf (vp : VoiceParam) (t : AttributeType) : Option AttributeValue :=
  (vp.parameters t).bind ModulatedParameter.instValue

/-- The preset-level value of the slot of `t`, if the slot exists and the value is set. -/
def prstValueOf (vp : VoiceParam) (t : AttributeType) : Option AttributeValue :=
  (vp.parameters t).bind ModulatedParameter.prstValue

/-- The value that a list of attributes gives to the type `t`: that of its last entry
for `t`, if it has one. -/
def lastValue (attrs : List (AttributeType × AttributeValue)) (t : AttributeType) :
    Option AttributeValue :=
  ((attrs.filter (fun a => decide (a.1 = t))).getLast?).map Prod.snd

end VoiceParam

/-! ## Example data -/

/-- A store for the examples. The instrument zone sets `champ_pan` to 10 and a key range,
its parent sets `champ_pan` to 20, `champ_fineTune` to 5 and a sample id; the preset zone
sets `champ_pan` to 10, its parent sets `champ_pan` to 20 and `champ_coarseTune` to 2. The
sample has 1000 points, a loop from 100 to 900 and a pitch correction of -7 cents
(byte 249). -/
def exampleStore : SoundfontManager where
  get := fun id t =>
    match id.typeElement, t with
    | ElementType.elementSmpl, AttributeType.champ_chPitchCorrection => { bits := 249 }
    | ElementType.elementSmpl, AttributeType.champ_dwLength => { bits := 1000 }
    | ElementType.elementSmpl, AttributeType.champ_dwStartLoop => { bits := 100 }
    | ElementType.elementSmpl, AttributeType.champ_dwEndLoop => { bits := 900 }
    | ElementType.elementSmpl, AttributeType.champ_byOriginalPitch => { bits := 60 }
    | ElementType.elementPrst, AttributeType.champ_wPreset => { bits := 3 }
    | _, _ => { bits := 0 }
  getAllAttributes := fun id =>
    match id.typeElement with
    | ElementType.elementInstSmpl =>
      [(AttributeType.champ_pan, { bits := 10 }), (AttributeType.champ_keyRange, { bits := 32512 })]
    | ElementType.elementInst =>
      [(AttributeType.champ_pan, { bits := 20 }), (AttributeType.champ_fineTune, { bits := 5 }),
        (AttributeType.champ_sampleID, { bits := 9 })]
    | ElementType.elementPrstInst => [(AttributeType.champ_pan, { bits := 10 })]
    | ElementType.elementPrst =>
      [(AttributeType.champ_pan, { bits := 20 }), (AttributeType.champ_coarseTune, { bits := 2 })]
    | _ => []

/-- The instrument zone of the examples. -/
def exampleInstSmpl : EltID :=
  { typeElement := ElementType.elementInstSmpl, indexSf2 := 0, indexElt := 0, indexElt2 := 0,
    indexMod := -1 }

/-- The preset zone of the examples. -/
def examplePrstInst : EltID :=
  { typeElement := ElementType.elementPrstInst, indexSf2 := 0, indexElt := 0, indexElt2 := 0,
    indexMod := -1 }

/-- The sample of the examples. -/
def exampleSmpl : EltID :=
  { typeElement := ElementType.elementSmpl, indexSf2 := 0, indexElt := 0, indexElt2 := -1,
    indexMod := -1 }

/-- An identifier of unknown type, as given to the constructor of `VoiceParam` when a
sample or an instrument is played alone. -/
def exampleUnknown : EltID :=
  { typeElement := ElementType.elementUnknown, indexSf2 := -1, indexElt := -1,
    indexElt2 := -1, indexMod := -1 }

/-- A resolution for the examples: the instrument-level value plus the preset-level
value, each read as a signed 16-bit number and 0 when unset. -/
def exampleIntValue (p : ModulatedParameter) : Int :=
  (match p.instValue with
    | some v => v.shValue
    | none => 0) +
  (match p.prstValue with
    | some v => v.shValue
    | none => 0)

/-- A voice for the examples: every slot unset but the end offset pair, set at the
instrument level to the given fine and coarse values; sample of 1000 points with a pitch
correction of -7 cents. -/
def exampleVoice (fine coarse : Nat) : VoiceParam :=
  { VoiceParam.applyInit ModulatedParameter.initInst
      (VoiceParam.applyInit ModulatedParameter.initInst
        (VoiceParam.prepareParameters VoiceParam.blank)
        AttributeType.champ_endAddrsOffset (AttributeValue.mk fine))
      AttributeType.champ_endAddrsCoarseOffset (AttributeValue.mk coarse) with
    sampleFineTune := -7
    sampleLength := 1000
    sampleLoopStart := 100
    sampleLoopEnd := 900 }

/-- The example voice with a sample of 2147483647 points, the largest `qint32`, and an end
offset of +1. -/
def exampleLongVoice : VoiceParam :=
  { exampleVoice 1 0 with sampleLength := 2147483647 }

/-- The example voice (1000 points, no end offset) with the loop end at 2147483647, the
largest `qint32`, and an end-loop offset of +1. -/
def exampleLoopVoice : VoiceParam :=
  { VoiceParam.applyInit ModulatedParameter.initInst (exampleVoice 0 0)
      AttributeType.champ_endloopAddrsOffset (AttributeValue.mk 1) with
    sampleLoopEnd := 2147483647 }

/-! ## The MIDI input port -/

/-- The MIDI input object `_midiin`, of the library class `RtMidiIn`, as far as
`openMidiPort` uses it: the number of available ports (`getPortCount()`), the ports to which
the system accepts a connection, and the port that is open, if one is. -/
structure RtMidiIn where
  portCount : Nat
  accepts : Nat → Bool
  openedPort : Option Nat

namespace RtMidiIn

/-- Library call `closePort()`: the connection that is open, if one is, is closed. -/
def closePort (m : RtMidiIn) : RtMidiIn := { m with openedPort := none }

/-- Library call `openPort(portNumber)`: with a connection open already nothing changes; an
invalid port number, or a connection that the system refuses, throws. -/
def openPort (m : RtMidiIn) (portNumber : Nat) : Except Unit RtMidiIn :=
  if m.openedPort.isSome then Except.ok m
  else if portNumber < m.portCount ∧ m.accepts portNumber = true then
    Except.ok { m with openedPort := some portNumber }
  else Except.error ()

end RtMidiIn

/-- Member function `MidiDevice::openMidiPort(int index)`. The argument `midiin` is the
pointer `_midiin`, `none` when it is null; the result is the new `_midiin`, or the exception
that leaves the function. -/
def MidiDevice.openMidiPort (midiin : Option RtMidiIn) (index : Int) :
    Except Unit (Option RtMidiIn) :=
  match midiin with
  | none => Except.ok none
  | some m =>
    let m1 := m.closePort
    if index < wrapInt32 (m1.portCount : Int) ∧ index ≠ -1 then
      match m1.openPort (toUInt32 index) with
      | Except.ok m2 => Except.ok (some m2)
      | Except.error _ => Except.ok (some m1)
    else Except.ok (some m1)

/-- A MIDI input with one available port, which is open. -/
def exampleMidiIn : RtMidiIn where
  portCount := 1
  accepts := fun _ => true
  openedPort := some 0

/-! ## GrandOrgueDataThrough -/

/-- The member `_maxGainPerRank` of `GrandOrgueDataThrough`, a map from rank id to gain. -/
structure GrandOrgueDataThrough where
  maxGainPerRank : Int → Option ℚ

namespace GrandOrgueDataThrough

/-- State built by the constructor: the map is empty. -/
def init : GrandOrgueDataThrough where
  maxGainPerRank := fun _ => none

/-- Library template `qMax(a, b)`. -/
def qMax (a b : ℚ) : ℚ := if a < b then b else a

/-- Member function `GrandOrgueDataThrough::setMaxRankGain(int rankId, double gain)`. -/
def setMaxRankGain (d : GrandOrgueDataThrough) (rankId : Int) (gain : ℚ) :
    GrandOrgueDataThrough :=
  match d.maxGainPerRank rankId with
  | some g =>
    { d with maxGainPerRank := fun r => if r = rankId then some (qMax g gain)
        else d.maxGainPerRank r }
  | none =>
    { d with maxGainPerRank := fun r => if r = rankId then some gain else d.maxGainPerRank r }

/-- Member function `GrandOrgueDataThrough::getMaxRankGain(int rankId)`. -/
def getMaxRankGain (d : GrandOrgueDataThrough) (rankId : Int) : ℚ :=
  match d.maxGainPerRank rankId with
  | some g => g
  | none => 0

/-- The state after a sequence of `setMaxRankGain(rankId, gain)` calls on a new object. -/
def setAll (calls : List (Int × ℚ)) : GrandOrgueDataThrough :=
  calls.foldl (fun d c => d.setMaxRankGain c.1 c.2) init

/-- The gains that a sequence of calls sets for the rank `r`, in order. -/
def gainsOf (calls : List (Int × ℚ)) (r : Int) : List ℚ :=
  (calls.filter fun c => decide (c.1 = r)).map Prod.snd

end GrandOrgueDataThrough

/-! ## TreeViewMenu -/

/-- Library function `QString::left(n)`: the `n` leftmost characters, and the entire string
when `n` is negative or not below the size. -/
def qLeft (s : List Char) (n : Int) : List Char :=
  if n < 0 ∨ (s.length : Int) ≤ n then s else s.take n.toNat

/-- Library function `QString::number(n)` on a natural number: its decimal digits. -/
def qNumber (n : Nat) : List Char := Nat.toDigits 10 n

/-- Member `bValue` (unsigned, 8 bits). -/
def AttributeValue.bValue (v : AttributeValue) : Nat := v.bits % 256

/-- What `bulkRename` calls and does not define: on the store `σ` behind the
`SoundfontManager`, `getQstr(ID, champ_name)`, `get(ID, type)` and `set(ID, champ_name, name)`;
the member `sfLinkValue` of the union; `getKeyName(key, false, true)` of the key-name manager;
and the library functions `QString::replace(before, after, Qt::CaseInsensitive)`,
`QString::insert(position, str)` and `QString::remove(position, n)`. -/
structure RenameEnv (σ : Type) where
  getQstr : σ → EltID → List Char
  get : σ → EltID → AttributeType → AttributeValue
  setName : σ → EltID → List Char → σ
  sfLinkValue : AttributeValue → SFSampleLink
  getKeyName : Nat → List Char
  replace : List Char → List Char → List Char → List Char
  insert : List Char → Int → List Char → List Char
  remove : List Char → Int → Int → List Char

/-- The state of `bulkRename`: the store, the argument `val1` (which case 3 overwrites), the
calls `sm->set(ID, champ_name, newName)` made so far, and whether `endEditing` was called. -/
structure RenameState (σ : Type) where
  store : σ
  val1 : Int
  stored : List (EltID × List Char)
  ended : Bool

/-- The `switch` of `TreeViewMenu::bulkRename` for the element `ID` at position `i`: the new
name, before its truncation, and the value of `val1` afterwards; `none` when the function
returns at once. -/
def bulkRenameName {σ : Type} (env : RenameEnv σ) (sm : σ) (renameType : Int)
    (text1 text2 : List Char) (val1 val2 : Int) (i : Nat) (ID : EltID) :
    Option (List Char × Int) :=
  let newName := env.getQstr sm ID
  if renameType = 0 then
    let suffix0 := env.getKeyName (env.get sm ID AttributeType.champ_byOriginalPitch).bValue
    let pos := env.sfLinkValue (env.get sm ID AttributeType.champ_sfSampleType)
    let suffix :=
      if pos = SFSampleLink.rightSample ∨ pos = SFSampleLink.RomRightSample then suffix0 ++ ['R']
      else if pos = SFSampleLink.leftSample ∨ pos = SFSampleLink.RomLeftSample then
        suffix0 ++ ['L']
      else suffix0
    if text1.isEmpty then some (suffix, val1)
    else
      let suffix2 := ' ' :: suffix
      some (qLeft text1 (20 - (suffix2.length : Int)) ++ suffix2, val1)
  else if renameType = 1 then
    if text1.isEmpty then
      if (i + 1) % 100 < 10 then some (['0'] ++ qNumber ((i + 1) % 100), val1)
      else some (qNumber ((i + 1) % 100), val1)
    else
      if (i + 1) % 100 < 10 then
        some (qLeft text1 17 ++ ['-', '0'] ++ qNumber ((i + 1) % 100), val1)
      else some (qLeft text1 17 ++ ['-'] ++ qNumber ((i + 1) % 100), val1)
  else if renameType = 2 then some (env.replace newName text1 text2, val1)
  else if renameType = 3 then
    if text1.isEmpty then none
    else
      let v : Int := if val1 > (newName.length : Int) then (newName.length : Int) else val1
      some (env.insert newName v text1, v)
  else if renameType = 4 then
    if val1 = val2 then none
    else if val2 > val1 then some (env.remove newName val1 (wrapInt32 (val2 - val1)), val1)
    else some (env.remove newName val2 (wrapInt32 (val1 - val2)), val1)
  else some (newName, val1)

/-- The loop of `TreeViewMenu::bulkRename` from position `i` on, over the identifiers that
remain, and the call of `endEditing` that follows it. -/
def bulkRenameLoop {σ : Type} (env : RenameEnv σ) (renameType : Int)
    (text1 text2 : List Char) (val2 : Int) :
    Nat → List EltID → RenameState σ → RenameState σ
  | _, [], st => { st with ended := true }
  | i, ID :: rest, st =>
    match bulkRenameName env st.store renameType text1 text2 st.val1 val2 i ID with
    | none => st
    | some (newName, v) =>
      if env.getQstr st.store ID ≠ qLeft newName 20 then
        bulkRenameLoop env renameType text1 text2 val2 (i + 1) rest
          { store := env.setName st.store ID (qLeft newName 20), val1 := v,
            stored := st.stored ++ [(ID, qLeft newName 20)], ended := false }
      else
        bulkRenameLoop env renameType text1 text2 val2 (i + 1) rest
          { store := st.store, val1 := v, stored := st.stored, ended := false }

/-- Member function `TreeViewMenu::bulkRename(int renameType, QString text1, QString text2,
int val1, int val2)`, on the selection `_currentIds`. -/
def bulkRename {σ : Type} (env : RenameEnv σ) (currentIds : List EltID) (sm : σ)
    (renameType : Int) (text1 text2 : List Char) (val1 val2 : Int) : RenameState σ :=
  bulkRenameLoop env renameType text1 text2 val2 0 currentIds
    { store := sm, val1 := val1, stored := [], ended := false }

/-- A store of names for the example: the names of the elements, by `indexElt`. -/
def exampleRenameEnv : RenameEnv (Int → List Char) where
  getQstr := fun sm ID => sm ID.indexElt
  get := fun _ _ _ => { bits := 60 }
  setName := fun sm ID name => fun k => if k = ID.indexElt then name else sm k
  sfLinkValue := fun _ => SFSampleLink.other 1
  getKeyName := fun k => qNumber k
  replace := fun s _ _ => s
  insert := fun s _ t => s ++ t
  remove := fun s _ _ => s

/-! ## ModulatorEditor -/

/-- The structure `SFModulator` (declared in `basetypes.h`, not among the sources), as far as
the modulator editor uses it: the members `Index` and `CC`, which it reads and writes, and the
remaining members, held as one number. -/
structure SFModulator where
  Index : Nat
  CC : Nat
  rest : Nat
  deriving DecidableEq, Repr

namespace ModulatorEditor

/-- The structure `ModulatorEditor::Modulator` (declared in `modulatoreditor.h`, not among the
sources), with the members that `getModList` fills. The destination `modDestOper` is held as
the integer value `(int)modDestOper` of the enumeration, since links are values from 32768 on
that no enumerator names. -/
structure Modulator where
  modSrcOper : SFModulator
  modDestOper : Int
  modAmount : Int
  modAmtSrcOper : SFModulator
  modTransOper : Nat
  index : Int
  deriving DecidableEq, Repr

/-- What the modulator editor calls and does not define: on the store `σ` behind the
`SoundfontManager`, `get(id, type)`, `getSiblings(id)`, `add(id)` and `set(id, type, value)`;
the integer values of the enumerators of `AttributeType`; and the members `sfModValue`,
`sfGenValue` and `sfTransValue` of the union `AttributeValue`, read and assigned. -/
structure Env (σ : Type) where
  get : σ → EltID → AttributeType → AttributeValue
  getSiblings : σ → EltID → List Int
  add : σ → EltID → Int × σ
  set : σ → EltID → AttributeType → AttributeValue → σ
  code : AttributeType → Int
  sfModValue : AttributeValue → SFModulator
  sfGenValue : AttributeValue → Int
  sfTransValue : AttributeValue → Nat
  setSfModValue : AttributeValue → SFModulator → AttributeValue
  setSfGenValue : AttributeValue → Int → AttributeValue
  setSfTransValue : AttributeValue → Nat → AttributeValue

/-- The body of the two reading loops of `getModList`: the modulator `id`. -/
def readModulator {σ : Type} (env : Env σ) (sm : σ) (id : EltID) : Modulator where
  modSrcOper := env.sfModValue (env.get sm id AttributeType.champ_sfModSrcOper)
  modDestOper := env.sfGenValue (env.get sm id AttributeType.champ_sfModDestOper)
  modAmount := (env.get sm id AttributeType.champ_modAmount).shValue
  modAmtSrcOper := env.sfModValue (env.get sm id AttributeType.champ_sfModAmtSrcOper)
  modTransOper := env.sfTransValue (env.get sm id AttributeType.champ_sfModTransOper)
  index := id.indexMod

/-- First part of `getModList`: all the modulators of `id` when none is selected, the
selected modulators otherwise. -/
def readModList {σ : Type} (env : Env σ) (sm : σ) (id : EltID)
    (listSelectedMods : List EltID) : List Modulator :=
  if listSelectedMods.isEmpty then
    (env.getSiblings sm id).map fun i => readModulator env sm { id with indexMod := i }
  else listSelectedMods.map fun id2 => readModulator env sm id2

/-- The loop `foreach (Modulator mod, listRet) if (!listIndex.contains(mod.index)) listIndex << mod.index`. -/
def listIndexes (listRet : List Modulator) : List Int :=
  listRet.foldl (fun acc mod => if acc.contains mod.index then acc else acc ++ [mod.index]) []

/-- Library function `QList::indexOf(value)`: the position of the first occurrence, -1 when
there is none. -/
def qIndexOf (l : List Int) (x : Int) : Int :=
  if l.contains x then (l.indexOf x : Int) else -1

/-- The body of the second loop of `getModList`: links to modulators that are not copied are
removed, the others and the index are renumbered. -/
def relink (fineTune : Int) (listIndex : List Int) (mod : Modulator) : Modulator :=
  let mod1 : Modulator :=
    if mod.modDestOper ≥ 32768 then
      let link := mod.modDestOper - 32768
      if listIndex.contains link then
        { mod with modDestOper := 32768 + qIndexOf listIndex link }
      else { mod with modDestOper := fineTune }
    else mod
  { mod1 with index := qIndexOf listIndex mod.index }

/-- The inner loop of the third loop of `getModList`: whether a modulator other than `i` has
the destination `32768 + i`. -/
def linkFound (listRet : List Modulator) (i : Nat) : Bool :=
  (List.range listRet.length).any fun j =>
    decide (i ≠ j) && decide ((listRet[j]?).map Modulator.modDestOper = some (32768 + (i : Int)))

/-- The body of the third loop of `getModList`, for the position `i`. -/
def unlinkStep (listRet : List Modulator) (i : Nat) : List Modulator :=
  match listRet[i]? with
  | none => listRet
  | some mod =>
    if mod.modSrcOper.Index = 127 ∧ mod.modSrcOper.CC = 0 then
      if !linkFound listRet i then
        listRet.set i { mod with modSrcOper := { mod.modSrcOper with Index := 0 } }
      else listRet
    else listRet

/-- Second part of `getModList`, on the list `listRet` that was read. -/
def renumber (fineTune : Int) (listRet : List Modulator) : List Modulator :=
  let listRet2 := listRet.map (relink fineTune (listIndexes listRet))
  (List.range listRet2.length).foldl unlinkStep listRet2

/-- Member function `ModulatorEditor::getModList(EltID id)`; `listSelectedMods` is the result
of `getSelectedModulators()`. -/
def getModList {σ : Type} (env : Env σ) (sm : σ) (id : EltID)
    (listSelectedMods : List EltID) : List Modulator :=
  renumber (env.code AttributeType.champ_fineTune) (readModList env sm id listSelectedMods)

/-- The warnings that `pasteMod` shows. -/
inductive PasteWarning where
  /-- The message "offsets cannot be modulated in a preset." -/
  | offsets
  /-- The message "%1 cannot be modulated in a preset.", with the destination. -/
  | attribute (champTmp : Int)
  deriving DecidableEq, Repr

/-- First test of the check loop of `pasteMod`: the destination is an address offset. -/
def isOffsetDest (code : AttributeType → Int) (champTmp : Int) : Prop :=
  champTmp = code AttributeType.champ_startAddrsOffset ∨
  champTmp = code AttributeType.champ_startAddrsCoarseOffset ∨
  champTmp = code AttributeType.champ_startloopAddrsOffset ∨
  champTmp = code AttributeType.champ_startloopAddrsCoarseOffset ∨
  champTmp = code AttributeType.champ_endAddrsOffset ∨
  champTmp = code AttributeType.champ_endAddrsCoarseOffset ∨
  champTmp = code AttributeType.champ_endloopAddrsOffset ∨
  champTmp = code AttributeType.champ_endloopAddrsCoarseOffset

instance isOffsetDestDecidable (code : AttributeType → Int) (champTmp : Int) :
    Decidable (isOffsetDest code champTmp) := by
  unfold isOffsetDest
  infer_instance

/-- Second test of the check loop of `pasteMod`. -/
def isFixedDest (code : AttributeType → Int) (champTmp : Int) : Prop :=
  champTmp = code AttributeType.champ_keynum ∨ champTmp = code AttributeType.champ_velocity ∨
  champTmp = code AttributeType.champ_sampleModes ∨
  champTmp = code AttributeType.champ_exclusiveClass ∨
  champTmp = code AttributeType.champ_overridingRootKey

instance isFixedDestDecidable (code : AttributeType → Int) (champTmp : Int) :
    Decidable (isFixedDest code champTmp) := by
  unfold isFixedDest
  infer_instance

/-- The check loop of `pasteMod`: the warning of the first modulator whose destination is
forbidden in a preset, `none` when the loop ends. -/
def checkDestinations (code : AttributeType → Int) : List Modulator → Option PasteWarning
  | [] => none
  | mod :: rest =>
    if isOffsetDest code mod.modDestOper then some PasteWarning.offsets
    else if isFixedDest code mod.modDestOper then some (PasteWarning.attribute mod.modDestOper)
    else checkDestinations code rest

/-- The loop `for (...) listIndex.append(sm->add(id))`, `n` times. -/
def addAll {σ : Type} (env : Env σ) (id : EltID) : Nat → σ → List Int × σ
  | 0, sm => ([], sm)
  | n + 1, sm =>
    let r := env.add sm id
    let rs := addAll env id n r.2
    (r.1 :: rs.1, rs.2)

/-- The body of the loop of `pasteMod` that shifts indexes and links by `offsetIndex`. -/
def shift (offsetIndex : Int) (mod : Modulator) : Modulator :=
  { mod with
    index := wrapInt32 (mod.index + offsetIndex)
    modDestOper :=
      if mod.modDestOper ≥ 32768 then wrapInt32 (mod.modDestOper + offsetIndex)
      else mod.modDestOper }

/-- The last loop of `pasteMod`: the five attributes of each new modulator are set, through
the variable `valTmp`. -/
def setMods {σ : Type} (env : Env σ) (id : EltID) :
    List (Int × Modulator) → AttributeValue → σ → σ
  | [], _, sm => sm
  | (idx, modTmp) :: rest, valTmp, sm =>
    let id2 : EltID := { id with indexMod := idx }
    let v1 := env.setSfModValue valTmp modTmp.modSrcOper
    let sm1 := env.set sm id2 AttributeType.champ_sfModSrcOper v1
    let v2 := env.setSfGenValue v1 modTmp.modDestOper
    let sm2 := env.set sm1 id2 AttributeType.champ_sfModDestOper v2
    let v3 := v2.setShValue modTmp.modAmount
    let sm3 := env.set sm2 id2 AttributeType.champ_modAmount v3
    let v4 := env.setSfModValue v3 modTmp.modAmtSrcOper
    let sm4 := env.set sm3 id2 AttributeType.champ_sfModAmtSrcOper v4
    let v5 := env.setSfTransValue v4 modTmp.modTransOper
    let sm5 := env.set sm4 id2 AttributeType.champ_sfModTransOper v5
    setMods env id rest v5 sm5

/-- The element type of the modulators of an element, `none` when it has none. -/
def modElementType : ElementType → Option ElementType
  | ElementType.elementInst => some ElementType.elementInstMod
  | ElementType.elementPrst => some ElementType.elementPrstMod
  | ElementType.elementInstSmpl => some ElementType.elementInstSmplMod
  | ElementType.elementPrstInst => some ElementType.elementPrstInstMod
  | _ => none

/-- Member function `ModulatorEditor::pasteMod(EltID id, QList<Modulator> modulators)`: the
store afterwards and the warnings shown. `valTmp` is the initial content of the local
variable of that name, which the function does not initialise. -/
def pasteMod {σ : Type} (env : Env σ) (valTmp : AttributeValue) (sm : σ) (id : EltID)
    (modulators : List Modulator) : σ × List PasteWarning :=
  if modulators.isEmpty then (sm, [])
  else
    match modElementType id.typeElement with
    | none => (sm, [])
    | some t =>
      let id1 : EltID := { id with typeElement := t }
      let check :=
        if t = ElementType.elementPrstMod ∨ t = ElementType.elementPrstInstMod then
          checkDestinations env.code modulators
        else none
      match check with
      | some w => (sm, [w])
      | none =>
        let added := addAll env id1 modulators.length sm
        let offsetIndex := added.1.headD 0
        let modulators2 := modulators.map (shift offsetIndex)
        (setMods env id1 (added.1.zip modulators2) valTmp added.2, [])

/-- Calls of a store that only records them. -/
inductive StoreCall where
  | add (id : EltID)
  | set (id : EltID) (type : AttributeType) (value : AttributeValue)
  deriving DecidableEq, Repr

/-- Attributes of two modulators for the examples: modulator 5 is linked to modulator 9, and
modulator 9 to a modulator 7; both have the link source (`Index` 127, `CC` 0). -/
def exampleModValue (id : EltID) (t : AttributeType) : AttributeValue :=
  match t with
  | AttributeType.champ_sfModDestOper =>
    if id.indexMod = 5 then { bits := 32768 + 9 }
    else if id.indexMod = 9 then { bits := 32768 + 7 }
    else { bits := 0 }
  | AttributeType.champ_sfModSrcOper => { bits := 127 }
  | _ => { bits := 0 }

/-- A store for the examples: the log of the calls `add` and `set`; `add` returns the number
of elements added before; the attributes read are those of `exampleModValue`. -/
def exampleEnv (code : AttributeType → Int) : Env (List StoreCall) where
  get := fun _ id t => exampleModValue id t
  getSiblings := fun _ _ => []
  add := fun sm id =>
    (((sm.filter fun c => match c with | StoreCall.add _ => true | _ => false).length : Int),
      sm ++ [StoreCall.add id])
  set := fun sm id t v => sm ++ [StoreCall.set id t v]
  code := code
  sfModValue := fun v => { Index := v.bits % 128, CC := v.bits / 128 % 2, rest := v.bits / 256 }
  sfGenValue := fun v => v.wValue
  sfTransValue := fun v => v.wValue
  setSfModValue := fun _ m => { bits := m.Index + 128 * m.CC + 256 * m.rest }
  setSfGenValue := fun v x => v.setWValue x
  setSfTransValue := fun v x => v.setWValue x

/-- Integer values of the enumerators for the examples: the position in the enumeration. -/
def exampleCode (t : AttributeType) : Int := (t.toCtorIdx : Int)

end ModulatorEditor

/-- The two modulators selected in the examples, modulators 5 and 9 of an instrument. -/
def exampleSelection : List EltID :=
  [{ typeElement := ElementType.elementInstMod, indexSf2 := 0, indexElt := 0, indexElt2 := -1,
     indexMod := 5 },
   { typeElement := ElementType.elementInstMod, indexSf2 := 0, indexElt := 0, indexElt2 := -1,
     indexMod := 9 }]

/-- Two modulators to paste in the examples: the first one is allowed in a preset, the second
one has the destination `champ_keynum`. -/
def exampleModulators : List ModulatorEditor.Modulator :=
  [{ modSrcOper := { Index := 2, CC := 1, rest := 0 },
     modDestOper := ModulatorEditor.exampleCode AttributeType.champ_pan, modAmount := 10,
     modAmtSrcOper := { Index := 0, CC := 0, rest := 0 }, modTransOper := 0, index := 0 },
   { modSrcOper := { Index := 2, CC := 1, rest := 0 },
     modDestOper := ModulatorEditor.exampleCode AttributeType.champ_keynum, modAmount := 10,
     modAmtSrcOper := { Index := 0, CC := 0, rest := 0 }, modTransOper := 0, index := 1 }]

/-! ## Lemmas on the rounding to double precision -/

/-- The fuel-driven logarithm brackets its argument between two powers of 2. -/
theorem floorLog2Fuel_spec : ∀ (fuel n : Nat), 1 ≤ n → n ≤ fuel →
    2 ^ floorLog2Fuel fuel n ≤ n ∧ n < 2 ^ (floorLog2Fuel fuel n + 1) := by
  intro fuel
  induction fuel with
  | zero => intro n h1 h2; omega
  | succ f ih =>
    intro n h1 h2
    unfold floorLog2Fuel
    by_cases hn : n < 2
    · rw [if_pos hn]
      have : n = 1 := by omega
      subst this
      simp
    · rw [if_neg hn]
      obtain ⟨a, b⟩ := ih (n / 2) (by omega) (by omega)
      rw [pow_succ] at b ⊢
      rw [pow_succ]
      constructor <;> omega

/-- The logarithm brackets its argument between two powers of 2. -/
theorem floorLog2_spec (n : Nat) (h : 1 ≤ n) :
    2 ^ floorLog2 n ≤ n ∧ n < 2 ^ (floorLog2 n + 1) :=
  floorLog2Fuel_spec n n h (Nat.le_refl n)

/-- Rounding to the nearest natural number moves the quotient by at most one half. -/
theorem roundHalfEven_err (n d : Nat) (hd : 0 < d) :
    |((roundHalfEven n d : Nat) : ℚ) - (n : ℚ) / (d : ℚ)| ≤ 1 / 2 := by
  have hdq : (0 : ℚ) < (d : ℚ) := by exact_mod_cast hd
  have hsplit : (n : ℚ) / (d : ℚ) = ((n / d : Nat) : ℚ) + ((n % d : Nat) : ℚ) / (d : ℚ) := by
    have h := Nat.div_add_mod n d
    have hq : (n : ℚ) = (d : ℚ) * ((n / d : Nat) : ℚ) + ((n % d : Nat) : ℚ) := by
      exact_mod_cast h.symm
    rw [div_eq_iff (ne_of_gt hdq), add_mul, div_mul_cancel₀ _ (ne_of_gt hdq)]
    linarith
  have hr0 : (0 : ℚ) ≤ ((n % d : Nat) : ℚ) / (d : ℚ) := by positivity
  have hr1 : ((n % d : Nat) : ℚ) / (d : ℚ) < 1 := by
    rw [div_lt_one hdq]
    exact_mod_cast Nat.mod_lt n hd
  rw [hsplit, abs_le]
  unfold roundHalfEven
  by_cases h1 : 2 * (n % d) < d
  · rw [if_pos h1]
    have : ((n % d : Nat) : ℚ) / (d : ℚ) ≤ 1 / 2 := by
      rw [div_le_iff₀ hdq]
      have : (2 : ℚ) * ((n % d : Nat) : ℚ) < (d : ℚ) := by exact_mod_cast h1
      linarith
    constructor <;> linarith
  · rw [if_neg h1]
    have hge : (1 : ℚ) / 2 ≤ ((n % d : Nat) : ℚ) / (d : ℚ) := by
      rw [le_div_iff₀ hdq]
      have : (d : ℚ) ≤ (2 : ℚ) * ((n % d : Nat) : ℚ) := by exact_mod_cast not_lt.mp h1
      linarith
    by_cases h2 : d < 2 * (n % d)
    · rw [if_pos h2]
      push_cast
      constructor <;> linarith
    · rw [if_neg h2]
      have heq : ((n % d : Nat) : ℚ) / (d : ℚ) = 1 / 2 := by
        have : 2 * (n % d) = d := by omega
        rw [div_eq_iff (ne_of_gt hdq)]
        have hc : (2 : ℚ) * ((n % d : Nat) : ℚ) = (d : ℚ) := by exact_mod_cast this
        linarith
      by_cases h3 : n / d % 2 = 0
      · rw [if_pos h3]
        constructor <;> linarith
      · rw [if_neg h3]
        push_cast
        constructor <;> linarith

/-- A power of 2 with a non-negative integer exponent. -/
theorem two_zpow_of_nonneg (k : Int) (hk : 0 ≤ k) :
    (2 : ℚ) ^ k = ((2 ^ k.toNat : Nat) : ℚ) := by
  have h : (2 : ℚ) ^ k = (2 : ℚ) ^ ((k.toNat : Nat) : Int) := by
    rw [Int.toNat_of_nonneg hk]
  rw [h, zpow_natCast]
  push_cast
  rfl

/-- A power of 2 with a non-positive integer exponent. -/
theorem two_zpow_of_nonpos (k : Int) (hk : k ≤ 0) :
    (2 : ℚ) ^ k = 1 / ((2 ^ (-k).toNat : Nat) : ℚ) := by
  have h : (2 : ℚ) ^ k = ((2 : ℚ) ^ (-k))⁻¹ := by
    rw [zpow_neg, inv_inv]
  rw [h, two_zpow_of_nonneg (-k) (by omega), one_div]

/-- The test `leQuotient` decides `2 ^ k ≤ n / d`. -/
theorem leQuotient_iff (k : Int) (n d : Nat) (hd : 0 < d) :
    leQuotient k n d = true ↔ (2 : ℚ) ^ k ≤ (n : ℚ) / (d : ℚ) := by
  have hdq : (0 : ℚ) < (d : ℚ) := by exact_mod_cast hd
  unfold leQuotient
  by_cases hk : 0 ≤ k
  · rw [if_pos hk, decide_eq_true_eq, two_zpow_of_nonneg k hk, le_div_iff₀ hdq]
    constructor
    · intro h
      have : ((d * 2 ^ k.toNat : Nat) : ℚ) ≤ (n : ℚ) := by exact_mod_cast h
      push_cast at this ⊢
      linarith
    · intro h
      have : ((d * 2 ^ k.toNat : Nat) : ℚ) ≤ (n : ℚ) := by
        push_cast at h ⊢
        linarith
      exact_mod_cast this
  · have hp : (0 : ℚ) < ((2 ^ (-k).toNat : Nat) : ℚ) := by positivity
    rw [if_neg hk, decide_eq_true_eq, two_zpow_of_nonpos k (by omega), le_div_iff₀ hdq,
      one_div, inv_mul_le_iff₀ hp]
    constructor
    · intro h
      have : ((d : Nat) : ℚ) ≤ ((n * 2 ^ (-k).toNat : Nat) : ℚ) := by exact_mod_cast h
      push_cast at this ⊢
      linarith
    · intro h
      have : ((d : Nat) : ℚ) ≤ ((n * 2 ^ (-k).toNat : Nat) : ℚ) := by
        push_cast at h ⊢
        linarith
      exact_mod_cast this

/-- A positive quotient lies between the powers of 2 that the logarithms give. -/
theorem quotient_bracket (n d : Nat) (hn : 0 < n) (hd : 0 < d) :
    (2 : ℚ) ^ ((floorLog2 n : Int) - (floorLog2 d : Int) - 1) < (n : ℚ) / (d : ℚ) ∧
    (n : ℚ) / (d : ℚ) < (2 : ℚ) ^ ((floorLog2 n : Int) - (floorLog2 d : Int) + 1) := by
  obtain ⟨a1, a2⟩ := floorLog2_spec n hn
  obtain ⟨b1, b2⟩ := floorLog2_spec d hd
  have hdq : (0 : ℚ) < (d : ℚ) := by exact_mod_cast hd
  have a1q : (2 : ℚ) ^ floorLog2 n ≤ (n : ℚ) := by exact_mod_cast a1
  have a2q : (n : ℚ) < (2 : ℚ) ^ (floorLog2 n + 1) := by exact_mod_cast a2
  have b1q : (2 : ℚ) ^ floorLog2 d ≤ (d : ℚ) := by exact_mod_cast b1
  have b2q : (d : ℚ) < (2 : ℚ) ^ (floorLog2 d + 1) := by exact_mod_cast b2
  have hL : (0 : ℚ) < (2 : ℚ) ^ floorLog2 n := by positivity
  have hM : (0 : ℚ) < (2 : ℚ) ^ floorLog2 d := by positivity
  have e1 : (2 : ℚ) ^ ((floorLog2 n : Int) - (floorLog2 d : Int) - 1)
      = (2 : ℚ) ^ floorLog2 n / ((2 : ℚ) ^ floorLog2 d * 2) := by
    rw [zpow_sub₀ (by norm_num : (2 : ℚ) ≠ 0), zpow_sub₀ (by norm_num : (2 : ℚ) ≠ 0),
      zpow_natCast, zpow_natCast, zpow_one, div_div]
  have e2 : (2 : ℚ) ^ ((floorLog2 n : Int) - (floorLog2 d : Int) + 1)
      = (2 : ℚ) ^ floorLog2 n * 2 / (2 : ℚ) ^ floorLog2 d := by
    rw [zpow_add₀ (by norm_num : (2 : ℚ) ≠ 0), zpow_sub₀ (by norm_num : (2 : ℚ) ≠ 0),
      zpow_natCast, zpow_natCast, zpow_one]
    ring
  rw [e1, e2]
  rw [pow_succ] at a2q b2q
  constructor
  · rw [div_lt_div_iff₀ (by positivity) hdq]
    nlinarith
  · rw [div_lt_div_iff₀ hdq hM]
    nlinarith

/-- The exponent of the unit in the last place: it is not below -1074, the quotient is below
`2 ^ (e + 53)`, and not below `2 ^ (e + 52)` outside the subnormal range. -/
theorem ulpExponent_spec (n d : Nat) (hn : 0 < n) (hd : 0 < d) :
    -1074 ≤ ulpExponent n d ∧
    (n : ℚ) / (d : ℚ) < (2 : ℚ) ^ (ulpExponent n d + 53) ∧
    (-1074 < ulpExponent n d → (2 : ℚ) ^ (ulpExponent n d + 52) ≤ (n : ℚ) / (d : ℚ)) := by
  obtain ⟨hlo, hhi⟩ := quotient_bracket n d hn hd
  have h2 : (1 : ℚ) ≤ 2 := by norm_num
  -- the exponent before the clamp
  have key : ∀ e0 : Int,
      (n : ℚ) / (d : ℚ) < (2 : ℚ) ^ (e0 + 53) → (2 : ℚ) ^ (e0 + 52) ≤ (n : ℚ) / (d : ℚ) →
      -1074 ≤ (if e0 < -1074 then -1074 else e0) ∧
      (n : ℚ) / (d : ℚ) < (2 : ℚ) ^ ((if e0 < -1074 then -1074 else e0) + 53) ∧
      (-1074 < (if e0 < -1074 then -1074 else e0) →
        (2 : ℚ) ^ ((if e0 < -1074 then -1074 else e0) + 52) ≤ (n : ℚ) / (d : ℚ)) := by
    intro e0 h1 h3
    by_cases hc : e0 < -1074
    · rw [if_pos hc]
      refine ⟨le_refl _, ?_, fun h => absurd h (lt_irrefl _)⟩
      exact lt_of_lt_of_le h1 (zpow_le_zpow_right₀ h2 (by omega))
    · rw [if_neg hc]
      exact ⟨by omega, h1, fun _ => h3⟩
  unfold ulpExponent
  simp only
  by_cases hq : leQuotient ((floorLog2 n : Int) - (floorLog2 d : Int)) n d = true
  · rw [if_pos hq]
    apply key
    · have : (floorLog2 n : Int) - (floorLog2 d : Int) - 52 + 53
          = (floorLog2 n : Int) - (floorLog2 d : Int) + 1 := by ring
      rw [this]
      exact hhi
    · have : (floorLog2 n : Int) - (floorLog2 d : Int) - 52 + 52
          = (floorLog2 n : Int) - (floorLog2 d : Int) := by ring
      rw [this]
      exact (leQuotient_iff _ n d hd).mp hq
  · rw [if_neg hq]
    apply key
    · have : (floorLog2 n : Int) - (floorLog2 d : Int) - 53 + 53
          = (floorLog2 n : Int) - (floorLog2 d : Int) := by ring
      rw [this]
      have := (leQuotient_iff ((floorLog2 n : Int) - (floorLog2 d : Int)) n d hd).not.mp hq
      exact not_le.mp this
    · have : (floorLog2 n : Int) - (floorLog2 d : Int) - 53 + 52
          = (floorLog2 n : Int) - (floorLog2 d : Int) - 1 := by ring
      rw [this]
      exact le_of_lt hlo

/-- The rounded value is within half a unit in the last place of the quotient. -/
theorem roundBinary64_ulp (n d : Nat) (hd : 0 < d) :
    |roundBinary64 n d - (n : ℚ) / (d : ℚ)| ≤ (2 : ℚ) ^ ulpExponent n d / 2 := by
  have hdq : (0 : ℚ) < (d : ℚ) := by exact_mod_cast hd
  unfold roundBinary64
  by_cases he : 0 ≤ ulpExponent n d
  · rw [if_pos he, two_zpow_of_nonneg _ he]
    have hp : (0 : ℚ) < ((2 ^ (ulpExponent n d).toNat : Nat) : ℚ) := by positivity
    have herr := roundHalfEven_err n (d * 2 ^ (ulpExponent n d).toNat) (by positivity)
    have hx : (n : ℚ) / (d : ℚ)
        = (n : ℚ) / ((d * 2 ^ (ulpExponent n d).toNat : Nat) : ℚ)
          * ((2 ^ (ulpExponent n d).toNat : Nat) : ℚ) := by
      push_cast
      field_simp
      ring
    rw [hx, Nat.cast_mul, ← sub_mul, abs_mul, abs_of_pos hp]
    calc _ ≤ 1 / 2 * ((2 ^ (ulpExponent n d).toNat : Nat) : ℚ) :=
          mul_le_mul_of_nonneg_right herr (le_of_lt hp)
      _ = _ := by ring
  · rw [if_neg he, two_zpow_of_nonpos _ (by omega)]
    have hp : (0 : ℚ) < ((2 ^ (-ulpExponent n d).toNat : Nat) : ℚ) := by positivity
    have herr := roundHalfEven_err (n * 2 ^ (-ulpExponent n d).toNat) d hd
    rw [Rat.mkRat_eq_div]
    have hx : (n : ℚ) / (d : ℚ)
        = ((n * 2 ^ (-ulpExponent n d).toNat : Nat) : ℚ) / (d : ℚ)
          / ((2 ^ (-ulpExponent n d).toNat : Nat) : ℚ) := by
      push_cast
      field_simp
      ring
    rw [hx]
    push_cast
    push_cast at herr
    rw [← sub_div, abs_div, abs_of_pos (by positivity : (0 : ℚ) < 2 ^ (-ulpExponent n d).toNat)]
    rw [div_le_iff₀ (by positivity)]
    calc _ ≤ (1 : ℚ) / 2 := herr
      _ = _ := by field_simp

/-- Zero is rounded to zero. -/
theorem roundBinary64_zero (d : Nat) (hd : 0 < d) : roundBinary64 0 d = 0 := by
  have h0 : ∀ k : Nat, 0 < k → roundHalfEven 0 k = 0 := by
    intro k hk
    simp [roundHalfEven, hk]
  unfold roundBinary64
  by_cases he : 0 ≤ ulpExponent 0 d
  · rw [if_pos he, h0 _ (by positivity)]
    simp
  · rw [if_neg he]
    simp only [zero_mul]
    rw [h0 d hd]
    simp

/-- Relative error of the rounding: at most `2 ^ -53` of the quotient, and `2 ^ -1075` in the
subnormal range. -/
theorem roundBinary64_err (n d : Nat) (hd : 0 < d) :
    |roundBinary64 n d - (n : ℚ) / (d : ℚ)| ≤ (n : ℚ) / (d : ℚ) / 2 ^ 53 + 1 / 2 ^ 1075 := by
  have hdq : (0 : ℚ) < (d : ℚ) := by exact_mod_cast hd
  rcases Nat.eq_zero_or_pos n with h0 | hn
  · subst h0
    rw [roundBinary64_zero d hd]
    simp
  · obtain ⟨s1, _, s3⟩ := ulpExponent_spec n d hn hd
    have hx : (0 : ℚ) ≤ (n : ℚ) / (d : ℚ) := by positivity
    refine le_trans (roundBinary64_ulp n d hd) ?_
    by_cases hc : -1074 < ulpExponent n d
    · have h52 := s3 hc
      have e : (2 : ℚ) ^ ulpExponent n d / 2 = (2 : ℚ) ^ (ulpExponent n d + 52) / 2 ^ 53 := by
        rw [zpow_add₀ (by norm_num : (2 : ℚ) ≠ 0)]
        norm_num
        ring
      rw [e]
      have : (2 : ℚ) ^ (ulpExponent n d + 52) / 2 ^ 53 ≤ (n : ℚ) / (d : ℚ) / 2 ^ 53 :=
        div_le_div_of_nonneg_right h52 (by positivity)
      have hpos : (0 : ℚ) ≤ 1 / 2 ^ 1075 := by positivity
      linarith
    · have he : ulpExponent n d = -1074 := by omega
      rw [he]
      have e : (2 : ℚ) ^ (-1074 : Int) / 2 = 1 / 2 ^ 1075 := by
        rw [zpow_neg, show ((1074 : Int)) = ((1074 : Nat) : Int) by rfl, zpow_natCast]
        rw [pow_succ]
        field_simp
        ring
      rw [e]
      have : (0 : ℚ) ≤ (n : ℚ) / (d : ℚ) / 2 ^ 53 := by positivity
      linarith

/-- Relative error of the conversion to `double`. -/
theorem toDouble_err (q : ℚ) : |toDouble q - q| ≤ |q| / 2 ^ 53 + 1 / 2 ^ 1075 := by
  have hden : 0 < q.den := q.den_pos
  have hq : q = (q.num : ℚ) / (q.den : ℚ) := (Rat.num_div_den q).symm
  unfold toDouble
  by_cases hneg : q.num < 0
  · rw [if_pos hneg]
    have hn : ((q.num.natAbs : Nat) : ℚ) = -(q.num : ℚ) := by
      have hz : (q.num : ℚ) < 0 := by exact_mod_cast hneg
      rw [Nat.cast_natAbs, Int.cast_abs, abs_of_neg hz]
    have hx : (q.num.natAbs : ℚ) / (q.den : ℚ) = -q := by
      rw [hn, neg_div, ← hq]
    have hqneg : q < 0 := Rat.num_neg.mp hneg
    have := roundBinary64_err q.num.natAbs q.den hden
    rw [hx] at this
    rw [abs_of_neg hqneg]
    have e : -roundBinary64 q.num.natAbs q.den - q
        = -(roundBinary64 q.num.natAbs q.den - -q) := by ring
    rw [e, abs_neg]
    exact this
  · rw [if_neg hneg]
    have hn : ((q.num.natAbs : Nat) : ℚ) = (q.num : ℚ) := by
      have hz : (0 : ℚ) ≤ (q.num : ℚ) := by exact_mod_cast not_lt.mp hneg
      rw [Nat.cast_natAbs, Int.cast_abs, abs_of_nonneg hz]
    have hx : (q.num.natAbs : ℚ) / (q.den : ℚ) = q := by
      rw [hn, ← hq]
    have hqpos : 0 ≤ q := Rat.num_nonneg.mp (not_lt.mp hneg)
    have := roundBinary64_err q.num.natAbs q.den hden
    rw [hx] at this
    rw [abs_of_nonneg hqpos]
    exact this

/-- The literal `0.01` as a `double`. -/
theorem toDouble_hundredth :
    toDouble (1 / 100) = 5764607523034235 / 576460752303423488 := by
  decide!

/-- The `double` value of `0.01 * c + s` is within `(|s| + |c| + 1) / 2 ^ 52` of
`s + c / 100`. -/
theorem dadd_dmul_hundredth_err (s c : Int) :
    |dadd (dmul (toDouble (1 / 100)) (c : ℚ)) (s : ℚ) - ((s : ℚ) + (c : ℚ) / 100)|
      ≤ (|(s : ℚ)| + |(c : ℚ)| + 1) / 2 ^ 52 := by
  have hδ : (1 : ℚ) / 2 ^ 1075 ≤ 1 / 2 ^ 60 :=
    one_div_le_one_div_of_le (by positivity) (pow_le_pow_right₀ (by norm_num) (by norm_num))
  unfold dadd dmul
  rw [toDouble_hundredth]
  have h1 := toDouble_err ((5764607523034235 / 576460752303423488 : ℚ) * (c : ℚ))
  have h2 := toDouble_err
    (toDouble ((5764607523034235 / 576460752303423488 : ℚ) * (c : ℚ)) + (s : ℚ))
  have hA : (0 : ℚ) ≤ |(c : ℚ)| := abs_nonneg _
  have hB : (0 : ℚ) ≤ |(s : ℚ)| := abs_nonneg _
  have hDc : |(5764607523034235 / 576460752303423488 : ℚ) * (c : ℚ)|
      = 5764607523034235 / 576460752303423488 * |(c : ℚ)| := by
    rw [abs_mul, abs_of_pos (by norm_num : (0 : ℚ) < 5764607523034235 / 576460752303423488)]
  have h3 : |(5764607523034235 / 576460752303423488 : ℚ) * (c : ℚ) - (c : ℚ) / 100|
      = 3 / 14411518807585587200 * |(c : ℚ)| := by
    have : (5764607523034235 / 576460752303423488 : ℚ) * (c : ℚ) - (c : ℚ) / 100
        = 3 / 14411518807585587200 * (c : ℚ) := by ring
    rw [this, abs_mul, abs_of_pos (by norm_num : (0 : ℚ) < 3 / 14411518807585587200)]
  rw [hDc] at h1
  set p := toDouble ((5764607523034235 / 576460752303423488 : ℚ) * (c : ℚ)) with hp
  set x := toDouble (p + (s : ℚ)) with hx
  have hP : |p| ≤ |p - 5764607523034235 / 576460752303423488 * (c : ℚ)|
      + 5764607523034235 / 576460752303423488 * |(c : ℚ)| := by
    have := abs_add (p - 5764607523034235 / 576460752303423488 * (c : ℚ))
      (5764607523034235 / 576460752303423488 * (c : ℚ))
    rw [sub_add_cancel, hDc] at this
    exact this
  have hPS : |p + (s : ℚ)| ≤ |p| + |(s : ℚ)| := abs_add _ _
  have hsplit : x - ((s : ℚ) + (c : ℚ) / 100)
      = (x - (p + (s : ℚ)))
        + ((p - 5764607523034235 / 576460752303423488 * (c : ℚ))
          + (5764607523034235 / 576460752303423488 * (c : ℚ) - (c : ℚ) / 100)) := by ring
  rw [hsplit]
  have t1 := abs_add (x - (p + (s : ℚ)))
    ((p - 5764607523034235 / 576460752303423488 * (c : ℚ))
      + (5764607523034235 / 576460752303423488 * (c : ℚ) - (c : ℚ) / 100))
  have t2 := abs_add (p - 5764607523034235 / 576460752303423488 * (c : ℚ))
    (5764607523034235 / 576460752303423488 * (c : ℚ) - (c : ℚ) / 100)
  rw [h3] at t2
  have e53 : (2 : ℚ) ^ 53 = 9007199254740992 := by norm_num
  have e52 : (2 : ℚ) ^ 52 = 4503599627370496 := by norm_num
  have e60 : (2 : ℚ) ^ 60 = 1152921504606846976 := by norm_num
  rw [e53] at h1 h2
  rw [e60] at hδ
  rw [e52]
  have g1 : |p - 5764607523034235 / 576460752303423488 * (c : ℚ)|
      ≤ 5764607523034235 / 576460752303423488 * |(c : ℚ)| / 9007199254740992
        + 1 / 1152921504606846976 := le_trans h1 (by linarith)
  have g2 : |x - (p + (s : ℚ))| ≤ |p + (s : ℚ)| / 9007199254740992
      + 1 / 1152921504606846976 := le_trans h2 (by linarith)
  have g3 : |p + (s : ℚ)| / 9007199254740992 ≤ (|p| + |(s : ℚ)|) / 9007199254740992 :=
    div_le_div_of_nonneg_right hPS (by norm_num)
  linarith

set_option maxRecDepth 1000000 in
/-- The gain computed for the channel volumes 0 to 127: each is within `2 ^ -46` of
`v / 127 * 101 - 50.5` and below the gain of the next volume. -/
theorem volume_gain_table : ∀ v : Nat, v < 128 →
    -(1 / 2 ^ 46 : ℚ)
        ≤ dsub (dmul (ddiv (((v : Nat) : Int) : ℚ) 127) 101) (101 / 2)
          - ((v : ℚ) / 127 * 101 - 101 / 2) ∧
    dsub (dmul (ddiv (((v : Nat) : Int) : ℚ) 127) 101) (101 / 2)
        - ((v : ℚ) / 127 * 101 - 101 / 2) ≤ 1 / 2 ^ 46 ∧
    dsub (dmul (ddiv (((v : Nat) : Int) : ℚ) 127) 101) (101 / 2)
      < dsub (dmul (ddiv (((v + 1 : Nat) : Int) : ℚ) 127) 101) (101 / 2) := by
  decide!

/-- The gain is strictly increasing over the channel volumes 0 to 127. -/
theorem volume_gain_increasing (n m : Nat) (h : n < m) (hm : m ≤ 127) :
    dsub (dmul (ddiv (((n : Nat) : Int) : ℚ) 127) 101) (101 / 2)
      < dsub (dmul (ddiv (((m : Nat) : Int) : ℚ) 127) 101) (101 / 2) := by
  induction m with
  | zero => omega
  | succ k ih =>
    have hstep := (volume_gain_table k (by omega)).2.2
    rcases Nat.lt_succ_iff_lt_or_eq.mp h with hlt | heq
    · exact lt_trans (ih hlt (by omega)) hstep
    · rw [heq]
      exact hstep

/-! ## Lemmas on the MIDI state machine -/

namespace MidiDevice

theorem keyPlayedEvents_append (a b : List Effect) :
    keyPlayedEvents (a ++ b) = keyPlayedEvents a ++ keyPlayedEvents b := by
  simp [keyPlayedEvents]

theorem bendSensitivityEvents_append (a b : List Effect) :
    bendSensitivityEvents (a ++ b) = bendSensitivityEvents a ++ bendSensitivityEvents b := by
  simp [bendSensitivityEvents]

/-- With the pedal up, `processKeyOff` of a real key emits exactly one release and
touches nothing but the log. -/
theorem processKeyOff_sustainOff (s : MidiDevice) (k : Int) (sync : Bool)
    (hk : k ≠ -1) (hs : s.isSustainOn = false) :
    (processKeyOff s k sync).listKeysToRelease = s.listKeysToRelease ∧
    (processKeyOff s k sync).isSustainOn = false ∧
    (processKeyOff s k sync).keyboard = s.keyboard ∧
    (processKeyOff s k sync).controllerArea = s.controllerArea ∧
    keyPlayedEvents (processKeyOff s k sync).out = keyPlayedEvents s.out ++ [(k, 0)] := by
  unfold processKeyOff
  by_cases hkb : (s.keyboard && sync) = true
  · simp [hkb, hk, hs, emit, keyPlayedEvents]
  · simp [hkb, hk, hs, emit, keyPlayedEvents]

/-- With the pedal up the release loop stops after one turn per held key, emits one
release per key, oldest first, and leaves the queue empty. -/
theorem releaseSustainedKeys_sustainOff (fuel : Nat) (s : MidiDevice)
    (hs : s.isSustainOn = false) (hf : s.listKeysToRelease.length ≤ fuel)
    (hm : ∀ k ∈ s.listKeysToRelease, k ≠ -1) :
    ∃ s', releaseSustainedKeys fuel s = Except.ok s' ∧ s'.listKeysToRelease = [] ∧
      s'.isSustainOn = false ∧ s'.keyboard = s.keyboard ∧
      s'.controllerArea = s.controllerArea ∧
      keyPlayedEvents s'.out =
        keyPlayedEvents s.out ++ s.listKeysToRelease.map (fun k => (k, 0)) := by
  induction fuel generalizing s with
  | zero =>
    have hq : s.listKeysToRelease = [] := List.length_eq_zero.mp (Nat.le_zero.mp hf)
    refine ⟨s, ?_, hq, hs, rfl, rfl, ?_⟩
    · simp only [releaseSustainedKeys, hq]
    · simp [hq]
  | succ n ih =>
    cases hq : s.listKeysToRelease with
    | nil =>
      refine ⟨s, ?_, hq, hs, rfl, rfl, ?_⟩
      · simp only [releaseSustainedKeys, hq]
      · simp
    | cons k rest =>
      have hk : k ≠ -1 := hm k (by simp [hq])
      have hstep := processKeyOff_sustainOff { s with listKeysToRelease := rest } k true hk hs
      obtain ⟨h1, h2, h3, h4, h5⟩ := hstep
      have hlen : (processKeyOff { s with listKeysToRelease := rest } k true).listKeysToRelease.length
          ≤ n := by
        rw [h1]; simp [hq] at hf; simpa using hf
      have hm2 : ∀ j ∈ (processKeyOff { s with listKeysToRelease := rest } k
          true).listKeysToRelease, j ≠ -1 := by
        intro j hj
        rw [h1] at hj
        exact hm j (by simp only [hq]; exact List.mem_cons_of_mem _ hj)
      obtain ⟨s2, e1, e2, e3, e4, e5, e6⟩ := ih _ h2 hlen hm2
      refine ⟨s2, ?_, e2, e3, ?_, ?_, ?_⟩
      · simp only [releaseSustainedKeys, hq]; exact e1
      · rw [e4, h3]
      · rw [e5, h4]
      · rw [e6, h5, h1]; simp

/-- The sustain flag is not written by `processKeyOff`. -/
theorem processKeyOff_isSustainOn (s : MidiDevice) (k : Int) (sync : Bool) :
    (processKeyOff s k sync).isSustainOn = s.isSustainOn := by
  unfold processKeyOff
  by_cases hkb : (s.keyboard && sync) = true <;> by_cases hk : k = -1 <;>
    by_cases hs : s.isSustainOn = true <;> by_cases hc : k ∈ s.listKeysToRelease <;>
    simp [hkb, hk, hs, hc, emit]

/-- Every key of the queue is still in it after `processKeyOff`. -/
theorem processKeyOff_queue_mono (s : MidiDevice) (k j : Int) (sync : Bool)
    (hj : j ∈ s.listKeysToRelease) : j ∈ (processKeyOff s k sync).listKeysToRelease := by
  unfold processKeyOff
  by_cases hkb : (s.keyboard && sync) = true <;> by_cases hk : k = -1 <;>
    by_cases hs : s.isSustainOn = true <;> by_cases hc : k ∈ s.listKeysToRelease <;>
    simp [hkb, hk, hs, hc, emit, hj]

/-- With the pedal down, a real key is in the queue after `processKeyOff`. -/
theorem processKeyOff_sustainOn_mem (s : MidiDevice) (k : Int) (sync : Bool)
    (hk : k ≠ -1) (hs : s.isSustainOn = true) :
    k ∈ (processKeyOff s k sync).listKeysToRelease := by
  unfold processKeyOff
  by_cases hkb : (s.keyboard && sync) = true <;>
    by_cases hc : k ∈ s.listKeysToRelease <;>
    simp [hkb, hk, hs, hc, emit]

/-- With the pedal down, a queue that holds a real key never empties: the loop re-queues
every key it takes, so it does not stop for any amount of fuel. -/
theorem releaseSustainedKeys_sustainOn_diverges (fuel : Nat) (s : MidiDevice)
    (hs : s.isSustainOn = true) (hq : ∃ k ∈ s.listKeysToRelease, k ≠ -1) :
    releaseSustainedKeys fuel s = Except.error Fault.outOfFuel := by
  induction fuel generalizing s with
  | zero =>
    obtain ⟨k, hk, _⟩ := hq
    cases hl : s.listKeysToRelease with
    | nil => simp [hl] at hk
    | cons a rest => simp only [releaseSustainedKeys, hl]
  | succ n ih =>
    obtain ⟨k, hk, hk1⟩ := hq
    cases hl : s.listKeysToRelease with
    | nil => simp [hl] at hk
    | cons a rest =>
      simp only [releaseSustainedKeys, hl]
      apply ih
      · rw [processKeyOff_isSustainOn]; exact hs
      · rw [hl] at hk
        rcases List.mem_cons.mp hk with hka | hkr
        · subst hka
          exact ⟨k, processKeyOff_sustainOn_mem _ k true hk1 hs, hk1⟩
        · exact ⟨k, processKeyOff_queue_mono _ a k true hkr, hk1⟩

/-- Pedal down. -/
theorem processControllerChanged_sustainDown (fuel : Nat) (s : MidiDevice) (d : Int)
    (sync : Bool) (hd : 64 ≤ d) (hA : sync = true → s.controllerArea = true) :
    ∃ s2, processControllerChanged fuel s 64 d sync = Except.ok s2 ∧
      s2.isSustainOn = true ∧ s2.listKeysToRelease = s.listKeysToRelease ∧
      s2.keyboard = s.keyboard ∧ s2.controllerArea = s.controllerArea ∧
      keyPlayedEvents s2.out = keyPlayedEvents s.out := by
  unfold processControllerChanged
  cases sync with
  | false => simp [hd, bind, Except.bind]
  | true =>
    have := hA rfl
    simp [hd, bind, Except.bind, this, emit, keyPlayedEvents]

/-- Pedal up. -/
theorem processControllerChanged_sustainUp (fuel : Nat) (s : MidiDevice) (u : Int)
    (sync : Bool) (hu : u < 64) (hf : s.listKeysToRelease.length ≤ fuel)
    (hm : ∀ k ∈ s.listKeysToRelease, k ≠ -1)
    (hA : sync = true → s.controllerArea = true) :
    ∃ s2, processControllerChanged fuel s 64 u sync = Except.ok s2 ∧
      s2.isSustainOn = false ∧ s2.listKeysToRelease = [] ∧
      s2.keyboard = s.keyboard ∧ s2.controllerArea = s.controllerArea ∧
      keyPlayedEvents s2.out =
        keyPlayedEvents s.out ++ s.listKeysToRelease.map (fun k => (k, 0)) := by
  have hu64 : ¬ (64 ≤ u) := by omega
  obtain ⟨s1, e1, e2, e3, e4, e5, e6⟩ := releaseSustainedKeys_sustainOff fuel
    { s with
      controllerValues := fun n => if n = 64 then some u else s.controllerValues n
      isSustainOn := false } rfl hf hm
  unfold processControllerChanged
  cases sync with
  | false =>
    refine ⟨s1, ?_, e3, e2, e4, e5, e6⟩
    simp [hu64, bind, Except.bind, e1]
  | true =>
    have h5 : s1.controllerArea = true := by rw [e5]; exact hA rfl
    refine ⟨s1.emit [Effect.updateController 64 u], ?_, e3, e2, e4, e5, ?_⟩
    · simp [hu64, bind, Except.bind, e1, h5]
    · simp only [emit, keyPlayedEvents_append, e6]
      simp [keyPlayedEvents]

/-- A note-on for a key that is not held emits the note and leaves queue and flag alone. -/
theorem processKeyOn_notHeld (s : MidiDevice) (k v : Int) (sync : Bool)
    (h : k ∉ s.listKeysToRelease) :
    (processKeyOn s k v sync).listKeysToRelease = s.listKeysToRelease ∧
    (processKeyOn s k v sync).isSustainOn = s.isSustainOn ∧
    (processKeyOn s k v sync).keyboard = s.keyboard ∧
    (processKeyOn s k v sync).controllerArea = s.controllerArea ∧
    keyPlayedEvents (processKeyOn s k v sync).out = keyPlayedEvents s.out ++ [(k, v)] := by
  unfold processKeyOn
  by_cases hkb : (s.keyboard && sync) = true <;> simp [hkb, h, emit, keyPlayedEvents]

/-- With the pedal down, a note-off of a real key emits nothing and queues the key unless
it is queued already. -/
theorem processKeyOff_sustainOn (s : MidiDevice) (k : Int) (sync : Bool)
    (hk : k ≠ -1) (hs : s.isSustainOn = true) :
    (processKeyOff s k sync).listKeysToRelease =
      (if k ∈ s.listKeysToRelease then s.listKeysToRelease else s.listKeysToRelease ++ [k]) ∧
    (processKeyOff s k sync).keyboard = s.keyboard ∧
    (processKeyOff s k sync).controllerArea = s.controllerArea ∧
    keyPlayedEvents (processKeyOff s k sync).out = keyPlayedEvents s.out := by
  unfold processKeyOff
  by_cases hkb : (s.keyboard && sync) = true <;> by_cases hc : k ∈ s.listKeysToRelease <;>
    simp [hkb, hk, hs, hc, emit, keyPlayedEvents]

/-- With the pedal down, a note-on for a held key emits the new note only: the inner
`processKeyOff` finds the key queued already and does nothing. -/
theorem processKeyOn_held_sustainOn (s : MidiDevice) (k v : Int) (sync : Bool)
    (hk : k ≠ -1) (hs : s.isSustainOn = true) (h : k ∈ s.listKeysToRelease) :
    (processKeyOn s k v sync).listKeysToRelease = s.listKeysToRelease ∧
    keyPlayedEvents (processKeyOn s k v sync).out = keyPlayedEvents s.out ++ [(k, v)] := by
  unfold processKeyOn processKeyOff
  by_cases hkb : (s.keyboard && sync) = true <;>
    simp [hkb, hk, hs, h, emit, keyPlayedEvents, syncKeyboardDefault]

/-- With the pedal up, `stopAll` returns, empties the queue and ends with the stop
directive to the synth. -/
theorem stopAll_sustainOff (fuel : Nat) (s : MidiDevice) (hs : s.isSustainOn = false)
    (hf : s.listKeysToRelease.length ≤ fuel) (hm : ∀ k ∈ s.listKeysToRelease, k ≠ -1)
    (hkb : s.keyboard = true) :
    ∃ s2, stopAll fuel s = Except.ok s2 ∧ s2.listKeysToRelease = [] ∧
      s2.out.getLast? = some Effect.synthStop := by
  obtain ⟨s1, e1, e2, _, e4, _, _⟩ := releaseSustainedKeys_sustainOff fuel s hs hf hm
  refine ⟨(s1.emit [Effect.clearCustomization]).emit [Effect.synthStop], ?_, ?_, ?_⟩
  · simp [stopAll, bind, Except.bind, e1, e4, hkb]
  · simpa [emit] using e2
  · simp [emit]

/-- One message of an RPN controller: the history is pushed, and the bend sensitivity is
written and published exactly when `rpnPublished` says so. -/
theorem processControllerChanged_rpn (fuel : Nat) (s : MidiDevice) (n v : Int) (sync : Bool)
    (hn : n = 101 ∨ n = 100 ∨ n = 6 ∨ n = 38)
    (hA : sync = true → s.controllerArea = true) :
    ∃ s2, processControllerChanged fuel s n v sync = Except.ok s2 ∧
      s2.rpnHistory = rpnPush s.rpnHistory (n, v) ∧
      s2.controllerArea = s.controllerArea ∧
      s2.bendSensitivityValue =
        (rpnPublished (rpnPush s.rpnHistory (n, v)) n).getD s.bendSensitivityValue ∧
      bendSensitivityEvents s2.out =
        bendSensitivityEvents s.out ++ (rpnPublished (rpnPush s.rpnHistory (n, v)) n).toList := by
  have h64 : n ≠ 64 := by omega
  have h7 : n ≠ 7 := by omega
  unfold processControllerChanged
  have hpush : ∀ (h : List (Int × Int)) (m : Int × Int),
      (if (h ++ [m]).length > 4 then (h ++ [m]).tail else h ++ [m]) = rpnPush h m :=
    fun _ _ => rfl
  simp only [h64, h7, hn, if_true, if_false, ite_true, ite_false, ↓reduceIte, hpush]
  generalize rpnPush s.rpnHistory (n, v) = h2
  have hca : sync = true → s.controllerArea = true := hA
  rcases h2 with _ | ⟨r0, _ | ⟨r1, _ | ⟨r2, _ | ⟨r3, _ | ⟨r4, t⟩⟩⟩⟩⟩
  case cons.cons.cons.cons.nil =>
    cases sync <;>
    by_cases h38 : n = 38 <;>
    by_cases hp : (r0.1 = 101 ∧ r0.2 = 0 ∧ r1.1 = 100 ∧ r1.2 = 0 ∧ r2.1 = 6 ∧ r3.1 = 38) <;>
    simp [hp, h38, hA, rpnPublished, rpnBendSensitivity,
      processBendSensitivityChanged, emit, bendSensitivityEvents, bind, Except.bind]
  all_goals
    cases sync <;>
    by_cases h38 : n = 38 <;>
    simp [h38, hA, rpnPublished, rpnBendSensitivity,
      processBendSensitivityChanged, emit, bendSensitivityEvents, bind, Except.bind]

theorem getLast_toList_append (a : Option ℚ) (l : List ℚ) (x : ℚ) :
    ((a.toList ++ l).getLast?).getD x = (l.getLast?).getD (a.getD x) := by
  cases a with
  | none => simp
  | some y =>
    rcases List.eq_nil_or_concat l with rfl | ⟨l2, z, rfl⟩
    · simp
    · have h : (some y).toList ++ l2.concat z = (y :: l2) ++ [z] := by simp
      rw [h, List.concat_eq_append, List.getLast?_append, List.getLast?_append]
      simp

/-- A sequence of RPN messages: the history is pushed message by message and the bend
sensitivity follows `rpnPublishedAll`. -/
theorem feedControllers_rpn (fuel : Nat) (sync : Bool) (msgs : List (Int × Int)) :
    ∀ s : MidiDevice,
      (∀ m ∈ msgs, m.1 = 101 ∨ m.1 = 100 ∨ m.1 = 6 ∨ m.1 = 38) →
      (sync = true → s.controllerArea = true) →
      ∃ s2, feedControllers fuel sync s msgs = Except.ok s2 ∧
        s2.rpnHistory = msgs.foldl rpnPush s.rpnHistory ∧
        s2.controllerArea = s.controllerArea ∧
        s2.bendSensitivityValue =
          ((rpnPublishedAll s.rpnHistory msgs).getLast?).getD s.bendSensitivityValue ∧
        bendSensitivityEvents s2.out =
          bendSensitivityEvents s.out ++ rpnPublishedAll s.rpnHistory msgs := by
  induction msgs with
  | nil =>
    intro s _ _
    exact ⟨s, rfl, rfl, rfl, by simp [rpnPublishedAll], by simp [rpnPublishedAll]⟩
  | cons m ms ih =>
    intro s hm hA
    obtain ⟨s1, a1, a2, a3, a4, a5⟩ :=
      processControllerChanged_rpn fuel s m.1 m.2 sync (hm m (by simp)) hA
    obtain ⟨s2, b1, b2, b3, b4, b5⟩ := ih s1
      (fun x hx => hm x (List.mem_cons_of_mem _ hx)) (by rw [a3]; exact hA)
    refine ⟨s2, ?_, ?_, ?_, ?_, ?_⟩
    · simp [feedControllers, bind, Except.bind, a1, b1]
    · rw [b2, a2]; rfl
    · rw [b3, a3]
    · rw [b4, a2, a4]
      simp only [rpnPublishedAll]
      rw [getLast_toList_append]
    · rw [b5, a5, a2]
      simp only [rpnPublishedAll, List.append_assoc]

/-- Fewer than four messages from an empty history publish nothing. -/
theorem rpnPublishedAll_short (msgs : List (Int × Int)) (h : msgs.length < 4) :
    rpnPublishedAll [] msgs = [] := by
  rcases msgs with _ | ⟨a, _ | ⟨b, _ | ⟨c, _ | ⟨d, t⟩⟩⟩⟩
  · rfl
  · simp [rpnPublishedAll, rpnPublished, rpnPush, rpnBendSensitivity]
  · simp [rpnPublishedAll, rpnPublished, rpnPush, rpnBendSensitivity]
  · simp [rpnPublishedAll, rpnPublished, rpnPush, rpnBendSensitivity]
  · simp at h; omega

/-- Four messages from an empty history publish at most once, on the fourth. -/
theorem rpnPublishedAll_four (a b c d : Int × Int) :
    rpnPublishedAll [] [a, b, c, d] = (rpnPublished [a, b, c, d] d.1).toList := by
  simp [rpnPublishedAll, rpnPublished, rpnPush, rpnBendSensitivity]

/-- A reordering of the four bend-sensitivity messages, or a proper part of them,
publishes nothing from an empty history. -/
theorem rpnPublishedAll_malformed (msgs : List (Int × Int))
    (h : (msgs.Perm rpnBendMessages ∨ msgs.Sublist rpnBendMessages) ∧ msgs ≠ rpnBendMessages) :
    rpnPublishedAll [] msgs = [] := by
  obtain ⟨hshape, hne⟩ := h
  have hsub : ∀ m ∈ msgs, m ∈ rpnBendMessages := by
    rcases hshape with hp | hs
    · exact fun m hm => hp.subset hm
    · exact fun m hm => hs.subset hm
  have hlen : msgs.length ≤ 4 := by
    rcases hshape with hp | hs
    · rw [hp.length_eq]; simp [rpnBendMessages]
    · have := hs.length_le; simpa [rpnBendMessages] using this
  rcases Nat.lt_or_ge msgs.length 4 with hlt | hge
  · exact rpnPublishedAll_short msgs hlt
  · have hl4 : msgs.length = 4 := le_antisymm hlen hge
    rcases hshape with hp | hs
    · rcases msgs with _ | ⟨a, _ | ⟨b, _ | ⟨c, _ | ⟨d, _ | ⟨e, t⟩⟩⟩⟩⟩ <;>
        simp at hl4
      rw [rpnPublishedAll_four]
      by_contra hpub
      have ha : a ∈ rpnBendMessages := hsub a (by simp)
      have hb : b ∈ rpnBendMessages := hsub b (by simp)
      have hc : c ∈ rpnBendMessages := hsub c (by simp)
      have hd : d ∈ rpnBendMessages := hsub d (by simp)
      apply hne
      obtain ⟨a1, a2⟩ := a
      obtain ⟨b1, b2⟩ := b
      obtain ⟨c1, c2⟩ := c
      obtain ⟨d1, d2⟩ := d
      simp only [rpnBendMessages, List.mem_cons, Prod.mk.injEq, List.mem_singleton,
        List.not_mem_nil, or_false] at ha hb hc hd
      by_cases hpat : a1 = 101 ∧ a2 = 0 ∧ b1 = 100 ∧ b2 = 0 ∧ c1 = 6 ∧ d1 = 38
      · obtain ⟨h1, h2, h3, h4, h5, h6⟩ := hpat
        have hc2 : c2 = 12 := by omega
        have hd2 : d2 = 50 := by omega
        simp [rpnBendMessages, h1, h2, h3, h4, h5, h6, hc2, hd2]
      · exfalso
        apply hpub
        simp [rpnPublished, rpnBendSensitivity, hpat]
    · exact absurd (hs.eq_of_length (by rw [hl4]; simp [rpnBendMessages])) hne

end MidiDevice

/-! ## Properties of the MIDI state machine -/

open MidiDevice

/-- C1. Sustain round trip: from a state with an empty held queue (the initial state is
one), for a key `k ≠ -1`, a velocity `v > 0`, a pedal-down value `d ≥ 64` and a pedal-up
value `u < 64`, the calls `processKeyOn(k,v)`, `processControllerChanged(64,d)`,
`processKeyOff(k)` return and emit `keyPlayed(k,v)` and no `keyPlayed(k,0)`; the following
`processControllerChanged(64,u)` returns, emits exactly one `keyPlayed(k,0)`, and leaves the
held queue empty. -/
theorem sustain_round_trip (s : MidiDevice) (k v d u : Int)
    (syncOn syncOff syncArea : Bool) (fuel fuel2 : Nat)
    (hq : s.listKeysToRelease = []) (hk : k ≠ -1) (hv : 0 < v) (hd : 64 ≤ d) (hu : u < 64)
    (hfuel : 1 ≤ fuel2) (hA : syncArea = true → s.controllerArea = true) :
    ∃ s2 s4,
      processControllerChanged fuel (processKeyOn s k v syncOn) 64 d syncArea = Except.ok s2 ∧
      keyPlayedEvents (processKeyOff s2 k syncOff).out = keyPlayedEvents s.out ++ [(k, v)] ∧
      (k, (0 : Int)) ∉ [(k, v)] ∧
      processControllerChanged fuel2 (processKeyOff s2 k syncOff) 64 u syncArea = Except.ok s4 ∧
      keyPlayedEvents s4.out = keyPlayedEvents (processKeyOff s2 k syncOff).out ++ [(k, 0)] ∧
      s4.listKeysToRelease = [] := by
  have hnot : k ∉ s.listKeysToRelease := by simp [hq]
  obtain ⟨a1, a2, a3, a4, a5⟩ := processKeyOn_notHeld s k v syncOn hnot
  obtain ⟨s2, b1, b2, b3, b4, b5, b6⟩ := processControllerChanged_sustainDown fuel
    (processKeyOn s k v syncOn) d syncArea hd (by rw [a4]; exact hA)
  obtain ⟨c1, c2, c3, c4⟩ := processKeyOff_sustainOn s2 k syncOff hk b2
  have hq3 : (processKeyOff s2 k syncOff).listKeysToRelease = [k] := by
    rw [c1, b3, a1, hq]; simp
  obtain ⟨s4, d1, d2, d3, d4, d5, d6⟩ := processControllerChanged_sustainUp fuel2
    (processKeyOff s2 k syncOff) u syncArea hu (by rw [hq3]; simpa using hfuel)
    (by rw [hq3]; simpa using hk) (by rw [c3, b5, a4]; exact hA)
  refine ⟨s2, s4, b1, ?_, ?_, d1, ?_, d3⟩
  · rw [c4, b6, a5]
  · have : (0 : Int) ≠ v := by omega
    simpa using this
  · rw [d6, hq3]; simp

/-- Witness of `sustain_round_trip`: key 60, velocity 100, pedal values 127 and 0, from
the initial state. -/
theorem sustain_round_trip_witness :
    ∃ s2 s4,
      processControllerChanged 0 (processKeyOn MidiDevice.init 60 100 false) 64 127 false
        = Except.ok s2 ∧
      keyPlayedEvents (processKeyOff s2 60 false).out
        = keyPlayedEvents MidiDevice.init.out ++ [(60, 100)] ∧
      ((60 : Int), (0 : Int)) ∉ [((60 : Int), (100 : Int))] ∧
      processControllerChanged 1 (processKeyOff s2 60 false) 64 0 false = Except.ok s4 ∧
      keyPlayedEvents s4.out = keyPlayedEvents (processKeyOff s2 60 false).out ++ [(60, 0)] ∧
      s4.listKeysToRelease = [] :=
  sustain_round_trip MidiDevice.init 60 100 127 0 false false false 0 1 rfl (by decide)
    (by decide) (by decide) (by decide) (by decide) (by simp)

/-- C2 (what the code does). The held key 60 is struck again while the pedal is down:
after `processKeyOn(60,100)`, `processControllerChanged(64,127)`, `processKeyOff(60)`, the
call `processKeyOn(60,90)` emits `keyPlayed(60,90)` only. No `keyPlayed(60,0)` comes before
it, and key 60 stays in the held queue. -/
theorem retrigger_emits_no_release :
    ∃ s2, processControllerChanged 0 (processKeyOn MidiDevice.init 60 100 true) 64 127 false
        = Except.ok s2 ∧
      (processKeyOff s2 60 true).listKeysToRelease = [60] ∧
      keyPlayedEvents (processKeyOff s2 60 true).out = [(60, 100)] ∧
      keyPlayedEvents (processKeyOn (processKeyOff s2 60 true) 60 90 true).out
        = [(60, 100), (60, 90)] ∧
      (processKeyOn (processKeyOff s2 60 true) 60 90 true).listKeysToRelease = [60] := by
  obtain ⟨a1, a2, a3, a4, a5⟩ := processKeyOn_notHeld MidiDevice.init 60 100 true
    (by simp [MidiDevice.init])
  obtain ⟨s2, b1, b2, b3, b4, b5, b6⟩ := processControllerChanged_sustainDown 0
    (processKeyOn MidiDevice.init 60 100 true) 127 false (by decide) (by simp)
  obtain ⟨c1, c2, c3, c4⟩ := processKeyOff_sustainOn s2 60 true (by decide) b2
  have hq3 : (processKeyOff s2 60 true).listKeysToRelease = [60] := by
    rw [c1, b3, a1]; simp [MidiDevice.init]
  have hs3 : (processKeyOff s2 60 true).isSustainOn = true := by
    rw [processKeyOff_isSustainOn]; exact b2
  have hout3 : keyPlayedEvents (processKeyOff s2 60 true).out = [(60, 100)] := by
    rw [c4, b6, a5]; simp [MidiDevice.init, keyPlayedEvents]
  obtain ⟨e1, e2⟩ := processKeyOn_held_sustainOn (processKeyOff s2 60 true) 60 90 true
    (by decide) hs3 (by rw [hq3]; simp)
  refine ⟨s2, b1, hq3, hout3, ?_, ?_⟩
  · rw [e2, hout3]; rfl
  · rw [e1, hq3]

/-- C3 (what the code does). Key 60 is held by the pedal (after `processKeyOn(60,100)`,
`processControllerChanged(64,127)`, `processKeyOff(60)` on a device with a keyboard) and
`stopAll` is called: its loop takes key 60 off the queue and `processKeyOff` puts it back,
so `stopAll` does not return, whatever the fuel. -/
theorem stopAll_pedal_down_diverges (fuel : Nat) :
    ∃ s2, processControllerChanged 0
        (processKeyOn { MidiDevice.init with keyboard := true } 60 100 true) 64 127 false
        = Except.ok s2 ∧
      (processKeyOff s2 60 true).isSustainOn = true ∧
      (processKeyOff s2 60 true).listKeysToRelease = [60] ∧
      stopAll fuel (processKeyOff s2 60 true) = Except.error Fault.outOfFuel := by
  obtain ⟨a1, a2, a3, a4, a5⟩ := processKeyOn_notHeld
    { MidiDevice.init with keyboard := true } 60 100 true (by simp [MidiDevice.init])
  obtain ⟨s2, b1, b2, b3, b4, b5, b6⟩ := processControllerChanged_sustainDown 0
    (processKeyOn { MidiDevice.init with keyboard := true } 60 100 true) 127 false
    (by decide) (by simp)
  obtain ⟨c1, c2, c3, c4⟩ := processKeyOff_sustainOn s2 60 true (by decide) b2
  have hq3 : (processKeyOff s2 60 true).listKeysToRelease = [60] := by
    rw [c1, b3, a1]; simp [MidiDevice.init]
  have hs3 : (processKeyOff s2 60 true).isSustainOn = true := by
    rw [processKeyOff_isSustainOn]; exact b2
  refine ⟨s2, b1, hs3, hq3, ?_⟩
  have hdiv := releaseSustainedKeys_sustainOn_diverges fuel (processKeyOff s2 60 true) hs3
    ⟨60, by rw [hq3]; simp, by decide⟩
  simp [stopAll, bind, Except.bind, hdiv]

/-- C4 as stated fails: the four messages with `s = 0` and `c = 35` publish the double
`0.01 * 35 + 0`, which is 6305039478318695 / 2 ^ 54 (printed 0.35000000000000003), not
`0 + 0.01 * 35 = 7 / 20`. -/
theorem rpn_bend_sensitivity_not_exact :
    ∃ st2, feedControllers 0 false MidiDevice.init [(101, 0), (100, 0), (6, 0), (38, 35)]
        = Except.ok st2 ∧
      bendSensitivityEvents st2.out = [6305039478318695 / 18014398509481984] ∧
      getBendSensitivityValue st2 = 6305039478318695 / 18014398509481984 ∧
      getBendSensitivityValue st2 ≠ ((0 : Int) : ℚ) + (1 / 100 : ℚ) * ((35 : Int) : ℚ) := by
  obtain ⟨st2, e1, _, _, e4, e5⟩ := feedControllers_rpn 0 false
    [(101, 0), (100, 0), (6, 0), (38, 35)] MidiDevice.init (by simp) (by simp)
  have hv : dadd (dmul (toDouble (1 / 100)) ((35 : Int) : ℚ)) ((0 : Int) : ℚ)
      = 6305039478318695 / 18014398509481984 := by decide!
  have hpub : rpnPublishedAll MidiDevice.init.rpnHistory
      [(101, 0), (100, 0), (6, 0), (38, 35)]
      = [6305039478318695 / 18014398509481984] := by
    rw [show MidiDevice.init.rpnHistory = [] from rfl, rpnPublishedAll_four]
    simp only [rpnPublished, rpnBendSensitivity, if_true, and_self, Option.toList]
    rw [hv]
  rw [hpub] at e4 e5
  have hval : getBendSensitivityValue st2 = 6305039478318695 / 18014398509481984 := by
    simpa [getBendSensitivityValue] using e4
  refine ⟨st2, e1, ?_, hval, ?_⟩
  · simpa [MidiDevice.init, bendSensitivityEvents] using e5
  · rw [hval]
    norm_num

/-- C4, amended. RPN bend sensitivity: from an empty RPN history, the four messages
`(101,0)`, `(100,0)`, `(6,s)`, `(38,c)` fed in that order to `processControllerChanged` are
all handled without fault and publish once the double value `x` of `0.01 * c + s` (the product
rounded to double, then the sum), which `getBendSensitivityValue` returns afterwards. `x` is
within `(|s| + |c| + 1) / 2 ^ 52` of `s + 0.01 * c`, hence within `2 ^ -44` for `s` and `c`
in 0..127; for `s = 12` and `c = 50` it is exactly 12.5. -/
theorem rpn_bend_sensitivity (st : MidiDevice) (s c : Int) (sync : Bool) (fuel : Nat)
    (hh : st.rpnHistory = []) (hA : sync = true → st.controllerArea = true) :
    ∃ st2, feedControllers fuel sync st [(101, 0), (100, 0), (6, s), (38, c)]
        = Except.ok st2 ∧
      bendSensitivityEvents st2.out
        = bendSensitivityEvents st.out
          ++ [dadd (dmul (toDouble (1 / 100)) (c : ℚ)) (s : ℚ)] ∧
      getBendSensitivityValue st2 = dadd (dmul (toDouble (1 / 100)) (c : ℚ)) (s : ℚ) ∧
      |getBendSensitivityValue st2 - ((s : ℚ) + (1 / 100 : ℚ) * (c : ℚ))|
        ≤ (|(s : ℚ)| + |(c : ℚ)| + 1) / 2 ^ 52 ∧
      (0 ≤ s → s ≤ 127 → 0 ≤ c → c ≤ 127 →
        |getBendSensitivityValue st2 - ((s : ℚ) + (1 / 100 : ℚ) * (c : ℚ))| ≤ 1 / 2 ^ 44) ∧
      (s = 12 → c = 50 → getBendSensitivityValue st2 = 25 / 2) := by
  obtain ⟨st2, e1, _, _, e4, e5⟩ := feedControllers_rpn fuel sync
    [(101, 0), (100, 0), (6, s), (38, c)] st (by simp) hA
  have hpub : rpnPublishedAll st.rpnHistory [(101, 0), (100, 0), (6, s), (38, c)]
      = [dadd (dmul (toDouble (1 / 100)) (c : ℚ)) (s : ℚ)] := by
    rw [hh, rpnPublishedAll_four]
    simp [rpnPublished, rpnBendSensitivity]
  rw [hpub] at e4 e5
  have hval : getBendSensitivityValue st2
      = dadd (dmul (toDouble (1 / 100)) (c : ℚ)) (s : ℚ) := by
    simpa [getBendSensitivityValue] using e4
  have herr : |getBendSensitivityValue st2 - ((s : ℚ) + (1 / 100 : ℚ) * (c : ℚ))|
      ≤ (|(s : ℚ)| + |(c : ℚ)| + 1) / 2 ^ 52 := by
    have := dadd_dmul_hundredth_err s c
    rw [hval]
    have e : (s : ℚ) + (1 / 100 : ℚ) * (c : ℚ) = (s : ℚ) + (c : ℚ) / 100 := by ring
    rw [e]
    exact this
  refine ⟨st2, e1, e5, hval, herr, ?_, ?_⟩
  · intro hs0 hs1 hc0 hc1
    refine le_trans herr ?_
    have a1 : |(s : ℚ)| ≤ 127 := by
      rw [abs_le]
      constructor
      · have : (0 : ℚ) ≤ (s : ℚ) := by exact_mod_cast hs0
        linarith
      · exact_mod_cast hs1
    have a2 : |(c : ℚ)| ≤ 127 := by
      rw [abs_le]
      constructor
      · have : (0 : ℚ) ≤ (c : ℚ) := by exact_mod_cast hc0
        linarith
      · exact_mod_cast hc1
    rw [div_le_div_iff₀ (by positivity) (by positivity)]
    norm_num
    linarith
  · intro h12 h50
    rw [hval, h12, h50]
    decide!

/-- Witness of `rpn_bend_sensitivity`: 12 semitones and 50 cents on the initial state. -/
theorem rpn_bend_sensitivity_witness :
    MidiDevice.init.rpnHistory = [] ∧
    (false = true → MidiDevice.init.controllerArea = true) ∧
    ∃ st2, feedControllers 0 false MidiDevice.init [(101, 0), (100, 0), (6, 12), (38, 50)]
        = Except.ok st2 ∧
      getBendSensitivityValue st2 = 25 / 2 :=
  ⟨rfl, by simp,
    (rpn_bend_sensitivity MidiDevice.init 12 50 false 0 rfl (by simp)).elim
      (fun st2 h => ⟨st2, h.1, h.2.2.2.2.2 rfl rfl⟩)⟩

/-- C5. Malformed RPN: from an empty RPN history, any permutation of the four messages
`(101,0)`, `(100,0)`, `(6,12)`, `(38,50)` other than the original order, and any proper
subsequence of them, is handled without fault, publishes no bend sensitivity, and leaves
the value returned by `getBendSensitivityValue` as it was. -/
theorem malformed_rpn_ignored (st : MidiDevice) (msgs : List (Int × Int)) (sync : Bool)
    (fuel : Nat) (hh : st.rpnHistory = []) (hA : sync = true → st.controllerArea = true)
    (hmsgs : (msgs.Perm rpnBendMessages ∨ msgs.Sublist rpnBendMessages)
      ∧ msgs ≠ rpnBendMessages) :
    ∃ st2, feedControllers fuel sync st msgs = Except.ok st2 ∧
      getBendSensitivityValue st2 = getBendSensitivityValue st ∧
      bendSensitivityEvents st2.out = bendSensitivityEvents st.out := by
  have hctl : ∀ m ∈ msgs, m.1 = 101 ∨ m.1 = 100 ∨ m.1 = 6 ∨ m.1 = 38 := by
    intro m hm
    have hmem : m ∈ rpnBendMessages := by
      rcases hmsgs.1 with hp | hs
      · exact hp.subset hm
      · exact hs.subset hm
    simp only [rpnBendMessages, List.mem_cons, List.mem_singleton, List.not_mem_nil,
      or_false] at hmem
    rcases hmem with rfl | rfl | rfl | rfl <;> simp
  obtain ⟨st2, e1, _, _, e4, e5⟩ := feedControllers_rpn fuel sync msgs st hctl hA
  rw [hh, rpnPublishedAll_malformed msgs hmsgs] at e4 e5
  refine ⟨st2, e1, ?_, ?_⟩
  · simpa [getBendSensitivityValue] using e4
  · simpa using e5

/-- Witness of `malformed_rpn_ignored`: the data-entry messages sent before the parameter
number, on the initial state. -/
theorem malformed_rpn_ignored_witness :
    ∃ st2, feedControllers 0 false MidiDevice.init [(6, 12), (38, 50), (101, 0), (100, 0)]
        = Except.ok st2 ∧
      getBendSensitivityValue st2 = getBendSensitivityValue MidiDevice.init ∧
      bendSensitivityEvents st2.out = bendSensitivityEvents MidiDevice.init.out :=
  malformed_rpn_ignored MidiDevice.init [(6, 12), (38, 50), (101, 0), (100, 0)] false 0 rfl
    (by simp) ⟨Or.inl (by decide), by decide⟩

/-! ## Lemmas on the voice parameters -/

namespace VoiceParam

variable (init : ModulatedParameter → AttributeValue → ModulatedParameter)

theorem applyInit_parameters (vp : VoiceParam) (t G : AttributeType) (v : AttributeValue) :
    (applyInit init vp t v).parameters G =
      if G = t then (vp.parameters G).map (fun p => init p v) else vp.parameters G := by
  unfold applyInit
  by_cases h : G = t
  · subst h
    cases hp : vp.parameters G <;> simp [hp]
  · cases hp : vp.parameters t <;> simp [h, Function.update]

theorem divisionStep_parameters (vp : VoiceParam) (a : AttributeType × AttributeValue)
    (G : AttributeType) :
    (divisionStep init vp a).parameters G =
      if G = a.1 then (vp.parameters G).map (fun p => init p a.2) else vp.parameters G := by
  unfold divisionStep contains
  cases hp : vp.parameters a.1 with
  | none =>
    by_cases h : G = a.1
    · simp [h, hp]
    · simp [h]
  | some q => simp [applyInit_parameters]

theorem globalStep_parameters (types : List AttributeType) (vp : VoiceParam)
    (a : AttributeType × AttributeValue) (G : AttributeType) :
    (globalStep init types vp a).parameters G =
      if G = a.1 ∧ a.1 ∉ types then (vp.parameters G).map (fun p => init p a.2)
      else vp.parameters G := by
  unfold globalStep contains
  by_cases ht : a.1 ∈ types
  · simp [ht]
  · cases hp : vp.parameters a.1 with
    | none =>
      by_cases h : G = a.1
      · simp [h, hp, ht]
      · simp [h, ht]
    | some q => simp [applyInit_parameters, ht]

/-- A loop whose body acts on the slot of `G` only for the entries selected by `c`. -/
theorem foldl_parameters (st : VoiceParam → AttributeType × AttributeValue → VoiceParam)
    (c : AttributeType × AttributeValue → Bool) (G : AttributeType)
    (hst : ∀ acc a, (st acc a).parameters G =
      if c a = true then (acc.parameters G).map (fun p => init p a.2) else acc.parameters G)
    (l : List (AttributeType × AttributeValue)) :
    ∀ vp : VoiceParam, (l.foldl st vp).parameters G =
      (vp.parameters G).map (fun p => (l.filter c).foldl (fun q a => init q a.2) p) := by
  induction l with
  | nil => intro vp; simp
  | cons a rest ih =>
    intro vp
    rw [List.foldl_cons, ih, hst]
    by_cases hc : c a = true
    · cases hp : vp.parameters G <;> simp [hc, List.filter_cons]
    · cases hp : vp.parameters G <;> simp [hc, List.filter_cons]

/-- When a later `init` overwrites an earlier one, a run of them amounts to the last. -/
theorem foldl_init_last (hov : ∀ p a b, init (init p a) b = init p b)
    (vals : List (AttributeType × AttributeValue)) :
    ∀ p : ModulatedParameter, vals.foldl (fun q a => init q a.2) p =
      match vals.getLast? with
      | none => p
      | some a => init p a.2 := by
  induction vals with
  | nil => intro p; rfl
  | cons a rest ih =>
    intro p
    rw [List.foldl_cons, ih]
    cases rest with
    | nil => simp
    | cons b rest2 =>
      have h : (a :: b :: rest2).getLast? = (b :: rest2).getLast? := by
        simp [List.getLast?_cons_cons]
      rw [h]
      cases hl : (b :: rest2).getLast? with
      | none => simp at hl
      | some x => simp [hov]

theorem lastValue_eq_none_iff (l : List (AttributeType × AttributeValue)) (G : AttributeType) :
    lastValue l G = none ↔ G ∉ l.map Prod.fst := by
  unfold lastValue
  simp only [Option.map_eq_none', List.getLast?_eq_none_iff, List.filter_eq_nil_iff,
    decide_eq_true_eq, List.mem_map, not_exists, not_and]

/-- The slot of `G` after the two loops: the division's value if it sets `G`, else the
parent's value if it sets `G`, else the slot as it was. -/
theorem readZone_parameters (hov : ∀ p a b, init (init p a) b = init p b)
    (division global : List (AttributeType × AttributeValue)) (vp : VoiceParam)
    (G : AttributeType) :
    (readZone init division global vp).parameters G =
      (vp.parameters G).map (fun p =>
        match lastValue division G with
        | some zv => init p zv
        | none =>
          match lastValue global G with
          | some gv => init p gv
          | none => p) := by
  unfold readZone
  simp only
  rw [foldl_parameters init (globalStep init (division.map Prod.fst))
      (fun a => decide (G = a.1 ∧ a.1 ∉ division.map Prod.fst)) G
      (by
        intro acc a
        rw [globalStep_parameters]
        by_cases h : G = a.1 ∧ a.1 ∉ division.map Prod.fst
        · rw [if_pos h, if_pos (decide_eq_true h)]
        · rw [if_neg h, if_neg (by rw [decide_eq_true_eq]; exact h)])
      global,
    foldl_parameters init (divisionStep init) (fun a => decide (G = a.1)) G
      (by
        intro acc a
        rw [divisionStep_parameters]
        by_cases h : G = a.1
        · rw [if_pos h, if_pos (decide_eq_true h)]
        · rw [if_neg h, if_neg (by rw [decide_eq_true_eq]; exact h)]) division]
  cases hp : vp.parameters G with
  | none => rfl
  | some p =>
    simp only [Option.map_some']
    congr 1
    rw [foldl_init_last init hov, foldl_init_last init hov]
    have hfd : division.filter (fun a => decide (G = a.1))
        = division.filter (fun a => decide (a.1 = G)) := by
      congr 1; funext a; simp [eq_comm]
    by_cases hmem : G ∈ division.map Prod.fst
    · have hg0 : global.filter (fun a => decide (G = a.1 ∧ a.1 ∉ division.map Prod.fst)) = [] := by
        rw [List.filter_eq_nil_iff]
        intro a _
        simp only [decide_eq_true_eq, not_and, not_not]
        intro h
        rw [← h]; exact hmem
      have hne : lastValue division G ≠ none := by
        rw [Ne, lastValue_eq_none_iff]; exact fun h => h hmem
      rw [hg0]
      simp only [List.getLast?_nil]
      cases hl : lastValue division G with
      | none => exact absurd hl hne
      | some zv =>
        unfold lastValue at hl
        rw [← hfd] at hl
        cases hl2 : (division.filter (fun a => decide (G = a.1))).getLast? with
        | none => simp [hl2] at hl
        | some x =>
          simp [hl2] at hl
          simp [hl]
    · have hnone : lastValue division G = none := (lastValue_eq_none_iff division G).mpr hmem
      have hd0 : (division.filter (fun a => decide (G = a.1))).getLast? = none := by
        unfold lastValue at hnone
        rw [← hfd] at hnone
        simpa using hnone
      have hgf : global.filter (fun a => decide (G = a.1 ∧ a.1 ∉ division.map Prod.fst))
          = global.filter (fun a => decide (a.1 = G)) := by
        apply List.filter_congr
        intro a _
        by_cases h : a.1 = G
        · subst h; simp [hmem]
        · have h2 : ¬ G = a.1 := fun e => h e.symm
          simp [h, h2]
      rw [hnone, hd0, hgf]
      simp only
      unfold lastValue
      cases (global.filter (fun a => decide (a.1 = G))).getLast? with
      | none => rfl
      | some x => rfl

/-- An entry of the parent for a type that the division sets is skipped by the second
loop: the voice is left as it is. -/
theorem globalStep_shadowed (types : List AttributeType) (acc : VoiceParam)
    (a : AttributeType × AttributeValue) (h : a.1 ∈ types) :
    globalStep init types acc a = acc := by
  unfold globalStep
  simp [h]

/-- An entry for a type without slot is skipped by both loops. -/
theorem step_unrecognized (types : List AttributeType) (acc : VoiceParam)
    (a : AttributeType × AttributeValue) (h : acc.parameters a.1 = none) :
    divisionStep init acc a = acc ∧ globalStep init types acc a = acc := by
  unfold divisionStep globalStep contains
  simp [h]

/-- A loop that skips the entries of `G` runs the same without them. -/
theorem foldl_filter_unrecognized
    (st : VoiceParam → AttributeType × AttributeValue → VoiceParam) (G : AttributeType)
    (h1 : ∀ acc a, a.1 = G → acc.parameters G = none → st acc a = acc)
    (h2 : ∀ acc a, acc.parameters G = none → (st acc a).parameters G = none)
    (l : List (AttributeType × AttributeValue)) :
    ∀ vp : VoiceParam, vp.parameters G = none →
      (l.filter (fun a => decide (a.1 ≠ G))).foldl st vp = l.foldl st vp := by
  induction l with
  | nil => intro vp _; rfl
  | cons a rest ih =>
    intro vp hvp
    by_cases ha : a.1 = G
    · have hf : (a :: rest).filter (fun a => decide (a.1 ≠ G))
          = rest.filter (fun a => decide (a.1 ≠ G)) := by
        simp [List.filter_cons, ha]
      rw [hf, List.foldl_cons, h1 vp a ha hvp]
      exact ih vp hvp
    · have hf : (a :: rest).filter (fun a => decide (a.1 ≠ G))
          = a :: rest.filter (fun a => decide (a.1 ≠ G)) := by
        simp [List.filter_cons, ha]
      rw [hf, List.foldl_cons, List.foldl_cons]
      exact ih (st vp a) (h2 vp a hvp)

theorem foldl_globalStep_types (types : List AttributeType) (G : AttributeType)
    (l : List (AttributeType × AttributeValue)) (hl : ∀ a ∈ l, a.1 ≠ G) :
    ∀ vp : VoiceParam,
      l.foldl (globalStep init (types.filter (fun t => decide (t ≠ G)))) vp
        = l.foldl (globalStep init types) vp := by
  induction l with
  | nil => intro vp; rfl
  | cons a rest ih =>
    intro vp
    have ha : a.1 ≠ G := hl a (by simp)
    have hstep : globalStep init (types.filter (fun t => decide (t ≠ G))) vp a
        = globalStep init types vp a := by
      unfold globalStep
      by_cases hm : a.1 ∈ types
      · simp [hm, ha, List.mem_filter]
      · simp [hm, List.mem_filter]
    rw [List.foldl_cons, List.foldl_cons, hstep]
    exact ih (fun x hx => hl x (List.mem_cons_of_mem _ hx)) _

/-- The entries for a type without slot have no effect on the voice: the two loops run
the same on the lists stripped of them. -/
theorem readZone_ignores_unrecognized
    (division global : List (AttributeType × AttributeValue)) (vp : VoiceParam)
    (G : AttributeType) (h : vp.parameters G = none) :
    readZone init (division.filter (fun a => decide (a.1 ≠ G)))
        (global.filter (fun a => decide (a.1 ≠ G))) vp
      = readZone init division global vp := by
  unfold readZone
  simp only
  have hdiv : (division.filter (fun a => decide (a.1 ≠ G))).foldl (divisionStep init) vp
      = division.foldl (divisionStep init) vp :=
    foldl_filter_unrecognized (divisionStep init) G
      (fun acc a ha hacc => (step_unrecognized init [] acc a (by rw [ha]; exact hacc)).1)
      (fun acc a hacc => by
        rw [divisionStep_parameters, hacc]; simp)
      division vp h
  have hnone : (division.foldl (divisionStep init) vp).parameters G = none := by
    rw [foldl_parameters init (divisionStep init) (fun a => decide (G = a.1)) G
      (by
        intro acc a
        rw [divisionStep_parameters]
        by_cases h : G = a.1
        · rw [if_pos h, if_pos (decide_eq_true h)]
        · rw [if_neg h, if_neg (by rw [decide_eq_true_eq]; exact h)]) division, h]
    rfl
  have htypes : (division.filter (fun a => decide (a.1 ≠ G))).map Prod.fst
      = (division.map Prod.fst).filter (fun t => decide (t ≠ G)) := by
    rw [List.filter_map]
    rfl
  rw [hdiv, htypes,
    foldl_globalStep_types init (division.map Prod.fst) G _
      (by
        intro a ha
        have := (List.mem_filter.mp ha).2
        simpa using this)]
  exact foldl_filter_unrecognized (globalStep init (division.map Prod.fst)) G
    (fun acc a ha hacc =>
      (step_unrecognized init (division.map Prod.fst) acc a (by rw [ha]; exact hacc)).2)
    (fun acc a hacc => by
      rw [globalStep_parameters, hacc]; simp)
    global _ hnone

theorem wrapInt32_of_fits (x : Int) (h : fitsInt32 x) : wrapInt32 x = x := by
  unfold fitsInt32 at h
  unfold wrapInt32
  omega

theorem toUInt32_of_nonneg (x : Int) (h0 : 0 ≤ x) (h : fitsInt32 x) :
    toUInt32 x = x.toNat := by
  unfold fitsInt32 at h
  unfold toUInt32
  have : x % 4294967296 = x := by omega
  rw [this]

theorem wrapInt32_fits (x : Int) : fitsInt32 (wrapInt32 x) := by
  unfold fitsInt32 wrapInt32
  omega

theorem initInst_overwrites (p : ModulatedParameter) (a b : AttributeValue) :
    (p.initInst a).initInst b = p.initInst b := rfl

theorem initPrst_overwrites (p : ModulatedParameter) (a b : AttributeValue) :
    (p.initPrst a).initPrst b = p.initPrst b := rfl

end VoiceParam

/-! ## Properties of the voice parameters -/

open VoiceParam

/-- C6. Global-vs-local shadow rule: let `G` be a generator type with a slot, that the zone
sets (to `zv`) and that the parent global zone sets too, to a different value `gv`. After
`readInstSmpl` the slot of `G` is the former slot with `initInst(zv)` applied, its
instrument-level value is `zv` and not `gv`, and every turn of the second loop on an entry
for `G` leaves the voice untouched (the global value is not applied). The same holds for
`readPrstInst`, `initPrst` and the preset-level value. -/
theorem zone_value_shadows_global (sm : SoundfontManager) (vp : VoiceParam)
    (idInstSmpl idPrstInst : EltID) (G : AttributeType) (p : ModulatedParameter)
    (zv gv : AttributeValue) (hrec : vp.parameters G = some p) (hne : gv ≠ zv) :
    (lastValue (sm.getAllAttributes idInstSmpl) G = some zv →
      lastValue (sm.getAllAttributes
        (EltID.ofElt ElementType.elementInst idInstSmpl.indexSf2 idInstSmpl.indexElt)) G
        = some gv →
      (readInstSmpl sm vp idInstSmpl).parameters G = some (p.initInst zv) ∧
      ((readInstSmpl sm vp idInstSmpl).parameters G).bind ModulatedParameter.instValue
        = some zv ∧
      ((readInstSmpl sm vp idInstSmpl).parameters G).bind ModulatedParameter.instValue
        ≠ some gv ∧
      ∀ (acc : VoiceParam) (v : AttributeValue),
        globalStep ModulatedParameter.initInst ((sm.getAllAttributes idInstSmpl).map Prod.fst)
          acc (G, v) = acc) ∧
    (lastValue (sm.getAllAttributes idPrstInst) G = some zv →
      lastValue (sm.getAllAttributes
        (EltID.ofElt ElementType.elementPrst idPrstInst.indexSf2 idPrstInst.indexElt)) G
        = some gv →
      (readPrstInst sm vp idPrstInst).parameters G = some (p.initPrst zv) ∧
      ((readPrstInst sm vp idPrstInst).parameters G).bind ModulatedParameter.prstValue
        = some zv ∧
      ((readPrstInst sm vp idPrstInst).parameters G).bind ModulatedParameter.prstValue
        ≠ some gv ∧
      ∀ (acc : VoiceParam) (v : AttributeValue),
        globalStep ModulatedParameter.initPrst ((sm.getAllAttributes idPrstInst).map Prod.fst)
          acc (G, v) = acc) := by
  have hzg : some zv ≠ some gv := fun h => hne (Option.some.inj h).symm
  constructor
  · intro hz _
    have hslot : (readInstSmpl sm vp idInstSmpl).parameters G = some (p.initInst zv) := by
      unfold readInstSmpl
      simp only
      rw [readZone_parameters ModulatedParameter.initInst initInst_overwrites, hrec, hz]
      rfl
    refine ⟨hslot, ?_, ?_, ?_⟩
    · rw [hslot]; rfl
    · rw [hslot]; exact hzg
    · intro acc v
      apply globalStep_shadowed
      by_contra hmem
      have := (lastValue_eq_none_iff (sm.getAllAttributes idInstSmpl) G).mpr hmem
      rw [hz] at this
      exact Option.noConfusion this
  · intro hz _
    have hslot : (readPrstInst sm vp idPrstInst).parameters G = some (p.initPrst zv) := by
      unfold readPrstInst
      simp only
      rw [readZone_parameters ModulatedParameter.initPrst initPrst_overwrites, hrec, hz]
      rfl
    refine ⟨hslot, ?_, ?_, ?_⟩
    · rw [hslot]; rfl
    · rw [hslot]; exact hzg
    · intro acc v
      apply globalStep_shadowed
      by_contra hmem
      have := (lastValue_eq_none_iff (sm.getAllAttributes idPrstInst) G).mpr hmem
      rw [hz] at this
      exact Option.noConfusion this

/-- Witness of `zone_value_shadows_global`: in the example store both zones set
`champ_pan` to 10 and both parents set it to 20; the slot gets 10 at each tier. -/
theorem zone_value_shadows_global_witness :
    (readInstSmpl exampleStore (prepareParameters blank) exampleInstSmpl).parameters
        AttributeType.champ_pan
      = some ((ModulatedParameter.create AttributeType.champ_pan).initInst { bits := 10 }) ∧
    (readPrstInst exampleStore (prepareParameters blank) examplePrstInst).parameters
        AttributeType.champ_pan
      = some ((ModulatedParameter.create AttributeType.champ_pan).initPrst { bits := 10 }) :=
  ⟨((zone_value_shadows_global exampleStore (prepareParameters blank) exampleInstSmpl
      examplePrstInst AttributeType.champ_pan
      (ModulatedParameter.create AttributeType.champ_pan) { bits := 10 } { bits := 20 }
      rfl (by decide)).1 rfl rfl).1,
    ((zone_value_shadows_global exampleStore (prepareParameters blank) exampleInstSmpl
      examplePrstInst AttributeType.champ_pan
      (ModulatedParameter.create AttributeType.champ_pan) { bits := 10 } { bits := 20 }
      rfl (by decide)).2 rfl rfl).1⟩

/-- C7. Global fallback: `divI`, `globI` are the attributes of the instrument zone and of
its parent, `divP`, `globP` those of the preset zone and of its parent. For a generator
type `G` with a slot `p`: if the zone does not set `G` and the parent sets it to `gv`, the
slot after the read is `p` with `initInst(gv)` (resp. `initPrst(gv)`) applied; if the zone
sets `G`, every turn of the second loop on an entry for `G` leaves the voice untouched and
the slot is what the zone loop alone gives; if neither sets `G`, the slot is `p`. For a
type `G` without slot, the read gives the same voice as on the two lists stripped of the
entries for `G`, and `G` still has no slot. -/
theorem global_fallback (sm : SoundfontManager) (vp : VoiceParam)
    (idInstSmpl idPrstInst : EltID) (G : AttributeType)
    (divI globI divP globP : List (AttributeType × AttributeValue))
    (hdI : sm.getAllAttributes idInstSmpl = divI)
    (hgI : sm.getAllAttributes
      (EltID.ofElt ElementType.elementInst idInstSmpl.indexSf2 idInstSmpl.indexElt) = globI)
    (hdP : sm.getAllAttributes idPrstInst = divP)
    (hgP : sm.getAllAttributes
      (EltID.ofElt ElementType.elementPrst idPrstInst.indexSf2 idPrstInst.indexElt) = globP) :
    (∀ p, vp.parameters G = some p →
      (∀ gv, G ∉ divI.map Prod.fst → lastValue globI G = some gv →
        (readInstSmpl sm vp idInstSmpl).parameters G = some (p.initInst gv)) ∧
      (G ∈ divI.map Prod.fst →
        (∀ (acc : VoiceParam) (v : AttributeValue),
          globalStep ModulatedParameter.initInst (divI.map Prod.fst) acc (G, v) = acc) ∧
        (readInstSmpl sm vp idInstSmpl).parameters G
          = (readZone ModulatedParameter.initInst divI [] vp).parameters G) ∧
      (G ∉ divI.map Prod.fst → G ∉ globI.map Prod.fst →
        (readInstSmpl sm vp idInstSmpl).parameters G = some p) ∧
      (∀ gv, G ∉ divP.map Prod.fst → lastValue globP G = some gv →
        (readPrstInst sm vp idPrstInst).parameters G = some (p.initPrst gv)) ∧
      (G ∈ divP.map Prod.fst →
        (∀ (acc : VoiceParam) (v : AttributeValue),
          globalStep ModulatedParameter.initPrst (divP.map Prod.fst) acc (G, v) = acc) ∧
        (readPrstInst sm vp idPrstInst).parameters G
          = (readZone ModulatedParameter.initPrst divP [] vp).parameters G) ∧
      (G ∉ divP.map Prod.fst → G ∉ globP.map Prod.fst →
        (readPrstInst sm vp idPrstInst).parameters G = some p)) ∧
    (vp.parameters G = none →
      readInstSmpl sm vp idInstSmpl
        = readZone ModulatedParameter.initInst (divI.filter (fun a => decide (a.1 ≠ G)))
            (globI.filter (fun a => decide (a.1 ≠ G))) vp ∧
      (readInstSmpl sm vp idInstSmpl).parameters G = none ∧
      readPrstInst sm vp idPrstInst
        = readZone ModulatedParameter.initPrst (divP.filter (fun a => decide (a.1 ≠ G)))
            (globP.filter (fun a => decide (a.1 ≠ G))) vp ∧
      (readPrstInst sm vp idPrstInst).parameters G = none) := by
  have hI : readInstSmpl sm vp idInstSmpl
      = readZone ModulatedParameter.initInst divI globI vp := by
    unfold readInstSmpl; simp only [hdI, hgI]
  have hP : readPrstInst sm vp idPrstInst
      = readZone ModulatedParameter.initPrst divP globP vp := by
    unfold readPrstInst; simp only [hdP, hgP]
  have key : ∀ (init : ModulatedParameter → AttributeValue → ModulatedParameter)
      (hov : ∀ p a b, init (init p a) b = init p b)
      (division global : List (AttributeType × AttributeValue)) (p : ModulatedParameter),
      vp.parameters G = some p →
      (∀ gv, G ∉ division.map Prod.fst → lastValue global G = some gv →
        (readZone init division global vp).parameters G = some (init p gv)) ∧
      (G ∈ division.map Prod.fst →
        (∀ (acc : VoiceParam) (v : AttributeValue),
          globalStep init (division.map Prod.fst) acc (G, v) = acc) ∧
        (readZone init division global vp).parameters G
          = (readZone init division [] vp).parameters G) ∧
      (G ∉ division.map Prod.fst → G ∉ global.map Prod.fst →
        (readZone init division global vp).parameters G = some p) := by
    intro init hov division global p hp
    refine ⟨?_, ?_, ?_⟩
    · intro gv hd hg
      rw [readZone_parameters init hov, hp, (lastValue_eq_none_iff division G).mpr hd, hg]
      rfl
    · intro hd
      refine ⟨fun acc v => globalStep_shadowed init _ acc (G, v) hd, ?_⟩
      rw [readZone_parameters init hov, readZone_parameters init hov, hp]
      cases hl : lastValue division G with
      | none => exact absurd ((lastValue_eq_none_iff division G).mp hl) (fun h => h hd)
      | some zv => rfl
    · intro hd hg
      rw [readZone_parameters init hov, hp, (lastValue_eq_none_iff division G).mpr hd,
        (lastValue_eq_none_iff global G).mpr hg]
      rfl
  constructor
  · intro p hp
    obtain ⟨a1, a2, a3⟩ := key ModulatedParameter.initInst initInst_overwrites divI globI p hp
    obtain ⟨b1, b2, b3⟩ := key ModulatedParameter.initPrst initPrst_overwrites divP globP p hp
    rw [hI, hP]
    exact ⟨a1, a2, a3, b1, b2, b3⟩
  · intro hnone
    rw [hI, hP]
    refine ⟨(readZone_ignores_unrecognized _ divI globI vp G hnone).symm, ?_,
      (readZone_ignores_unrecognized _ divP globP vp G hnone).symm, ?_⟩
    · rw [readZone_parameters _ initInst_overwrites, hnone]; rfl
    · rw [readZone_parameters _ initPrst_overwrites, hnone]; rfl

/-- Witness of `global_fallback` on the example store: `champ_fineTune`, set by the
instrument parent only, is applied (5); `champ_pan`, set by the zone, is read as by the
zone loop alone; `champ_modEnvToPitch`, set nowhere, keeps its slot; `champ_coarseTune`,
set by the preset parent only, is applied (2); `champ_keyRange` has no slot and none
afterwards. -/
theorem global_fallback_witness :
    (readInstSmpl exampleStore (prepareParameters blank) exampleInstSmpl).parameters
        AttributeType.champ_fineTune
      = some ((ModulatedParameter.create AttributeType.champ_fineTune).initInst
          { bits := 5 }) ∧
    (readInstSmpl exampleStore (prepareParameters blank) exampleInstSmpl).parameters
        AttributeType.champ_pan
      = (readZone ModulatedParameter.initInst
          (exampleStore.getAllAttributes exampleInstSmpl) []
          (prepareParameters blank)).parameters AttributeType.champ_pan ∧
    (readInstSmpl exampleStore (prepareParameters blank) exampleInstSmpl).parameters
        AttributeType.champ_modEnvToPitch
      = some (ModulatedParameter.create AttributeType.champ_modEnvToPitch) ∧
    (readPrstInst exampleStore (prepareParameters blank) examplePrstInst).parameters
        AttributeType.champ_coarseTune
      = some ((ModulatedParameter.create AttributeType.champ_coarseTune).initPrst
          { bits := 2 }) ∧
    (readInstSmpl exampleStore (prepareParameters blank) exampleInstSmpl).parameters
        AttributeType.champ_keyRange = none :=
  ⟨((global_fallback exampleStore (prepareParameters blank) exampleInstSmpl examplePrstInst
      AttributeType.champ_fineTune _ _ _ _ rfl rfl rfl rfl).1
      (ModulatedParameter.create AttributeType.champ_fineTune) rfl).1
      { bits := 5 } (by decide) rfl,
    (((global_fallback exampleStore (prepareParameters blank) exampleInstSmpl examplePrstInst
      AttributeType.champ_pan _ _ _ _ rfl rfl rfl rfl).1
      (ModulatedParameter.create AttributeType.champ_pan) rfl).2.1 (by decide)).2,
    ((global_fallback exampleStore (prepareParameters blank) exampleInstSmpl examplePrstInst
      AttributeType.champ_modEnvToPitch _ _ _ _ rfl rfl rfl rfl).1
      (ModulatedParameter.create AttributeType.champ_modEnvToPitch) rfl).2.2.1
      (by decide) (by decide),
    ((global_fallback exampleStore (prepareParameters blank) exampleInstSmpl examplePrstInst
      AttributeType.champ_coarseTune _ _ _ _ rfl rfl rfl rfl).1
      (ModulatedParameter.create AttributeType.champ_coarseTune) rfl).2.2.2.1
      { bits := 2 } (by decide) rfl,
    ((global_fallback exampleStore (prepareParameters blank) exampleInstSmpl examplePrstInst
      AttributeType.champ_keyRange _ _ _ _ rfl rfl rfl rfl).2 rfl).2.1⟩

/-- C8. Fine-tune cumulativity: when the fine-tune slot exists, `getInteger(champ_fineTune)`
is the sample fine-tune plus the integer value of the slot (the sum being a `qint32`); for
every other type `T` with a slot, `getInteger(T)` is the integer value of the slot, nothing
added. The sample fine-tune is what `readSmpl` reads from the sample: the signed byte
`cValue` of its `champ_chPitchCorrection`, between -128 and 127. -/
theorem fineTune_cumulative (getIntValue : ModulatedParameter → Int) (vp : VoiceParam) :
    (∀ p, vp.parameters AttributeType.champ_fineTune = some p →
      fitsInt32 (vp.sampleFineTune + getIntValue p) →
      getInteger getIntValue vp AttributeType.champ_fineTune
        = vp.sampleFineTune + getIntValue p) ∧
    (∀ T q, T ≠ AttributeType.champ_fineTune → vp.parameters T = some q →
      fitsInt32 (getIntValue q) →
      getInteger getIntValue vp T = getIntValue q) ∧
    (∀ sm idSmpl vp2, readSmpl sm vp idSmpl = some vp2 →
      vp2.sampleFineTune = (sm.get idSmpl AttributeType.champ_chPitchCorrection).cValue ∧
      -128 ≤ vp2.sampleFineTune ∧ vp2.sampleFineTune ≤ 127) := by
  refine ⟨?_, ?_, ?_⟩
  · intro p hp hfit
    unfold getInteger
    simp only [hp, if_true]
    exact wrapInt32_of_fits _ hfit
  · intro T q hT hq hfit
    unfold getInteger
    simp only [hq, hT, if_false, zero_add]
    exact wrapInt32_of_fits _ hfit
  · intro sm idSmpl vp2 h
    unfold readSmpl at h
    cases hp : vp.parameters AttributeType.champ_overridingRootKey with
    | none => simp [hp] at h
    | some q =>
      simp only [hp, Option.some.injEq] at h
      subst h
      refine ⟨rfl, ?_, ?_⟩
      · simp only [AttributeValue.cValue]
        split <;> omega
      · simp only [AttributeValue.cValue]
        split <;> omega

/-- Witness of `fineTune_cumulative`: the voice built from the example store has a sample
fine-tune of -7 and a fine-tune slot worth 5; `champ_pan` is worth 20. -/
theorem fineTune_cumulative_witness :
    getInteger exampleIntValue
        { readPrstInst exampleStore (readInstSmpl exampleStore
            (prepareParameters blank) exampleInstSmpl) examplePrstInst with
          sampleFineTune := -7 }
        AttributeType.champ_fineTune = -7 + 5 ∧
    getInteger exampleIntValue
        { readPrstInst exampleStore (readInstSmpl exampleStore
            (prepareParameters blank) exampleInstSmpl) examplePrstInst with
          sampleFineTune := -7 }
        AttributeType.champ_pan = 20 :=
  ⟨(fineTune_cumulative exampleIntValue _).1
      ((ModulatedParameter.create AttributeType.champ_fineTune).initInst { bits := 5 })
      rfl (by decide),
    (fineTune_cumulative exampleIntValue _).2.1 AttributeType.champ_pan
      (((ModulatedParameter.create AttributeType.champ_pan).initInst { bits := 10 }).initPrst
        { bits := 10 })
      (by decide) rfl (by decide)⟩

/-- C9. Length clamp for a positive end offset, and where it fails: for a voice with the
two end offset slots, a sample length `L ≥ 0` and an end offset
`o = endAddrsOffset + 32768 * endAddrsCoarseOffset` with `o > 0` (`L`, `o` and the product
being `qint32` values), `getPosition(champ_dwLength)` returns `L` when `L + o ≤ 2147483647`,
and 0 otherwise: the sum `_sampleLength + offset` of the test `_sampleLength + offset < 0`
then overflows to a negative number. In every case the result does not exceed `L`. -/
theorem length_clamp_positive_offset (getIntValue : ModulatedParameter → Int)
    (vp : VoiceParam) (pf pc : ModulatedParameter)
    (hf : vp.parameters AttributeType.champ_endAddrsOffset = some pf)
    (hc : vp.parameters AttributeType.champ_endAddrsCoarseOffset = some pc)
    (hL : 0 ≤ vp.sampleLength) (hLfit : fitsInt32 vp.sampleLength)
    (hcfit : fitsInt32 (32768 * getIntValue pc))
    (hofit : fitsInt32 (getIntValue pf + 32768 * getIntValue pc))
    (ho : 0 < getIntValue pf + 32768 * getIntValue pc) :
    getPosition getIntValue vp AttributeType.champ_dwLength
      = some (if vp.sampleLength + (getIntValue pf + 32768 * getIntValue pc) ≤ 2147483647
          then vp.sampleLength.toNat else 0) ∧
    (∃ r, getPosition getIntValue vp AttributeType.champ_dwLength = some r ∧
      (r : Int) ≤ vp.sampleLength) := by
  have hoff : offsetOf getIntValue vp AttributeType.champ_endAddrsOffset
      AttributeType.champ_endAddrsCoarseOffset
      = some (getIntValue pf + 32768 * getIntValue pc) := by
    unfold offsetOf
    simp only [hf, hc]
    rw [wrapInt32_of_fits _ hcfit, wrapInt32_of_fits _ hofit]
  have hres : getPosition getIntValue vp AttributeType.champ_dwLength
      = if wrapInt32 (vp.sampleLength + (getIntValue pf + 32768 * getIntValue pc)) < 0
        then some 0 else some (toUInt32 vp.sampleLength) := by
    unfold getPosition getPositionLength
    simp only [hoff, ho, if_true]
  have hlen : toUInt32 vp.sampleLength = vp.sampleLength.toNat :=
    toUInt32_of_nonneg _ hL hLfit
  have hmain : getPosition getIntValue vp AttributeType.champ_dwLength
      = some (if vp.sampleLength + (getIntValue pf + 32768 * getIntValue pc) ≤ 2147483647
          then vp.sampleLength.toNat else 0) := by
    rw [hres, hlen]
    unfold fitsInt32 at hLfit hofit
    by_cases hsum : vp.sampleLength + (getIntValue pf + 32768 * getIntValue pc) ≤ 2147483647
    · have hw : ¬ (wrapInt32 (vp.sampleLength + (getIntValue pf + 32768 * getIntValue pc))
          < 0) := by
        unfold wrapInt32
        omega
      rw [if_neg hw, if_pos hsum]
    · have hw : wrapInt32 (vp.sampleLength + (getIntValue pf + 32768 * getIntValue pc))
          < 0 := by
        unfold wrapInt32
        omega
      rw [if_pos hw, if_neg hsum]
  refine ⟨hmain, ?_⟩
  rw [hmain]
  by_cases hsum : vp.sampleLength + (getIntValue pf + 32768 * getIntValue pc) ≤ 2147483647
  · exact ⟨vp.sampleLength.toNat, by rw [if_pos hsum], by omega⟩
  · exact ⟨0, by rw [if_neg hsum], by simpa using hL⟩

/-- Witness of `length_clamp_positive_offset`, the failing input of C9: a sample of
2147483647 points with an end offset of +1 has the length 0, not 2147483647. -/
theorem length_clamp_positive_offset_witness :
    exampleLongVoice.sampleLength = 2147483647 ∧
    offsetOf exampleIntValue exampleLongVoice AttributeType.champ_endAddrsOffset
      AttributeType.champ_endAddrsCoarseOffset = some 1 ∧
    getPosition exampleIntValue exampleLongVoice AttributeType.champ_dwLength = some 0 :=
  ⟨rfl, by decide,
    (length_clamp_positive_offset exampleIntValue exampleLongVoice
      ((ModulatedParameter.create AttributeType.champ_endAddrsOffset).initInst { bits := 1 })
      ((ModulatedParameter.create AttributeType.champ_endAddrsCoarseOffset).initInst
        { bits := 0 })
      rfl rfl (by decide) (by decide) (by decide) (by decide) (by decide)).1.trans
      (by decide)⟩

/-- C10. Length clamp for a non-positive end offset: for a voice with the two end offset
slots, a sample length `L ≥ 0` and an end offset
`o = endAddrsOffset + 32768 * endAddrsCoarseOffset` with `o ≤ 0` (`L`, `o` and the product
being `qint32` values), `getPosition(champ_dwLength)` returns `max(0, L + o)`; it returns 0
whenever `L + o < 0`, and the result, an unsigned number, is never negative. -/
theorem length_clamp_nonpositive_offset (getIntValue : ModulatedParameter → Int)
    (vp : VoiceParam) (pf pc : ModulatedParameter)
    (hf : vp.parameters AttributeType.champ_endAddrsOffset = some pf)
    (hc : vp.parameters AttributeType.champ_endAddrsCoarseOffset = some pc)
    (hL : 0 ≤ vp.sampleLength) (hLfit : fitsInt32 vp.sampleLength)
    (hcfit : fitsInt32 (32768 * getIntValue pc))
    (hofit : fitsInt32 (getIntValue pf + 32768 * getIntValue pc))
    (ho : getIntValue pf + 32768 * getIntValue pc ≤ 0) :
    getPosition getIntValue vp AttributeType.champ_dwLength
      = some (max 0 (vp.sampleLength + (getIntValue pf + 32768 * getIntValue pc))).toNat ∧
    (vp.sampleLength + (getIntValue pf + 32768 * getIntValue pc) < 0 →
      getPosition getIntValue vp AttributeType.champ_dwLength = some 0) := by
  have hoff : offsetOf getIntValue vp AttributeType.champ_endAddrsOffset
      AttributeType.champ_endAddrsCoarseOffset
      = some (getIntValue pf + 32768 * getIntValue pc) := by
    unfold offsetOf
    simp only [hf, hc]
    rw [wrapInt32_of_fits _ hcfit, wrapInt32_of_fits _ hofit]
  have hsum : fitsInt32 (vp.sampleLength + (getIntValue pf + 32768 * getIntValue pc)) := by
    unfold fitsInt32 at *
    omega
  have hno : ¬ (getIntValue pf + 32768 * getIntValue pc > 0) := by omega
  have hres : getPosition getIntValue vp AttributeType.champ_dwLength
      = if vp.sampleLength + (getIntValue pf + 32768 * getIntValue pc) < 0
        then some 0
        else some (toUInt32 (vp.sampleLength + (getIntValue pf + 32768 * getIntValue pc))) := by
    unfold getPosition getPositionLength
    simp only [hoff, hno, if_false, wrapInt32_of_fits _ hsum]
  constructor
  · rw [hres]
    by_cases hneg : vp.sampleLength + (getIntValue pf + 32768 * getIntValue pc) < 0
    · rw [if_pos hneg, max_eq_left (le_of_lt hneg)]
      rfl
    · rw [if_neg hneg, max_eq_right (not_lt.mp hneg),
        toUInt32_of_nonneg _ (not_lt.mp hneg) hsum]
  · intro hneg
    rw [hres, if_pos hneg]

/-- Witness of `length_clamp_nonpositive_offset`: a sample of 1000 points with an end
offset of -1 (fine value 65535 read as a signed 16-bit number) has a length of 999. -/
theorem length_clamp_nonpositive_offset_witness :
    getPosition exampleIntValue (exampleVoice 65535 0) AttributeType.champ_dwLength
      = some 999 :=
  (length_clamp_nonpositive_offset exampleIntValue (exampleVoice 65535 0)
    ((ModulatedParameter.create AttributeType.champ_endAddrsOffset).initInst
      { bits := 65535 })
    ((ModulatedParameter.create AttributeType.champ_endAddrsCoarseOffset).initInst
      { bits := 0 })
    rfl rfl (by decide) (by decide) (by decide) (by decide) (by decide)).1

/-! ## Positions, defaults and the constructor -/

namespace VoiceParam

/-- The offset of a generator pair when its two slots exist and the arithmetic stays in
the `qint32` range. -/
theorem offsetOf_eq (getIntValue : ModulatedParameter → Int) (vp : VoiceParam)
    (fine coarse : AttributeType) (pf pc : ModulatedParameter)
    (hf : vp.parameters fine = some pf) (hc : vp.parameters coarse = some pc)
    (hcfit : fitsInt32 (32768 * getIntValue pc))
    (hofit : fitsInt32 (getIntValue pf + 32768 * getIntValue pc)) :
    offsetOf getIntValue vp fine coarse = some (getIntValue pf + 32768 * getIntValue pc) := by
  unfold offsetOf
  simp only [hf, hc]
  rw [wrapInt32_of_fits _ hcfit, wrapInt32_of_fits _ hofit]

/-- The clamp to the resolved length is a minimum. -/
theorem clampToLength_eq (getIntValue : ModulatedParameter → Int) (vp : VoiceParam)
    (result len : Nat) (hlen : getPositionLength getIntValue vp = some len) :
    clampToLength getIntValue vp result = some (min result len) := by
  unfold clampToLength
  simp only [hlen]
  by_cases h : result > len
  · rw [if_pos h]; congr 1; omega
  · rw [if_neg h]; congr 1; omega

/-- The slots that `prepareParameters` creates on a blank voice. -/
theorem prepareParameters_blank (T : AttributeType) :
    (prepareParameters blank).parameters T
      = if T ∈ recognizedTypes then some (ModulatedParameter.create T) else none := by
  cases T <;> rfl

/-- A read of a zone keeps every field of a slot that its `init` keeps. -/
theorem readZone_bind {α : Type} (init : ModulatedParameter → AttributeValue → ModulatedParameter)
    (hov : ∀ p a b, init (init p a) b = init p b) (proj : ModulatedParameter → Option α)
    (hproj : ∀ p v, proj (init p v) = proj p)
    (division global : List (AttributeType × AttributeValue)) (vp : VoiceParam)
    (T : AttributeType) :
    ((readZone init division global vp).parameters T).bind proj
      = (vp.parameters T).bind proj := by
  rw [readZone_parameters init hov]
  cases vp.parameters T with
  | none => rfl
  | some p =>
    simp only [Option.map_some', Option.some_bind]
    cases lastValue division T with
    | some zv => exact hproj p zv
    | none =>
      cases lastValue global T with
      | some gv => exact hproj p gv
      | none => rfl

/-- The voice after `readSmpl` on a voice fresh from `prepareParameters`. -/
theorem readSmpl_prepared (sm : SoundfontManager) (idSmpl : EltID) :
    ∃ vp1, readSmpl sm (prepareParameters blank) idSmpl = some vp1 ∧
      (∀ T, vp1.parameters T
        = if T = AttributeType.champ_overridingRootKey then
            some ((ModulatedParameter.create AttributeType.champ_overridingRootKey).initInst
              (sm.get idSmpl AttributeType.champ_byOriginalPitch))
          else (prepareParameters blank).parameters T) := by
  refine ⟨_, rfl, ?_⟩
  intro T
  simp only [applyInit_parameters]
  by_cases h : T = AttributeType.champ_overridingRootKey
  · subst h; rfl
  · simp only [h, if_false]

theorem wValue_setWValue (v : AttributeValue) (x : Int) :
    (v.setWValue x).wValue = (x % 65536).toNat := by
  unfold AttributeValue.setWValue AttributeValue.wValue
  simp only
  omega

theorem shValue_setShValue (v : AttributeValue) (x : Int) (h : -32768 ≤ x ∧ x < 32768) :
    (v.setShValue x).shValue = x := by
  unfold AttributeValue.setShValue AttributeValue.shValue
  simp only
  split <;> omega

/-- The call `prepareForSmpl` returns when the three slots that it writes exist. -/
theorem prepareForSmpl_isSome (value0 : AttributeValue) (vp : VoiceParam) (key : Int)
    (link : SFSampleLink) (pe pr pp : ModulatedParameter)
    (hE : vp.parameters AttributeType.champ_exclusiveClass = some pe)
    (hR : vp.parameters AttributeType.champ_releaseVolEnv = some pr)
    (hP : vp.parameters AttributeType.champ_pan = some pp) :
    ∃ vp2, prepareForSmpl value0 vp key link = some vp2 := by
  unfold prepareForSmpl
  simp only [hE, hR, hP]
  cases link <;> exact ⟨_, rfl⟩

/-- The three instrument-level values that `prepareForSmpl` leaves in the voice. -/
theorem prepareForSmpl_values (value0 : AttributeValue) (vp vp2 : VoiceParam) (key : Int)
    (link : SFSampleLink) (h : prepareForSmpl value0 vp key link = some vp2) :
    instValueOf vp2 AttributeType.champ_exclusiveClass = some (value0.setWValue key) ∧
    instValueOf vp2 AttributeType.champ_releaseVolEnv
      = some ((value0.setWValue key).setShValue releaseTimecents) ∧
    instValueOf vp2 AttributeType.champ_pan
      = some (((value0.setWValue key).setShValue releaseTimecents).setShValue
          (match link with
            | SFSampleLink.leftSample | SFSampleLink.RomLeftSample => -500
            | SFSampleLink.rightSample | SFSampleLink.RomRightSample => 500
            | _ => 0)) := by
  unfold prepareForSmpl at h
  cases hE : vp.parameters AttributeType.champ_exclusiveClass with
  | none => simp [hE] at h
  | some pe =>
    cases hR : vp.parameters AttributeType.champ_releaseVolEnv with
    | none => simp [hE, hR] at h
    | some pr =>
      cases hP : vp.parameters AttributeType.champ_pan with
      | none => simp [hE, hR, hP] at h
      | some pp =>
        simp only [hE, hR, hP] at h
        cases link <;> simp only [Option.some.injEq] at h <;> subst h <;>
          simp [instValueOf, applyInit_parameters, hE, hR, hP, ModulatedParameter.initInst]

/-- Bounds on the natural logarithm of 0.2, from those of `log 2` and the series of
`log (1 - 1/5)`. -/
theorem log_fifth_bounds :
    -(1.60945 : ℝ) < Real.log (1 / 5) ∧ Real.log (1 / 5) < -(1.60942 : ℝ) := by
  have hx : |(1 / 5 : ℝ)| < 1 := by rw [abs_of_pos] <;> norm_num
  have z := Real.abs_log_sub_add_sum_range_le hx 7
  have h45 : Real.log (1 - 1 / 5 : ℝ) = 2 * Real.log 2 + Real.log (1 / 5) := by
    have : (1 - 1 / 5 : ℝ) = 2 * 2 * (1 / 5) := by norm_num
    rw [this, Real.log_mul (by norm_num) (by norm_num),
      Real.log_mul (by norm_num) (by norm_num)]
    ring
  rw [h45, abs_of_pos (by norm_num : (0 : ℝ) < 1 / 5)] at z
  have z2 := abs_le.mp z
  have l1 := Real.log_two_gt_d9
  have l2 := Real.log_two_lt_d9
  norm_num [Finset.sum_range_succ] at z2
  constructor <;> linarith [z2.1, z2.2]

/-- The expression of `prepareForSmpl`, in real arithmetic, rounds to `releaseTimecents`. -/
theorem releaseTimecents_eq_round :
    round ((1200 : ℝ) * Real.log 0.2 / 0.69314718056) = releaseTimecents := by
  have h02 : (0.2 : ℝ) = 1 / 5 := by norm_num
  obtain ⟨a, b⟩ := log_fifth_bounds
  have e : (1200 : ℝ) * Real.log (1 / 5) / 0.69314718056
      = (1200 / 0.69314718056) * Real.log (1 / 5) := by ring
  unfold releaseTimecents
  rw [h02, e, round_eq, Int.floor_eq_iff]
  constructor
  · norm_num; linarith
  · norm_num; linarith

/-- The timecents of 0.2 s, `1200 * log2(0.2)`, round to `releaseTimecents`. -/
theorem releaseTimecents_eq_timecents :
    round ((1200 : ℝ) * Real.logb 2 (1 / 5)) = releaseTimecents := by
  obtain ⟨a, b⟩ := log_fifth_bounds
  have l1 := Real.log_two_gt_d9
  have l2 := Real.log_two_lt_d9
  have hpos : (0 : ℝ) < Real.log 2 := by linarith
  unfold releaseTimecents
  rw [round_eq, Int.floor_eq_iff, Real.logb]
  constructor
  · rw [← sub_le_iff_le_add, mul_div_assoc', le_div_iff₀ hpos]
    norm_num
    nlinarith
  · rw [← lt_sub_iff_add_lt, mul_div_assoc', div_lt_iff₀ hpos]
    norm_num
    nlinarith

/-- The timecents of a time of at most 0.1 s round to -3600 or less. -/
theorem timecents_short (t : ℝ) (h0 : 0 < t) (h1 : t ≤ 1 / 10) :
    round ((1200 : ℝ) * Real.logb 2 t) ≤ -3600 := by
  have l1 := Real.log_two_gt_d9
  have hpos : (0 : ℝ) < Real.log 2 := by linarith
  have h8 : Real.logb 2 t ≤ -3 := by
    have : Real.logb 2 t ≤ Real.logb 2 (1 / 8) :=
      Real.logb_le_logb_of_le (by norm_num) h0 (by linarith)
    have e : Real.logb 2 (1 / 8 : ℝ) = -3 := by
      have h8 : Real.log (1 / 8 : ℝ) = -3 * Real.log 2 := by
        have : (1 / 8 : ℝ) = (2 ^ 3)⁻¹ := by norm_num
        rw [this, Real.log_inv, Real.log_pow]
        push_cast
        ring
      rw [Real.logb, h8]
      field_simp
    linarith
  rw [round_eq]
  have : (1200 : ℝ) * Real.logb 2 t + 1 / 2 < ((-3600 + 1 : ℤ) : ℝ) := by
    push_cast; linarith
  have := Int.floor_lt.mpr this
  omega

end VoiceParam

/-- C11. Start and loop positions, and where they fail: for `champ_dwStart16` (base 0),
`champ_dwStartLoop` (base: the stored loop start) and `champ_dwEndLoop` (base: the stored loop
end), with the two slots of the matching offset pair present, the base and the offset
`o = fine + 32768 * coarse` being `qint32` values and `getPosition(champ_dwLength)` returning
`len`: when `base + o` is a `qint32` value, `getPosition` returns `base + o` clamped to
`[0, len]`; when `base + o > 2147483647` the sum overflows to a negative number and
`getPosition` returns 0, not `len`; when `base + o < -2147483648` the sum overflows to a
positive number and `getPosition` returns `base + o + 2^32` clamped to `len`, not 0. The
returned position is at most `len` in every case. -/
theorem start_and_loop_positions (getIntValue : ModulatedParameter → Int) (vp : VoiceParam)
    (type fine coarse : AttributeType) (base : Int) (pf pc : ModulatedParameter) (len : Nat)
    (hcase :
      (type = AttributeType.champ_dwStart16 ∧ base = 0 ∧
        fine = AttributeType.champ_startAddrsOffset ∧
        coarse = AttributeType.champ_startAddrsCoarseOffset) ∨
      (type = AttributeType.champ_dwStartLoop ∧ base = vp.sampleLoopStart ∧
        fine = AttributeType.champ_startloopAddrsOffset ∧
        coarse = AttributeType.champ_startloopAddrsCoarseOffset) ∨
      (type = AttributeType.champ_dwEndLoop ∧ base = vp.sampleLoopEnd ∧
        fine = AttributeType.champ_endloopAddrsOffset ∧
        coarse = AttributeType.champ_endloopAddrsCoarseOffset))
    (hf : vp.parameters fine = some pf) (hc : vp.parameters coarse = some pc)
    (hbase : fitsInt32 base)
    (hcfit : fitsInt32 (32768 * getIntValue pc))
    (hofit : fitsInt32 (getIntValue pf + 32768 * getIntValue pc))
    (hlen : getPosition getIntValue vp AttributeType.champ_dwLength = some len) :
    (fitsInt32 (base + (getIntValue pf + 32768 * getIntValue pc)) →
      getPosition getIntValue vp type
        = some (min (max 0 (base + (getIntValue pf + 32768 * getIntValue pc))).toNat len)) ∧
    (2147483647 < base + (getIntValue pf + 32768 * getIntValue pc) →
      getPosition getIntValue vp type = some 0) ∧
    (base + (getIntValue pf + 32768 * getIntValue pc) < -2147483648 →
      getPosition getIntValue vp type
        = some (min (base + (getIntValue pf + 32768 * getIntValue pc) + 4294967296).toNat
            len)) ∧
    (∀ r, getPosition getIntValue vp type = some r → r ≤ len) := by
  have hl : getPositionLength getIntValue vp = some len := hlen
  have hoff := offsetOf_eq getIntValue vp fine coarse pf pc hf hc hcfit hofit
  -- the three cases compute the same function of `base`
  have hshape : getPosition getIntValue vp type
      = if wrapInt32 (base + (getIntValue pf + 32768 * getIntValue pc)) < 0 then some 0
        else clampToLength getIntValue vp
          (toUInt32 (wrapInt32 (base + (getIntValue pf + 32768 * getIntValue pc)))) := by
    rcases hcase with ⟨rfl, rfl, rfl, rfl⟩ | ⟨rfl, rfl, rfl, rfl⟩ | ⟨rfl, rfl, rfl, rfl⟩
    · unfold getPosition
      simp only [hoff, zero_add, wrapInt32_of_fits _ hofit]
    · unfold getPosition
      simp only [hoff]
    · unfold getPosition
      simp only [hoff]
  have hwfit := wrapInt32_fits (base + (getIntValue pf + 32768 * getIntValue pc))
  have hclamp : ¬ (wrapInt32 (base + (getIntValue pf + 32768 * getIntValue pc)) < 0) →
      getPosition getIntValue vp type
        = some (min (wrapInt32 (base + (getIntValue pf + 32768 * getIntValue pc))).toNat
            len) := by
    intro hneg
    rw [hshape, if_neg hneg, clampToLength_eq _ _ _ _ hl,
      toUInt32_of_nonneg _ (not_lt.mp hneg) hwfit]
  unfold fitsInt32 at hbase hofit
  refine ⟨?_, ?_, ?_, ?_⟩
  · intro hsum
    have hw := wrapInt32_of_fits _ hsum
    by_cases hneg : base + (getIntValue pf + 32768 * getIntValue pc) < 0
    · rw [hshape, hw, if_pos hneg]
      congr 1
      omega
    · rw [hclamp (by rw [hw]; exact hneg), hw]
      congr 1
      omega
  · intro hover
    have hw : wrapInt32 (base + (getIntValue pf + 32768 * getIntValue pc)) < 0 := by
      unfold wrapInt32
      omega
    rw [hshape, if_pos hw]
  · intro hunder
    have hw : wrapInt32 (base + (getIntValue pf + 32768 * getIntValue pc))
        = base + (getIntValue pf + 32768 * getIntValue pc) + 4294967296 := by
      unfold wrapInt32
      omega
    rw [hclamp (by rw [hw]; omega), hw]
  · intro r hr
    by_cases hneg : wrapInt32 (base + (getIntValue pf + 32768 * getIntValue pc)) < 0
    · rw [hshape, if_pos hneg] at hr
      have := Option.some.inj hr
      omega
    · rw [hclamp hneg] at hr
      have := Option.some.inj hr
      omega

/-- Witness of `start_and_loop_positions`, the failing input of C11: with the loop end at
2147483647, an end-loop offset of +1 and a resolved length of 1000, the end of the loop is at
0, not at 1000. -/
theorem start_and_loop_positions_witness :
    exampleLoopVoice.sampleLoopEnd = 2147483647 ∧
    offsetOf exampleIntValue exampleLoopVoice AttributeType.champ_endloopAddrsOffset
      AttributeType.champ_endloopAddrsCoarseOffset = some 1 ∧
    getPosition exampleIntValue exampleLoopVoice AttributeType.champ_dwLength = some 1000 ∧
    getPosition exampleIntValue exampleLoopVoice AttributeType.champ_dwEndLoop = some 0 :=
  ⟨rfl, by decide, by decide,
    (start_and_loop_positions exampleIntValue exampleLoopVoice
      AttributeType.champ_dwEndLoop AttributeType.champ_endloopAddrsOffset
      AttributeType.champ_endloopAddrsCoarseOffset 2147483647
      ((ModulatedParameter.create AttributeType.champ_endloopAddrsOffset).initInst
        { bits := 1 })
      (ModulatedParameter.create AttributeType.champ_endloopAddrsCoarseOffset) 1000
      (Or.inr (Or.inr ⟨rfl, rfl, rfl, rfl⟩)) rfl rfl (by decide) (by decide) (by decide)
      (by decide)).2.1 (by decide)⟩

/-- C12. Unknown generator type: for a type `T` without slot, `getDouble(T)` is 0 and
`getInteger(T)` is 0 unless `T` is `champ_wPreset` (then it is the stored preset number);
for a type `T` other than `champ_dwStart16`, `champ_dwLength`, `champ_dwStartLoop` and
`champ_dwEndLoop`, `getPosition(T)` returns 0. The three queries are functions of the
voice: they return a value and write no member. -/
theorem unknown_type_defaults (getIntValue : ModulatedParameter → Int)
    (getRealValue : ModulatedParameter → ℚ) (vp : VoiceParam) (T : AttributeType) :
    (vp.parameters T = none →
      getDouble getRealValue vp T = 0 ∧
      (T ≠ AttributeType.champ_wPreset → getInteger getIntValue vp T = 0) ∧
      (T = AttributeType.champ_wPreset → getInteger getIntValue vp T = vp.wPresetNumber)) ∧
    (T ≠ AttributeType.champ_dwStart16 → T ≠ AttributeType.champ_dwLength →
      T ≠ AttributeType.champ_dwStartLoop → T ≠ AttributeType.champ_dwEndLoop →
      getPosition getIntValue vp T = some 0) := by
  constructor
  · intro hnone
    refine ⟨?_, ?_, ?_⟩
    · unfold getDouble; simp only [hnone]
    · intro hT; unfold getInteger; simp only [hnone, hT, if_false]
    · intro hT; subst hT; unfold getInteger; simp only [hnone, if_true]
  · intro h1 h2 h3 h4
    unfold getPosition
    split <;> first | rfl | contradiction

/-- Witness of `unknown_type_defaults`: `champ_keyRange` has no slot in a voice fresh from
`prepareParameters`; the three queries give 0. -/
theorem unknown_type_defaults_witness :
    getDouble (fun _ => 1) (prepareParameters blank) AttributeType.champ_keyRange = 0 ∧
    getInteger exampleIntValue (prepareParameters blank) AttributeType.champ_keyRange = 0 ∧
    getPosition exampleIntValue (prepareParameters blank) AttributeType.champ_keyRange
      = some 0 :=
  ⟨((unknown_type_defaults exampleIntValue (fun _ => 1) (prepareParameters blank)
      AttributeType.champ_keyRange).1 rfl).1,
    ((unknown_type_defaults exampleIntValue (fun _ => 1) (prepareParameters blank)
      AttributeType.champ_keyRange).1 rfl).2.1 (by decide),
    (unknown_type_defaults exampleIntValue (fun _ => 1) (prepareParameters blank)
      AttributeType.champ_keyRange).2 (by decide) (by decide) (by decide) (by decide)⟩

/-- C13. Preset number: the constructor returns a voice. Built with an unknown preset-zone
id, the voice has `getInteger(champ_wPreset) = -1` and no slot has a preset-level value;
built with a known preset-zone id, `getInteger(champ_wPreset)` is the `wValue` of the
attribute `champ_wPreset` of the preset `EltID(elementPrst, indexSf2, indexElt)` that owns
the zone. Built with an unknown instrument-zone id, no slot has an instrument-level value
but that of `champ_overridingRootKey`, which holds the original pitch of the sample. -/
theorem preset_number (getIntValue : ModulatedParameter → Int) (sm : SoundfontManager)
    (idPrstInst idInstSmpl idSmpl : EltID) :
    ∃ vp, construct sm idPrstInst idInstSmpl idSmpl = some vp ∧
      (idPrstInst.typeElement = ElementType.elementUnknown →
        getInteger getIntValue vp AttributeType.champ_wPreset = -1 ∧
        ∀ T, prstValueOf vp T = none) ∧
      (idPrstInst.typeElement ≠ ElementType.elementUnknown →
        getInteger getIntValue vp AttributeType.champ_wPreset
          = ((sm.get (EltID.ofElt ElementType.elementPrst idPrstInst.indexSf2
              idPrstInst.indexElt) AttributeType.champ_wPreset).wValue : Nat)) ∧
      (idInstSmpl.typeElement = ElementType.elementUnknown →
        ∀ T, instValueOf vp T
          = if T = AttributeType.champ_overridingRootKey then
              some (sm.get idSmpl AttributeType.champ_byOriginalPitch)
            else none) := by
  obtain ⟨vp1, h1, hp1⟩ := readSmpl_prepared sm idSmpl
  -- the slots after `readSmpl`
  have hprst1 : ∀ T, (vp1.parameters T).bind ModulatedParameter.prstValue = none := by
    intro T
    rw [hp1, prepareParameters_blank]
    by_cases h : T = AttributeType.champ_overridingRootKey
    · simp only [h, if_true]; rfl
    · simp only [h, if_false]
      by_cases hm : T ∈ recognizedTypes
      · simp only [hm, if_true]; rfl
      · simp only [hm, if_false]; rfl
  have hinst1 : ∀ T, (vp1.parameters T).bind ModulatedParameter.instValue
      = if T = AttributeType.champ_overridingRootKey then
          some (sm.get idSmpl AttributeType.champ_byOriginalPitch)
        else none := by
    intro T
    rw [hp1, prepareParameters_blank]
    by_cases h : T = AttributeType.champ_overridingRootKey
    · simp only [h, if_true]; rfl
    · simp only [h, if_false]
      by_cases hm : T ∈ recognizedTypes
      · simp only [hm, if_true]; rfl
      · simp only [hm, if_false]; rfl
  have hw1 : vp1.parameters AttributeType.champ_wPreset = none := by
    rw [hp1]; rfl
  -- the instrument tier
  have hinstTier : ∀ vp2, vp2 = (if idInstSmpl.typeElement ≠ ElementType.elementUnknown then
        readInstSmpl sm vp1 idInstSmpl else vp1) →
      (∀ T, (vp2.parameters T).bind ModulatedParameter.prstValue = none) ∧
      vp2.parameters AttributeType.champ_wPreset = none ∧
      (idInstSmpl.typeElement = ElementType.elementUnknown →
        ∀ T, (vp2.parameters T).bind ModulatedParameter.instValue
          = if T = AttributeType.champ_overridingRootKey then
              some (sm.get idSmpl AttributeType.champ_byOriginalPitch)
            else none) := by
    intro vp2 hvp2
    by_cases hI : idInstSmpl.typeElement = ElementType.elementUnknown
    · have : vp2 = vp1 := by rw [hvp2]; simp [hI]
      subst this
      exact ⟨hprst1, hw1, fun _ => hinst1⟩
    · have : vp2 = readInstSmpl sm vp1 idInstSmpl := by rw [hvp2]; simp [hI]
      subst this
      refine ⟨?_, ?_, fun h => absurd h hI⟩
      · intro T
        unfold readInstSmpl
        simp only
        rw [readZone_bind ModulatedParameter.initInst initInst_overwrites
          ModulatedParameter.prstValue (fun _ _ => rfl)]
        exact hprst1 T
      · unfold readInstSmpl
        simp only
        rw [readZone_parameters _ initInst_overwrites, hw1]
        rfl
  obtain ⟨vp2, hvp2⟩ : ∃ vp2, vp2 = (if idInstSmpl.typeElement ≠ ElementType.elementUnknown
      then readInstSmpl sm vp1 idInstSmpl else vp1) := ⟨_, rfl⟩
  obtain ⟨hprst2, hw2, hinst2⟩ := hinstTier vp2 hvp2
  by_cases hP : idPrstInst.typeElement = ElementType.elementUnknown
  · refine ⟨{ vp2 with wPresetNumber := -1 }, ?_, ?_, ?_, ?_⟩
    · unfold construct
      simp only [h1, hP, ne_eq, not_true_eq_false, if_false]
      rw [hvp2]
    · intro _
      refine ⟨?_, fun T => hprst2 T⟩
      unfold getInteger
      simp only [hw2, if_true]
    · intro h; exact absurd hP h
    · intro hI T
      exact hinst2 hI T
  · refine ⟨{ readPrstInst sm vp2 idPrstInst with
        wPresetNumber := ((sm.get (EltID.ofElt ElementType.elementPrst idPrstInst.indexSf2
          idPrstInst.indexElt) AttributeType.champ_wPreset).wValue : Nat) }, ?_, ?_, ?_, ?_⟩
    · unfold construct
      simp only [h1, hP, ne_eq, not_false_eq_true, if_true]
      rw [hvp2]
    · intro h; exact absurd h hP
    · intro _
      have hw3 : (readPrstInst sm vp2 idPrstInst).parameters
          AttributeType.champ_wPreset = none := by
        unfold readPrstInst
        simp only
        rw [readZone_parameters _ initPrst_overwrites, hw2]
        rfl
      unfold getInteger
      simp only [hw3, if_true]
    · intro hI T
      show ((readPrstInst sm vp2 idPrstInst).parameters T).bind ModulatedParameter.instValue = _
      unfold readPrstInst
      simp only
      rw [readZone_bind ModulatedParameter.initPrst initPrst_overwrites
        ModulatedParameter.instValue (fun _ _ => rfl)]
      exact hinst2 hI T

/-- Witness of `preset_number` on the example store: a voice built for the preset zone
alone has preset number 3 and no instrument-level pan; a voice built for the instrument zone
alone has preset number -1 and no preset-level pan. -/
theorem preset_number_witness :
    (∃ vp, construct exampleStore examplePrstInst exampleUnknown exampleSmpl = some vp ∧
      getInteger exampleIntValue vp AttributeType.champ_wPreset = 3 ∧
      instValueOf vp AttributeType.champ_pan = none) ∧
    (∃ vp, construct exampleStore exampleUnknown exampleInstSmpl exampleSmpl = some vp ∧
      getInteger exampleIntValue vp AttributeType.champ_wPreset = -1 ∧
      prstValueOf vp AttributeType.champ_pan = none) :=
  ⟨(preset_number exampleIntValue exampleStore examplePrstInst exampleUnknown
      exampleSmpl).elim
      (fun vp h => ⟨vp, h.1, h.2.2.1 (by decide), h.2.2.2 rfl AttributeType.champ_pan⟩),
    (preset_number exampleIntValue exampleStore exampleUnknown exampleInstSmpl
      exampleSmpl).elim
      (fun vp h => ⟨vp, h.1, (h.2.1 rfl).1, (h.2.1 rfl).2 AttributeType.champ_pan⟩)⟩

/-- C14 as stated fails: on a voice fresh from `prepareParameters`, `prepareForSmpl(60, link)`
stores -2786 as the instrument-level value of `champ_releaseVolEnv`, which is not the
timecent value `round(1200 * log2(t))` of `t = 0.05` s, nor of any `t` up to 0.1 s. -/
theorem release_is_not_50ms :
    ∃ vp2 v, prepareForSmpl (AttributeValue.mk 0) (prepareParameters blank) 60
        (SFSampleLink.other 1) = some vp2 ∧
      (instValueOf vp2 AttributeType.champ_releaseVolEnv).map AttributeValue.shValue = some v ∧
      v = -2786 ∧
      v ≠ round ((1200 : ℝ) * Real.logb 2 (1 / 20)) ∧
      ∀ t : ℝ, 0 < t → t ≤ 1 / 10 → v ≠ round ((1200 : ℝ) * Real.logb 2 t) := by
  refine ⟨_, -2786, rfl, by decide, rfl, ?_, ?_⟩
  · have := timecents_short (1 / 20) (by norm_num) (by norm_num)
    omega
  · intro t h0 h1
    have := timecents_short t h0 h1
    omega

/-- C14, amended. For every key, sample link and voice with the three slots that it
writes, `prepareForSmpl` returns and sets the instrument-level value of
`champ_releaseVolEnv` to -2786, the timecent value of a release of 0.2 s: it is the
rounding of the source expression `1200 * ln(0.2) / 0.69314718056` and of
`1200 * log2(0.2)`, in real arithmetic. -/
theorem release_is_200ms (value0 : AttributeValue) (vp : VoiceParam) (key : Int)
    (link : SFSampleLink) (pe pr pp : ModulatedParameter)
    (hE : vp.parameters AttributeType.champ_exclusiveClass = some pe)
    (hR : vp.parameters AttributeType.champ_releaseVolEnv = some pr)
    (hP : vp.parameters AttributeType.champ_pan = some pp) :
    ∃ vp2, prepareForSmpl value0 vp key link = some vp2 ∧
      (instValueOf vp2 AttributeType.champ_releaseVolEnv).map AttributeValue.shValue
        = some (-2786) ∧
      round ((1200 : ℝ) * Real.log 0.2 / 0.69314718056) = -2786 ∧
      round ((1200 : ℝ) * Real.logb 2 (1 / 5)) = -2786 := by
  obtain ⟨vp2, h⟩ := prepareForSmpl_isSome value0 vp key link pe pr pp hE hR hP
  obtain ⟨_, hrel, _⟩ := prepareForSmpl_values value0 vp vp2 key link h
  refine ⟨vp2, h, ?_, releaseTimecents_eq_round, releaseTimecents_eq_timecents⟩
  rw [hrel, Option.map_some', shValue_setShValue _ _ (by decide)]
  rfl

/-- Witness of `release_is_200ms`: key 60 and a left sample on a voice fresh from
`prepareParameters`. -/
theorem release_is_200ms_witness :
    ∃ vp2, prepareForSmpl (AttributeValue.mk 77) (prepareParameters blank) 60
        SFSampleLink.leftSample = some vp2 ∧
      (instValueOf vp2 AttributeType.champ_releaseVolEnv).map AttributeValue.shValue
        = some (-2786) ∧
      round ((1200 : ℝ) * Real.log 0.2 / 0.69314718056) = -2786 ∧
      round ((1200 : ℝ) * Real.logb 2 (1 / 5)) = -2786 :=
  release_is_200ms (AttributeValue.mk 77) (prepareParameters blank) 60
    SFSampleLink.leftSample _ _ _ rfl rfl rfl

/-- C15. Exclusive class: for every key in 0..127, sample link and voice with the three
slots that it writes, `prepareForSmpl(key, link)` returns and sets the instrument-level
value of `champ_exclusiveClass` to a value whose `wValue` (unsigned, 16 bits) is `key`.
Two voices so prepared have the same exclusive class exactly when their keys are the same. -/
theorem exclusive_class_is_key (value0 : AttributeValue) (vp : VoiceParam) (key : Int)
    (link : SFSampleLink) (pe pr pp : ModulatedParameter)
    (hE : vp.parameters AttributeType.champ_exclusiveClass = some pe)
    (hR : vp.parameters AttributeType.champ_releaseVolEnv = some pr)
    (hP : vp.parameters AttributeType.champ_pan = some pp)
    (hkey : 0 ≤ key ∧ key ≤ 127) :
    ∃ vp2, prepareForSmpl value0 vp key link = some vp2 ∧
      (instValueOf vp2 AttributeType.champ_exclusiveClass).map
        (fun a => (a.wValue : Int)) = some key ∧
      ∀ (value0b : AttributeValue) (vpb vp2b : VoiceParam) (key2 : Int)
        (link2 : SFSampleLink), 0 ≤ key2 ∧ key2 ≤ 127 →
        prepareForSmpl value0b vpb key2 link2 = some vp2b →
        ((instValueOf vp2 AttributeType.champ_exclusiveClass).map AttributeValue.wValue
          = (instValueOf vp2b AttributeType.champ_exclusiveClass).map AttributeValue.wValue
          ↔ key = key2) := by
  obtain ⟨vp2, h⟩ := prepareForSmpl_isSome value0 vp key link pe pr pp hE hR hP
  obtain ⟨hexc, _, _⟩ := prepareForSmpl_values value0 vp vp2 key link h
  refine ⟨vp2, h, ?_, ?_⟩
  · rw [hexc, Option.map_some', wValue_setWValue]
    congr 1
    omega
  · intro value0b vpb vp2b key2 link2 hkey2 hb
    obtain ⟨hexcb, _, _⟩ := prepareForSmpl_values value0b vpb vp2b key2 link2 hb
    rw [hexc, hexcb, Option.map_some', Option.map_some', wValue_setWValue, wValue_setWValue]
    constructor
    · intro heq
      have := Option.some.inj heq
      omega
    · intro heq
      rw [heq]

/-- Witness of `exclusive_class_is_key`: key 60 gives the exclusive class 60. -/
theorem exclusive_class_is_key_witness :
    ∃ vp2, prepareForSmpl (AttributeValue.mk 77) (prepareParameters blank) 60
        SFSampleLink.leftSample = some vp2 ∧
      (instValueOf vp2 AttributeType.champ_exclusiveClass).map
        (fun a => (a.wValue : Int)) = some 60 :=
  (exclusive_class_is_key (AttributeValue.mk 77) (prepareParameters blank) 60
    SFSampleLink.leftSample _ _ _ rfl rfl rfl (by decide)).elim
    (fun vp2 h => ⟨vp2, h.1, h.2.1⟩)

/-- C16. Pan: for every key, sample link and voice with the three slots that it writes,
`prepareForSmpl` returns and sets the instrument-level value of `champ_pan` to -500 for
`leftSample` and `RomLeftSample`, to 500 for `rightSample` and `RomRightSample`, and to 0
for every other link. -/
theorem pan_follows_link (value0 : AttributeValue) (vp : VoiceParam) (key : Int)
    (link : SFSampleLink) (pe pr pp : ModulatedParameter)
    (hE : vp.parameters AttributeType.champ_exclusiveClass = some pe)
    (hR : vp.parameters AttributeType.champ_releaseVolEnv = some pr)
    (hP : vp.parameters AttributeType.champ_pan = some pp) :
    ∃ vp2, prepareForSmpl value0 vp key link = some vp2 ∧
      (instValueOf vp2 AttributeType.champ_pan).map AttributeValue.shValue
        = some (if link = SFSampleLink.leftSample ∨ link = SFSampleLink.RomLeftSample then -500
            else if link = SFSampleLink.rightSample ∨ link = SFSampleLink.RomRightSample
              then 500
            else 0) := by
  obtain ⟨vp2, h⟩ := prepareForSmpl_isSome value0 vp key link pe pr pp hE hR hP
  obtain ⟨_, _, hpan⟩ := prepareForSmpl_values value0 vp vp2 key link h
  refine ⟨vp2, h, ?_⟩
  rw [hpan, Option.map_some']
  cases link <;> simp [shValue_setShValue]

/-- Witness of `pan_follows_link`: a right sample is panned to +500. -/
theorem pan_follows_link_witness :
    ∃ vp2, prepareForSmpl (AttributeValue.mk 77) (prepareParameters blank) 60
        SFSampleLink.rightSample = some vp2 ∧
      (instValueOf vp2 AttributeType.champ_pan).map AttributeValue.shValue
        = some (if SFSampleLink.rightSample = SFSampleLink.leftSample
                ∨ SFSampleLink.rightSample = SFSampleLink.RomLeftSample then -500
            else if SFSampleLink.rightSample = SFSampleLink.rightSample
                ∨ SFSampleLink.rightSample = SFSampleLink.RomRightSample then 500
            else 0) :=
  pan_follows_link (AttributeValue.mk 77) (prepareParameters blank) 60
    SFSampleLink.rightSample _ _ _ rfl rfl rfl

/-! ## Invariants of the MIDI state machine -/

namespace MidiDevice

/-- A note-off leaves the held queue as it is, or appends a real key that was not in it,
the pedal being down. -/
theorem processKeyOff_frame (s : MidiDevice) (k : Int) (sync : Bool) :
    (processKeyOff s k sync).listKeysToRelease = s.listKeysToRelease ∨
    ((processKeyOff s k sync).listKeysToRelease = s.listKeysToRelease ++ [k] ∧
      k ∉ s.listKeysToRelease ∧ k ≠ -1 ∧ s.isSustainOn = true) := by
  unfold processKeyOff
  by_cases hkb : (s.keyboard && sync) = true <;> by_cases hk : k = -1 <;>
    by_cases hs : s.isSustainOn = true <;> by_cases hc : k ∈ s.listKeysToRelease <;>
    simp [hkb, hk, hs, hc, emit]

/-- A note-on never changes the held queue nor the sustain flag. -/
theorem processKeyOn_frame (s : MidiDevice) (k v : Int) (sync : Bool) :
    (processKeyOn s k v sync).listKeysToRelease = s.listKeysToRelease ∧
    (processKeyOn s k v sync).isSustainOn = s.isSustainOn := by
  have h1 : ∀ t : MidiDevice, t.listKeysToRelease = s.listKeysToRelease →
      t.isSustainOn = s.isSustainOn →
      ((if t.listKeysToRelease.contains k = true then processKeyOff t k syncKeyboardDefault
          else t).emit [Effect.keyPlayed k v]).listKeysToRelease = s.listKeysToRelease ∧
      ((if t.listKeysToRelease.contains k = true then processKeyOff t k syncKeyboardDefault
          else t).emit [Effect.keyPlayed k v]).isSustainOn = s.isSustainOn := by
    intro t hq hs
    by_cases hc : k ∈ t.listKeysToRelease
    · have hcb : t.listKeysToRelease.contains k = true := by simpa using hc
      rw [if_pos hcb]
      simp only [emit]
      refine ⟨?_, ?_⟩
      · rcases processKeyOff_frame t k syncKeyboardDefault with h | ⟨_, hn, _⟩
        · rw [h, hq]
        · exact absurd hc hn
      · rw [processKeyOff_isSustainOn, hs]
    · have hcb : ¬ (t.listKeysToRelease.contains k = true) := by simpa using hc
      rw [if_neg hcb]
      exact ⟨hq, hs⟩
  unfold processKeyOn
  by_cases hkb : (s.keyboard && sync) = true
  · simp only [hkb, if_true]
    exact h1 _ rfl rfl
  · simp only [hkb]
    exact h1 _ rfl rfl

/-- When the release loop returns, the queue is empty and the flag is as it was. -/
theorem releaseSustainedKeys_ok (fuel : Nat) :
    ∀ s s2 : MidiDevice, releaseSustainedKeys fuel s = Except.ok s2 →
      s2.listKeysToRelease = [] ∧ s2.isSustainOn = s.isSustainOn := by
  induction fuel with
  | zero =>
    intro s s2 h
    cases hq : s.listKeysToRelease with
    | nil =>
      simp only [releaseSustainedKeys, hq, Except.ok.injEq] at h
      subst h
      exact ⟨hq, rfl⟩
    | cons a rest => simp [releaseSustainedKeys, hq] at h
  | succ n ih =>
    intro s s2 h
    cases hq : s.listKeysToRelease with
    | nil =>
      simp only [releaseSustainedKeys, hq, Except.ok.injEq] at h
      subst h
      exact ⟨hq, rfl⟩
    | cons a rest =>
      simp only [releaseSustainedKeys, hq] at h
      obtain ⟨h1, h2⟩ := ih _ _ h
      refine ⟨h1, ?_⟩
      rw [h2, processKeyOff_isSustainOn]

/-- The last step of `processControllerChanged`, the update of the controller area, keeps
queue and flag. -/
theorem syncArea_frame (sync ca : Bool) (t s2 : MidiDevice) (e : Effect)
    (h : (if sync = true then
        if ca = true then Except.ok (t.emit [e])
        else Except.error Fault.nullDeref
      else Except.ok t) = Except.ok s2) :
    s2.listKeysToRelease = t.listKeysToRelease ∧ s2.isSustainOn = t.isSustainOn := by
  cases sync <;> cases ca <;> simp at h <;> subst h <;> exact ⟨rfl, rfl⟩

/-- What a controller message that is handled does to the held queue and to the sustain
flag. -/
theorem processControllerChanged_frame (fuel : Nat) (s s2 : MidiDevice) (n v : Int)
    (sync : Bool) (h : processControllerChanged fuel s n v sync = Except.ok s2) :
    (n = 64 ∧ v < 64 ∧ s2.listKeysToRelease = [] ∧ s2.isSustainOn = false) ∨
    (n = 64 ∧ 64 ≤ v ∧ s2.listKeysToRelease = s.listKeysToRelease ∧ s2.isSustainOn = true) ∨
    (n ≠ 64 ∧ s2.listKeysToRelease = s.listKeysToRelease ∧ s2.isSustainOn = s.isSustainOn) := by
  unfold processControllerChanged at h
  by_cases h64 : n = 64
  · subst h64
    by_cases hv : 64 ≤ v
    · right; left
      simp only [hv, if_true, decide_True, Bool.not_true, bind, Except.bind,
        Bool.false_eq_true, if_false] at h
      obtain ⟨a, b⟩ := syncArea_frame _ _ _ _ _ h
      exact ⟨rfl, hv, a, b⟩
    · left
      simp only [hv, if_true, decide_False, Bool.not_false, bind, Except.bind] at h
      split at h
      · simp at h
      · rename_i t hr
        obtain ⟨a, b⟩ := releaseSustainedKeys_ok _ _ _ hr
        obtain ⟨c, d⟩ := syncArea_frame _ _ _ _ _ h
        exact ⟨rfl, by omega, by rw [c, a], by rw [d, b]⟩
  · right; right
    refine ⟨h64, ?_⟩
    by_cases h7 : n = 7
    · subst h7
      simp only [show ¬ ((7 : Int) = 64) by decide, if_true, if_false, bind,
        Except.bind] at h
      have hfr := syncArea_frame _ _ _ _ _ h
      exact hfr
    · by_cases hn : n = 101 ∨ n = 100 ∨ n = 6 ∨ n = 38
      · have hpush : ∀ (l : List (Int × Int)) (m : Int × Int),
            (if (l ++ [m]).length > 4 then (l ++ [m]).tail else l ++ [m]) = rpnPush l m :=
          fun _ _ => rfl
        simp only [h64, h7, hn, if_true, if_false, bind, Except.bind, hpush] at h
        generalize rpnPush s.rpnHistory (n, v) = h2 at h
        rcases h2 with _ | ⟨r0, _ | ⟨r1, _ | ⟨r2, _ | ⟨r3, _ | ⟨r4, t⟩⟩⟩⟩⟩
        all_goals first
          | (cases sync <;> cases hca : s.controllerArea <;>
              by_cases h38 : n = 38 <;>
              by_cases hp : (r0.1 = 101 ∧ r0.2 = 0 ∧ r1.1 = 100 ∧ r1.2 = 0 ∧ r2.1 = 6
                ∧ r3.1 = 38) <;>
              simp [hp, h38, hca, processBendSensitivityChanged, emit] at h <;>
              subst h <;> exact ⟨rfl, rfl⟩)
          | (cases sync <;> cases hca : s.controllerArea <;>
              by_cases h38 : n = 38 <;>
              simp [h38, hca, processBendSensitivityChanged, emit] at h <;>
              subst h <;> exact ⟨rfl, rfl⟩)
      · simp only [h64, h7, hn, if_false, bind, Except.bind] at h
        have hfr := syncArea_frame _ _ _ _ _ h
        exact hfr

/-- In every reachable state the held queue has no key twice, does not hold -1, and is
empty when the pedal is up. -/
theorem reachable_invariant (s : MidiDevice) (h : Reachable s) :
    s.listKeysToRelease.Nodup ∧ (∀ k ∈ s.listKeysToRelease, k ≠ -1) ∧
    (s.isSustainOn = false → s.listKeysToRelease = []) := by
  induction h with
  | init kb ca => exact ⟨List.nodup_nil, fun _ hk => absurd hk (List.not_mem_nil _), fun _ => rfl⟩
  | keyOn k v sync _ ih =>
    obtain ⟨hq, hs⟩ := processKeyOn_frame _ k v sync
    rw [hq, hs]
    exact ih
  | keyOff k sync _ ih =>
    obtain ⟨i1, i2, i3⟩ := ih
    rw [processKeyOff_isSustainOn]
    rcases processKeyOff_frame _ k sync with hq | ⟨hq, hn, hk, hs⟩
    · rw [hq]; exact ⟨i1, i2, i3⟩
    · rw [hq]
      refine ⟨?_, ?_, ?_⟩
      · rw [List.nodup_append]
        refine ⟨i1, List.nodup_singleton k, ?_⟩
        intro a ha hb
        rw [List.mem_singleton] at hb
        subst hb
        exact hn ha
      · intro j hj
        rcases List.mem_append.mp hj with hj | hj
        · exact i2 j hj
        · rw [List.mem_singleton] at hj
          rw [hj]; exact hk
      · intro hoff
        rw [hs] at hoff
        exact Bool.noConfusion hoff
  | controller fuel n v sync _ hstep ih =>
    obtain ⟨i1, i2, i3⟩ := ih
    rcases processControllerChanged_frame _ _ _ _ _ _ hstep with
      ⟨_, _, hq, _⟩ | ⟨_, _, hq, hs⟩ | ⟨_, hq, hs⟩
    · rw [hq]
      exact ⟨List.nodup_nil, fun _ hk => absurd hk (List.not_mem_nil _), fun _ => rfl⟩
    · rw [hq, hs]
      exact ⟨i1, i2, fun hoff => Bool.noConfusion hoff⟩
    · rw [hq, hs]
      exact ⟨i1, i2, i3⟩

end MidiDevice

/-- C17. Note-off under sustain: in a state with the sustain flag on, `processKeyOff(k)`
for a key `k ≠ -1` emits no `keyPlayed` and appends `k` to the held queue exactly when `k`
is not in it yet. Hence, in every state reached from the initial state by calls of
`processKeyOn`, `processKeyOff` and `processControllerChanged`, the held queue holds each
key at most once. -/
theorem noteOff_under_sustain_enqueues_once :
    (∀ (s : MidiDevice) (k : Int) (sync : Bool), s.isSustainOn = true → k ≠ -1 →
      keyPlayedEvents (processKeyOff s k sync).out = keyPlayedEvents s.out ∧
      (processKeyOff s k sync).listKeysToRelease
        = if k ∈ s.listKeysToRelease then s.listKeysToRelease
          else s.listKeysToRelease ++ [k]) ∧
    (∀ s : MidiDevice, MidiDevice.Reachable s → s.listKeysToRelease.Nodup) := by
  constructor
  · intro s k sync hs hk
    obtain ⟨h1, _, _, h4⟩ := processKeyOff_sustainOn s k sync hk hs
    exact ⟨h4, h1⟩
  · intro s hr
    exact (reachable_invariant s hr).1

/-- Witness of `noteOff_under_sustain_enqueues_once`: with the pedal down and key 60
held, a second note-off of 60 leaves the queue at `[60]` and emits nothing. -/
theorem noteOff_under_sustain_enqueues_once_witness :
    keyPlayedEvents (processKeyOff
        { MidiDevice.init with isSustainOn := true, listKeysToRelease := [60] } 60 true).out
      = [] ∧
    (processKeyOff
        { MidiDevice.init with isSustainOn := true, listKeysToRelease := [60] } 60
        true).listKeysToRelease = [60] ∧
    (processKeyOff (processKeyOn MidiDevice.init 60 100 true) 60 true).listKeysToRelease.Nodup :=
  ⟨(noteOff_under_sustain_enqueues_once.1
      { MidiDevice.init with isSustainOn := true, listKeysToRelease := [60] } 60 true rfl
      (by decide)).1,
    (noteOff_under_sustain_enqueues_once.1
      { MidiDevice.init with isSustainOn := true, listKeysToRelease := [60] } 60 true rfl
      (by decide)).2,
    noteOff_under_sustain_enqueues_once.2 _
      (MidiDevice.Reachable.keyOff 60 true
        (MidiDevice.Reachable.keyOn 60 100 true (MidiDevice.Reachable.init false false)))⟩

/-- C18. Sustain pedal threshold and flush order: `processControllerChanged(64, v)`, the
controller area being set when it is to be updated, sets the sustain flag to `v ≥ 64`.
For `v ≥ 64` it returns, emits no `keyPlayed` and leaves the held queue as it is. For
`v < 64`, with a held queue `[k1, ..., kn]` of real keys (as in every reachable state), it
returns, emits `keyPlayed(k1,0)`, ..., `keyPlayed(kn,0)` in that order and nothing else
through `keyPlayed`, and leaves the queue empty. -/
theorem sustain_pedal_threshold_and_flush (fuel : Nat) (s : MidiDevice) (v : Int)
    (sync : Bool) (hA : sync = true → s.controllerArea = true) :
    (64 ≤ v →
      ∃ s2, processControllerChanged fuel s 64 v sync = Except.ok s2 ∧
        s2.isSustainOn = true ∧
        keyPlayedEvents s2.out = keyPlayedEvents s.out ∧
        s2.listKeysToRelease = s.listKeysToRelease) ∧
    (v < 64 → s.listKeysToRelease.length ≤ fuel → (∀ k ∈ s.listKeysToRelease, k ≠ -1) →
      ∃ s2, processControllerChanged fuel s 64 v sync = Except.ok s2 ∧
        s2.isSustainOn = false ∧
        keyPlayedEvents s2.out
          = keyPlayedEvents s.out ++ s.listKeysToRelease.map (fun k => (k, 0)) ∧
        s2.listKeysToRelease = []) := by
  constructor
  · intro hv
    obtain ⟨s2, h1, h2, h3, _, _, h6⟩ := processControllerChanged_sustainDown fuel s v sync hv hA
    exact ⟨s2, h1, h2, h6, h3⟩
  · intro hv hf hm
    obtain ⟨s2, h1, h2, h3, _, _, h6⟩ :=
      processControllerChanged_sustainUp fuel s v sync hv hf hm hA
    exact ⟨s2, h1, h2, h6, h3⟩

/-- Witness of `sustain_pedal_threshold_and_flush`: with keys 60 and 64 held, in that
order, the value 63 releases 60 and then 64. -/
theorem sustain_pedal_threshold_and_flush_witness :
    ∃ s2, processControllerChanged 2
        { MidiDevice.init with isSustainOn := true, listKeysToRelease := [60, 64] } 64 63 false
        = Except.ok s2 ∧
      s2.isSustainOn = false ∧
      keyPlayedEvents s2.out = [] ++ [(60, 0), (64, 0)] ∧
      s2.listKeysToRelease = [] :=
  (sustain_pedal_threshold_and_flush 2
    { MidiDevice.init with isSustainOn := true, listKeysToRelease := [60, 64] } 63 false
    (by simp)).2 (by decide) (by decide) (by decide)

/-- C19. All-stop sentinel: in every state, sustain flag on or off, `processKeyOff(-1)`
appends to what the device has emitted the two keyboard calls (when there is a keyboard to
synchronise) and then `_synth->play(EltID(), -1, 0)`; it emits no `keyPlayed` and leaves the
held queue as it is, so -1 is not added to it. -/
theorem all_stop_sentinel (s : MidiDevice) (sync : Bool) :
    (processKeyOff s (-1) sync).out
      = s.out ++ (if (s.keyboard && sync) = true then
          [Effect.inputNoteOff (-1), Effect.removeCurrentRange (-1)] else [])
        ++ [Effect.synthPlay (-1) 0] ∧
    keyPlayedEvents (processKeyOff s (-1) sync).out = keyPlayedEvents s.out ∧
    (processKeyOff s (-1) sync).listKeysToRelease = s.listKeysToRelease ∧
    (processKeyOff s (-1) sync).isSustainOn = s.isSustainOn := by
  unfold processKeyOff
  by_cases hkb : (s.keyboard && sync) = true <;>
    simp [hkb, emit, keyPlayedEvents]

/-- C20. Velocity-0 note-on equals note-off: for a channel `c < 16`, a note `n` and a
velocity `v`, `midiCallback` decodes the messages `[0x90|c, n, 0]` and `[0x80|c, n, v]` into
the same event, the note event `(n, 0)`; `customEvent` handles a note event of velocity 0
by `processKeyOff(n, true)` and one of velocity `vel > 0` by `processKeyOn(n, vel, true)`. -/
theorem velocity_zero_is_note_off (c n v : Nat) (hc : c < 16) (fuel : Nat) (s : MidiDevice) :
    midiCallback [0x90 ||| c, n, 0] = Except.ok (some (MidiEvent.note n 0)) ∧
    midiCallback [0x80 ||| c, n, v] = Except.ok (some (MidiEvent.note n 0)) ∧
    MidiDevice.customEvent fuel s (MidiEvent.note n 0) = Except.ok (processKeyOff s n true) ∧
    (∀ vel : Nat, 0 < vel →
      MidiDevice.customEvent fuel s (MidiEvent.note n vel)
        = Except.ok (processKeyOn s n vel true)) := by
  have h90 : (0x90 ||| c) &&& 0xF0 = 0x90 := by interval_cases c <;> rfl
  have h80 : (0x80 ||| c) &&& 0xF0 = 0x80 := by interval_cases c <;> rfl
  refine ⟨?_, ?_, ?_, ?_⟩
  · simp [midiCallback, byteAt, bind, Except.bind, h90]
  · simp [midiCallback, byteAt, bind, Except.bind, h80]
  · simp [MidiDevice.customEvent]
  · intro vel hvel
    simp [MidiDevice.customEvent, hvel]

/-- Witness of `velocity_zero_is_note_off`: channel 3, note 60, release velocity 77. -/
theorem velocity_zero_is_note_off_witness :
    midiCallback [0x90 ||| 3, 60, 0] = Except.ok (some (MidiEvent.note 60 0)) ∧
    midiCallback [0x80 ||| 3, 60, 77] = Except.ok (some (MidiEvent.note 60 0)) ∧
    MidiDevice.customEvent 0 MidiDevice.init (MidiEvent.note 60 100)
      = Except.ok (processKeyOn MidiDevice.init ((60 : Nat) : Int) ((100 : Nat) : Int) true) :=
  ⟨(velocity_zero_is_note_off 3 60 77 (by decide) 0 MidiDevice.init).1,
    (velocity_zero_is_note_off 3 60 77 (by decide) 0 MidiDevice.init).2.1,
    (velocity_zero_is_note_off 3 60 77 (by decide) 0 MidiDevice.init).2.2.2 100 (by decide)⟩

/-! ## The controller store and the RPN history -/

namespace MidiDevice

theorem sameControllerState_refl (s : MidiDevice) : SameControllerState s s :=
  ⟨rfl, rfl, rfl, rfl, rfl, rfl⟩

theorem sameControllerState_trans {s t u : MidiDevice} (h1 : SameControllerState s t)
    (h2 : SameControllerState t u) : SameControllerState s u := by
  unfold SameControllerState at h1 h2 ⊢
  obtain ⟨store1, kb1, area1, hist1, bend1, out1⟩ := h1
  rw [h2.1, h2.2.1, h2.2.2.1, h2.2.2.2.1, h2.2.2.2.2.1, h2.2.2.2.2.2]
  exact ⟨store1, kb1, area1, hist1, bend1, out1⟩

/-- A note-off touches nothing of the controller state. -/
theorem processKeyOff_same (s : MidiDevice) (k : Int) (sync : Bool) :
    SameControllerState s (processKeyOff s k sync) := by
  unfold processKeyOff SameControllerState
  by_cases hkb : (s.keyboard && sync) = true <;> by_cases hk : k = -1 <;>
    by_cases hs : s.isSustainOn = true <;> by_cases hc : k ∈ s.listKeysToRelease <;>
    simp [hkb, hk, hs, hc, emit]

/-- A note-on touches nothing of the controller state. -/
theorem processKeyOn_same (s : MidiDevice) (k v : Int) (sync : Bool) :
    SameControllerState s (processKeyOn s k v sync) := by
  have h1 : ∀ t : MidiDevice, SameControllerState s t →
      SameControllerState s
        ((if t.listKeysToRelease.contains k = true then processKeyOff t k syncKeyboardDefault
          else t).emit [Effect.keyPlayed k v]) := by
    intro t ht
    have h2 : ∀ u : MidiDevice, SameControllerState s u →
        SameControllerState s (u.emit [Effect.keyPlayed k v]) := by
      intro u hu
      obtain ⟨a1, a2, a3, a4, a5, a6⟩ := hu
      refine ⟨a1, a2, a3, a4, a5, ?_⟩
      rw [← a6]
      simp [emit]
    by_cases hc : t.listKeysToRelease.contains k = true
    · rw [if_pos hc]
      exact h2 _ (sameControllerState_trans ht (processKeyOff_same t k _))
    · rw [if_neg hc]
      exact h2 _ ht
  unfold processKeyOn
  by_cases hkb : (s.keyboard && sync) = true
  · simp only [hkb, if_true]
    apply h1
    refine ⟨rfl, rfl, rfl, rfl, rfl, ?_⟩
    simp [emit]
  · simp only [hkb]
    exact h1 _ (sameControllerState_refl s)

/-- The release loop touches nothing of the controller state. -/
theorem releaseSustainedKeys_same (fuel : Nat) :
    ∀ s s2 : MidiDevice, releaseSustainedKeys fuel s = Except.ok s2 →
      SameControllerState s s2 := by
  induction fuel with
  | zero =>
    intro s s2 h
    cases hq : s.listKeysToRelease with
    | nil =>
      simp only [releaseSustainedKeys, hq, Except.ok.injEq] at h
      subst h
      exact sameControllerState_refl s
    | cons a rest => simp [releaseSustainedKeys, hq] at h
  | succ n ih =>
    intro s s2 h
    cases hq : s.listKeysToRelease with
    | nil =>
      simp only [releaseSustainedKeys, hq, Except.ok.injEq] at h
      subst h
      exact sameControllerState_refl s
    | cons a rest =>
      simp only [releaseSustainedKeys, hq] at h
      have h1 := ih _ _ h
      have h2 := processKeyOff_same { s with listKeysToRelease := rest } a true
      have h3 : SameControllerState s { s with listKeysToRelease := rest } :=
        ⟨rfl, rfl, rfl, rfl, rfl, rfl⟩
      exact sameControllerState_trans h3 (sameControllerState_trans h2 h1)

/-- With the pedal up, the release loop returns as soon as the fuel covers the queue. -/
theorem releaseSustainedKeys_returns (fuel : Nat) :
    ∀ s : MidiDevice, s.isSustainOn = false → s.listKeysToRelease.length ≤ fuel →
      ∃ s2, releaseSustainedKeys fuel s = Except.ok s2 := by
  induction fuel with
  | zero =>
    intro s _ hf
    have hq : s.listKeysToRelease = [] := List.length_eq_zero.mp (Nat.le_zero.mp hf)
    exact ⟨s, by simp only [releaseSustainedKeys, hq]⟩
  | succ n ih =>
    intro s hs hf
    cases hq : s.listKeysToRelease with
    | nil => exact ⟨s, by simp only [releaseSustainedKeys, hq]⟩
    | cons a rest =>
      simp only [releaseSustainedKeys, hq]
      apply ih
      · rw [processKeyOff_isSustainOn]; exact hs
      · rcases processKeyOff_frame { s with listKeysToRelease := rest } a true with
          h | ⟨_, _, _, hon⟩
        · rw [h]; rw [hq] at hf; simpa using hf
        · rw [show ({ s with listKeysToRelease := rest } : MidiDevice).isSustainOn
            = s.isSustainOn from rfl, hs] at hon
          exact Bool.noConfusion hon

/-- The last step of `processControllerChanged` returns the state or the state with one
more effect. -/
theorem syncArea_cases (sync ca : Bool) (t s2 : MidiDevice) (e : Effect)
    (h : (if sync = true then
        if ca = true then Except.ok (t.emit [e])
        else Except.error Fault.nullDeref
      else Except.ok t) = Except.ok s2) :
    s2 = t ∨ s2 = t.emit [e] := by
  cases sync <;> cases ca <;> simp at h <;> subst h <;> simp

/-- The update of the controller area touches nothing of the controller state. -/
theorem syncArea_same (sync ca : Bool) (t s2 : MidiDevice) (a b : Int)
    (h : (if sync = true then
        if ca = true then Except.ok (t.emit [Effect.updateController a b])
        else Except.error Fault.nullDeref
      else Except.ok t) = Except.ok s2) :
    SameControllerState t s2 := by
  rcases syncArea_cases _ _ _ _ _ h with rfl | rfl
  · exact sameControllerState_refl _
  · refine ⟨rfl, rfl, rfl, rfl, rfl, ?_⟩
    simp [emit]

/-- What a controller message that is handled does to the controller store, to the RPN
history and to the bend sensitivity. -/
theorem processControllerChanged_fields (fuel : Nat) (s s2 : MidiDevice) (n v : Int)
    (sync : Bool) (h : processControllerChanged fuel s n v sync = Except.ok s2) :
    s2.controllerValues = (fun m => if m = n then some v else s.controllerValues m) ∧
    s2.rpnHistory
      = (if isRpnController n then rpnPush s.rpnHistory (n, v) else s.rpnHistory) ∧
    bendSensitivityEvents s2.out
      = bendSensitivityEvents s.out ++
        (if isRpnController n then (rpnPublished (rpnPush s.rpnHistory (n, v)) n).toList
          else []) ∧
    s2.bendSensitivityValue
      = (if isRpnController n then
          (rpnPublished (rpnPush s.rpnHistory (n, v)) n).getD s.bendSensitivityValue
        else s.bendSensitivityValue) := by
  have hfrom : ∀ t : MidiDevice, SameControllerState t s2 →
      t.controllerValues = (fun m => if m = n then some v else s.controllerValues m) →
      t.rpnHistory = s.rpnHistory → t.bendSensitivityValue = s.bendSensitivityValue →
      bendSensitivityEvents t.out = bendSensitivityEvents s.out → ¬ isRpnController n →
      s2.controllerValues = (fun m => if m = n then some v else s.controllerValues m) ∧
      s2.rpnHistory
        = (if isRpnController n then rpnPush s.rpnHistory (n, v) else s.rpnHistory) ∧
      bendSensitivityEvents s2.out
        = bendSensitivityEvents s.out ++
          (if isRpnController n then (rpnPublished (rpnPush s.rpnHistory (n, v)) n).toList
            else []) ∧
      s2.bendSensitivityValue
        = (if isRpnController n then
            (rpnPublished (rpnPush s.rpnHistory (n, v)) n).getD s.bendSensitivityValue
          else s.bendSensitivityValue) := by
    intro t hsame h1 h2 h3 h4 hn
    obtain ⟨a1, _, _, a4, a5, a6⟩ := hsame
    simp only [hn, if_false, List.append_nil]
    refine ⟨a1.trans h1, a4.trans h2, ?_, a5.trans h3⟩
    exact (a6.trans h4 : bendSensitivityEvents s2.out = bendSensitivityEvents s.out)
  unfold processControllerChanged at h
  by_cases h64 : n = 64
  · subst h64
    have hn : ¬ isRpnController 64 := by unfold isRpnController; decide
    by_cases hv : 64 ≤ v
    · simp only [hv, if_true, decide_True, Bool.not_true, bind, Except.bind,
        Bool.false_eq_true, if_false] at h
      exact hfrom _ (syncArea_same _ _ _ _ _ _ h) rfl rfl rfl rfl hn
    · simp only [hv, if_true, decide_False, Bool.not_false, bind, Except.bind] at h
      split at h
      · simp at h
      · rename_i t hr
        have hs1 := releaseSustainedKeys_same _ _ _ hr
        obtain ⟨b1, _, _, b4, b5, b6⟩ := hs1
        exact hfrom t (syncArea_same _ _ _ _ _ _ h) b1 b4 b5 b6 hn
  · by_cases h7 : n = 7
    · subst h7
      have hn : ¬ isRpnController 7 := by unfold isRpnController; decide
      simp only [show ¬ ((7 : Int) = 64) by decide, if_true, if_false, bind,
        Except.bind] at h
      refine hfrom _ (syncArea_same _ _ _ _ _ _ h) rfl rfl rfl ?_ hn
      simp [emit, bendSensitivityEvents]
    · by_cases hn : n = 101 ∨ n = 100 ∨ n = 6 ∨ n = 38
      · have hpush : ∀ (l : List (Int × Int)) (m : Int × Int),
            (if (l ++ [m]).length > 4 then (l ++ [m]).tail else l ++ [m]) = rpnPush l m :=
          fun _ _ => rfl
        have hrpn : isRpnController n := hn
        simp only [hrpn, if_true]
        simp only [h64, h7, hn, if_true, if_false, bind, Except.bind, hpush] at h
        generalize rpnPush s.rpnHistory (n, v) = h2 at h ⊢
        rcases h2 with _ | ⟨r0, _ | ⟨r1, _ | ⟨r2, _ | ⟨r3, _ | ⟨r4, t⟩⟩⟩⟩⟩
        all_goals first
          | (cases sync <;> cases hca : s.controllerArea <;>
              by_cases h38 : n = 38 <;>
              by_cases hp : (r0.1 = 101 ∧ r0.2 = 0 ∧ r1.1 = 100 ∧ r1.2 = 0 ∧ r2.1 = 6
                ∧ r3.1 = 38) <;>
              simp [hp, h38, hca, processBendSensitivityChanged, emit] at h <;>
              subst h <;>
              simp [hp, h38, rpnPublished, rpnBendSensitivity, bendSensitivityEvents])
          | (cases sync <;> cases hca : s.controllerArea <;>
              by_cases h38 : n = 38 <;>
              simp [h38, hca, processBendSensitivityChanged, emit] at h <;>
              subst h <;>
              simp [h38, rpnPublished, rpnBendSensitivity, bendSensitivityEvents])
      · have hrpn : ¬ isRpnController n := hn
        simp only [h64, h7, hn, if_false, bind, Except.bind] at h
        exact hfrom _ (syncArea_same _ _ _ _ _ _ h) rfl rfl rfl rfl hrpn

/-- A controller message is handled, and keeps the controller area, as soon as the
controller area exists when it is to be updated and the fuel covers the held queue. -/
theorem processControllerChanged_returns (fuel : Nat) (s : MidiDevice) (n v : Int)
    (sync : Bool) (hA : sync = true → s.controllerArea = true)
    (hf : s.listKeysToRelease.length ≤ fuel) :
    ∃ s2, processControllerChanged fuel s n v sync = Except.ok s2 ∧
      s2.controllerArea = s.controllerArea := by
  by_cases h64 : n = 64
  · subst h64
    by_cases hv : 64 ≤ v
    · obtain ⟨s2, a, _, _, _, b, _⟩ := processControllerChanged_sustainDown fuel s v sync hv hA
      exact ⟨s2, a, b⟩
    · obtain ⟨t, ht⟩ := releaseSustainedKeys_returns fuel
        { s with
          controllerValues := fun n => if n = 64 then some v else s.controllerValues n
          isSustainOn := false } rfl hf
      obtain ⟨_, _, b3, _⟩ := releaseSustainedKeys_same _ _ _ ht
      unfold processControllerChanged
      cases sync with
      | false => exact ⟨t, by simp [hv, bind, Except.bind, ht], b3⟩
      | true =>
        have h5 : t.controllerArea = true := by rw [b3]; exact hA rfl
        exact ⟨t.emit [Effect.updateController 64 v],
          by simp [hv, bind, Except.bind, ht, h5], b3⟩
  · by_cases h7 : n = 7
    · subst h7
      unfold processControllerChanged
      cases sync with
      | false => simp [bind, Except.bind, emit]
      | true =>
        have := hA rfl
        simp [bind, Except.bind, emit, this]
    · by_cases hn : n = 101 ∨ n = 100 ∨ n = 6 ∨ n = 38
      · obtain ⟨s2, a, _, b, _⟩ := processControllerChanged_rpn fuel s n v sync hn hA
        exact ⟨s2, a, b⟩
      · unfold processControllerChanged
        cases sync with
        | false => simp [h64, h7, hn, bind, Except.bind]
        | true =>
          have := hA rfl
          simp [h64, h7, hn, bind, Except.bind, emit, this]

/-- A controller message never lengthens the held queue. -/
theorem processControllerChanged_queue_le (fuel : Nat) (s s2 : MidiDevice) (n v : Int)
    (sync : Bool) (h : processControllerChanged fuel s n v sync = Except.ok s2) :
    s2.listKeysToRelease.length ≤ s.listKeysToRelease.length := by
  rcases processControllerChanged_frame _ _ _ _ _ _ h with
    ⟨_, _, hq, _⟩ | ⟨_, _, hq, _⟩ | ⟨_, hq, _⟩ <;> simp [hq]

/-- A sequence of controller messages is handled to its end. -/
theorem feedControllers_returns (fuel : Nat) (sync : Bool) (msgs : List (Int × Int)) :
    ∀ s : MidiDevice, (sync = true → s.controllerArea = true) →
      s.listKeysToRelease.length ≤ fuel →
      ∃ s2, feedControllers fuel sync s msgs = Except.ok s2 ∧
        s2.controllerArea = s.controllerArea ∧
        s2.listKeysToRelease.length ≤ fuel := by
  induction msgs with
  | nil => intro s _ hf; exact ⟨s, rfl, rfl, hf⟩
  | cons m ms ih =>
    intro s hA hf
    obtain ⟨s1, a1, a2⟩ := processControllerChanged_returns fuel s m.1 m.2 sync hA hf
    have hq := processControllerChanged_queue_le _ _ _ _ _ _ a1
    obtain ⟨s2, b1, b2, b3⟩ := ih s1 (by rw [a2]; exact hA) (by omega)
    exact ⟨s2, by simp [feedControllers, bind, Except.bind, a1, b1], by rw [b2, a2], b3⟩

/-- A sequence of controller messages leaves alone the stored value of every controller
that is not among them, and pushes the recorded messages on the RPN history. -/
theorem feedControllers_fields (fuel : Nat) (sync : Bool) (msgs : List (Int × Int)) :
    ∀ s s2 : MidiDevice, feedControllers fuel sync s msgs = Except.ok s2 →
      (∀ m, (∀ p ∈ msgs, p.1 ≠ m) → s2.controllerValues m = s.controllerValues m) ∧
      s2.rpnHistory = (recordedRpn msgs).foldl rpnPush s.rpnHistory := by
  induction msgs with
  | nil =>
    intro s s2 h
    simp only [feedControllers, Except.ok.injEq] at h
    subst h
    exact ⟨fun _ _ => rfl, rfl⟩
  | cons p ms ih =>
    intro s s2 h
    simp only [feedControllers, bind, Except.bind] at h
    split at h
    · simp at h
    · rename_i s1 h1
      obtain ⟨c1, c2, _, _⟩ := processControllerChanged_fields _ _ _ _ _ _ h1
      obtain ⟨d1, d2⟩ := ih s1 s2 h
      refine ⟨?_, ?_⟩
      · intro m hm
        rw [d1 m (fun q hq => hm q (List.mem_cons_of_mem _ hq)), c1]
        have : m ≠ p.1 := fun e => hm p (List.mem_cons_self _ _) e.symm
        simp [this]
      · rw [d2, c2]
        by_cases hp : isRpnController p.1
        · simp [recordedRpn, hp]
        · simp [recordedRpn, hp]

end MidiDevice

/-- Pushing a message on the last four of a list gives the last four of the longer list. -/
theorem rpnPush_lastFour (r : List (Int × Int)) (m : Int × Int) :
    rpnPush (lastFour r) m = lastFour (r ++ [m]) := by
  unfold rpnPush lastFour
  simp only [List.length_append, List.length_drop, List.length_singleton]
  by_cases hl : 4 ≤ r.length
  · rw [if_pos (by omega), ← List.drop_one, ← List.drop_append_of_le_length (by omega),
      List.drop_drop]
    congr 1
    omega
  · rw [if_neg (by omega)]
    have h1 : r.length - 4 = 0 := by omega
    have h2 : r.length + 1 - 4 = 0 := by omega
    rw [h1, h2]
    rfl

theorem foldl_rpnPush_lastFour (l : List (Int × Int)) :
    ∀ r : List (Int × Int), l.foldl rpnPush (lastFour r) = lastFour (r ++ l) := by
  induction l with
  | nil => intro r; simp
  | cons m ms ih =>
    intro r
    rw [List.foldl_cons, rpnPush_lastFour, ih]
    simp

theorem lastFour_length (l : List (Int × Int)) : (lastFour l).length ≤ 4 := by
  unfold lastFour
  rw [List.length_drop]
  omega

theorem lastFour_mem (l : List (Int × Int)) (p : Int × Int) (h : p ∈ lastFour l) : p ∈ l :=
  List.mem_of_mem_drop h

/-- A pitch is published exactly on a message of controller 38 that completes the four
messages of the bend sensitivity. -/
theorem rpnPublished_iff (h : List (Int × Int)) (n : Int) (x : ℚ) :
    rpnPublished h n = some x ↔
      n = 38 ∧ ∃ sv c : Int, h = [(101, 0), (100, 0), (6, sv), (38, c)] ∧
        x = dadd (dmul (toDouble (1 / 100)) (c : ℚ)) (sv : ℚ) := by
  unfold rpnPublished
  by_cases h38 : n = 38
  · simp only [h38, if_true, true_and]
    rcases h with _ | ⟨r0, _ | ⟨r1, _ | ⟨r2, _ | ⟨r3, _ | ⟨r4, t⟩⟩⟩⟩⟩
    all_goals first
      | (simp [rpnBendSensitivity]; done)
      | (obtain ⟨a0, b0⟩ := r0
         obtain ⟨a1, b1⟩ := r1
         obtain ⟨a2, b2⟩ := r2
         obtain ⟨a3, b3⟩ := r3
         simp only [rpnBendSensitivity]
         constructor
         · intro hx
           split at hx
           · rename_i hc
             obtain ⟨e1, e2, e3, e4, e5, e6⟩ := hc
             subst e1 e2 e3 e4 e5 e6
             refine ⟨b2, b3, rfl, ?_⟩
             simp only [Option.some.injEq] at hx
             rw [← hx]
           · simp at hx
         · rintro ⟨sv, c, he, hx⟩
           simp only [List.cons.injEq, Prod.mk.injEq, and_true] at he
           obtain ⟨⟨e1, e2⟩, ⟨e3, e4⟩, ⟨e5, e6⟩, e7, e8⟩ := he
           subst e1 e2 e3 e4 e5 e6 e7 e8
           simp [hx])
  · simp [h38]

/-- C21 as stated fails: for `v = 1` the gain written is the double
-6995318072779591 / 2 ^ 47, not `1/127 * 101 - 50.5`, which no double equals. -/
theorem volume_gain_not_exact :
    ∃ s2, MidiDevice.init.processControllerChanged 0 7 1 false = Except.ok s2 ∧
      gainEvents s2.out = [-6995318072779591 / 140737488355328] ∧
      (-6995318072779591 / 140737488355328 : ℚ) ≠ ((1 : Int) : ℚ) / 127 * 101 - 101 / 2 := by
  have hv : dsub (dmul (ddiv ((1 : Int) : ℚ) 127) 101) (101 / 2)
      = -6995318072779591 / 140737488355328 := by decide!
  refine ⟨{ MidiDevice.init with
      controllerValues := fun n => if n = 7 then some 1 else none
      out := [Effect.setGain (-6995318072779591 / 140737488355328)] }, ?_, ?_, ?_⟩
  · unfold MidiDevice.processControllerChanged
    simp only [show ¬ ((7 : Int) = 64) by decide, if_true, if_false, bind, Except.bind,
      Bool.false_eq_true, MidiDevice.emit, hv]
    rfl
  · simp [gainEvents]
  · norm_num

/-- C21, amended. Channel volume to gain: `processControllerChanged(7, v)` is handled and
writes to the gain setting of the sound engine one value, the double `g v` that
`(double)v / 127. * 101. - 50.5` evaluates to (each operation rounded to double). For `v` in
0..127, `g v` is within `2 ^ -46` of `v/127 * 101 - 50.5`; `g 0 = -50.5` and `g 127 = 50.5`
exactly, and `g` is strictly increasing over 0..127. -/
theorem volume_to_gain (fuel : Nat) (s : MidiDevice) (sync : Bool)
    (hA : sync = true → s.controllerArea = true) :
    ∃ g : Int → ℚ,
      (∀ v : Int, ∃ s2, s.processControllerChanged fuel 7 v sync = Except.ok s2 ∧
        gainEvents s2.out = gainEvents s.out ++ [g v] ∧
        s2.out = s.out ++ Effect.setGain (g v) ::
          (if sync = true then [Effect.updateController 7 v] else [])) ∧
      (∀ v : Int, g v = dsub (dmul (ddiv (v : ℚ) 127) 101) (101 / 2)) ∧
      (∀ v : Int, 0 ≤ v → v ≤ 127 →
        |g v - ((v : ℚ) / 127 * 101 - 101 / 2)| ≤ 1 / 2 ^ 46) ∧
      g 0 = -(101 / 2) ∧ g 127 = 101 / 2 ∧
      (∀ v w : Int, 0 ≤ v → v < w → w ≤ 127 → g v < g w) := by
  refine ⟨fun v => dsub (dmul (ddiv (v : ℚ) 127) 101) (101 / 2), ?_, fun _ => rfl, ?_,
    by decide!, by decide!, ?_⟩
  · intro v
    unfold MidiDevice.processControllerChanged
    cases sync with
    | false => simp [bind, Except.bind, MidiDevice.emit, gainEvents]
    | true =>
      have := hA rfl
      simp [bind, Except.bind, MidiDevice.emit, gainEvents, this]
  · intro v hv0 hv1
    obtain ⟨n, rfl⟩ := Int.eq_ofNat_of_zero_le hv0
    have hn : n < 128 := by omega
    obtain ⟨t1, t2, _⟩ := volume_gain_table n hn
    simp only [Int.cast_natCast] at t1 t2 ⊢
    rw [abs_le]
    exact ⟨t1, t2⟩
  · intro v w hv0 hvw hw1
    obtain ⟨n, rfl⟩ := Int.eq_ofNat_of_zero_le hv0
    obtain ⟨m, rfl⟩ := Int.eq_ofNat_of_zero_le (show (0 : Int) ≤ w by omega)
    exact volume_gain_increasing n m (by omega) (by omega)

/-- Witness of C21: the initial device without controller area, not asked to update it. -/
theorem volume_to_gain_witness :
    (false = true → MidiDevice.init.controllerArea = true) ∧
    ∃ g : Int → ℚ,
      (∀ v : Int, ∃ s2, MidiDevice.init.processControllerChanged 0 7 v false = Except.ok s2 ∧
        gainEvents s2.out = gainEvents MidiDevice.init.out ++ [g v] ∧
        s2.out = MidiDevice.init.out ++ Effect.setGain (g v) ::
          (if false = true then [Effect.updateController 7 v] else [])) ∧
      (∀ v : Int, g v = dsub (dmul (ddiv (v : ℚ) 127) 101) (101 / 2)) ∧
      (∀ v : Int, 0 ≤ v → v ≤ 127 →
        |g v - ((v : ℚ) / 127 * 101 - 101 / 2)| ≤ 1 / 2 ^ 46) ∧
      g 0 = -(101 / 2) ∧ g 127 = 101 / 2 ∧
      (∀ v w : Int, 0 ≤ v → v < w → w ≤ 127 → g v < g w) :=
  ⟨fun h => Bool.noConfusion h,
    volume_to_gain 0 MidiDevice.init false (fun h => Bool.noConfusion h)⟩

/-- C22. Controller store: in every state where the call is handled (the controller area
exists if it is to be updated, the fuel covers the held queue), after
`processControllerChanged(n, v)` `getControllerValue(n)` returns `v` and `getControllerValue(m)`
is unchanged for every `m ≠ n`, whatever `n` is (7, 64, 6, 38, 100 and 101 included); and after
any sequence of controller messages from the initial state, `getControllerValue(m)` returns -1
for every controller `m` that is not among the messages. -/
theorem controller_store (fuel : Nat) (sync : Bool) (s : MidiDevice) (n v : Int)
    (hA : sync = true → s.controllerArea = true) (hf : s.listKeysToRelease.length ≤ fuel)
    (kb ca : Bool) (hca : sync = true → ca = true) (msgs : List (Int × Int)) :
    (∃ s2, s.processControllerChanged fuel n v sync = Except.ok s2 ∧
      s2.getControllerValue n = v ∧
      ∀ m, m ≠ n → s2.getControllerValue m = s.getControllerValue m) ∧
    (∃ s3, MidiDevice.feedControllers fuel sync
        { MidiDevice.init with keyboard := kb, controllerArea := ca } msgs = Except.ok s3 ∧
      ∀ m, (∀ p ∈ msgs, p.1 ≠ m) → s3.getControllerValue m = -1) := by
  constructor
  · obtain ⟨s2, h, _⟩ := MidiDevice.processControllerChanged_returns fuel s n v sync hA hf
    obtain ⟨c1, _⟩ := MidiDevice.processControllerChanged_fields _ _ _ _ _ _ h
    refine ⟨s2, h, ?_, ?_⟩
    · simp [MidiDevice.getControllerValue, c1]
    · intro m hm
      simp [MidiDevice.getControllerValue, c1, hm]
  · obtain ⟨s3, h, _⟩ := MidiDevice.feedControllers_returns fuel sync msgs
      { MidiDevice.init with keyboard := kb, controllerArea := ca } hca (Nat.zero_le _)
    obtain ⟨d1, _⟩ := MidiDevice.feedControllers_fields _ _ _ _ _ h
    refine ⟨s3, h, ?_⟩
    intro m hm
    simp only [MidiDevice.getControllerValue, d1 m hm]
    rfl

/-- Witness of C22: the sustain pedal goes up on the initial device, after the four messages
of the bend sensitivity. -/
theorem controller_store_witness :
    (false = true → MidiDevice.init.controllerArea = true) ∧
    MidiDevice.init.listKeysToRelease.length ≤ 0 ∧ (false = true → false = true) ∧
    (∃ s2, MidiDevice.init.processControllerChanged 0 64 0 false = Except.ok s2 ∧
      s2.getControllerValue 64 = 0 ∧
      ∀ m, m ≠ 64 → s2.getControllerValue m = MidiDevice.init.getControllerValue m) ∧
    (∃ s3, MidiDevice.feedControllers 0 false
        { MidiDevice.init with keyboard := false, controllerArea := false } rpnBendMessages
          = Except.ok s3 ∧
      ∀ m, (∀ p ∈ rpnBendMessages, p.1 ≠ m) → s3.getControllerValue m = -1) :=
  ⟨fun h => Bool.noConfusion h, Nat.le_refl 0, id,
    controller_store 0 false MidiDevice.init 64 0 (fun h => Bool.noConfusion h) (Nat.le_refl 0)
      false false id rpnBendMessages⟩

/-- The recorded messages of a sequence with one more message. -/
theorem recordedRpn_append (msgs : List (Int × Int)) (n v : Int) :
    recordedRpn (msgs ++ [(n, v)])
      = recordedRpn msgs ++ (if isRpnController n then [(n, v)] else []) := by
  unfold recordedRpn
  rw [List.filter_append]
  by_cases hn : isRpnController n <;> simp [hn]

/-- C25 as stated fails in its value clause: after `(101,0)`, `(100,0)`, `(6,2)`, the message
`(38,7)` publishes the double `0.01 * 7 + 2`, which is 4661225614328463 / 2 ^ 51, not
`2 + 0.01 * 7 = 207 / 100`. -/
theorem rpn_published_value_not_exact :
    ∃ s1 s2,
      MidiDevice.feedControllers 0 false MidiDevice.init [(101, 0), (100, 0), (6, 2)]
        = Except.ok s1 ∧
      s1.processControllerChanged 0 38 7 false = Except.ok s2 ∧
      bendSensitivityEvents s2.out
        = bendSensitivityEvents s1.out ++ [4661225614328463 / 2251799813685248] ∧
      (4661225614328463 / 2251799813685248 : ℚ)
        ≠ ((2 : Int) : ℚ) + (1 / 100 : ℚ) * ((7 : Int) : ℚ) := by
  obtain ⟨s1, f1, f2, f3⟩ := MidiDevice.feedControllers_returns 0 false
    [(101, 0), (100, 0), (6, 2)] MidiDevice.init (by simp) (Nat.zero_le _)
  obtain ⟨s2, g1, _⟩ := MidiDevice.processControllerChanged_returns 0 s1 38 7 false
    (by simp) f3
  obtain ⟨_, d2⟩ := MidiDevice.feedControllers_fields _ _ _ _ _ f1
  obtain ⟨_, _, c3, _⟩ := MidiDevice.processControllerChanged_fields _ _ _ _ _ _ g1
  have hv : dadd (dmul (toDouble (1 / 100)) ((7 : Int) : ℚ)) ((2 : Int) : ℚ)
      = 4661225614328463 / 2251799813685248 := by decide!
  have hhist : s1.rpnHistory = [(101, 0), (100, 0), (6, 2)] := by
    rw [d2]
    decide
  have hpub : rpnPublished (rpnPush s1.rpnHistory (38, 7)) 38
      = some (4661225614328463 / 2251799813685248) := by
    have hpush : rpnPush [(101, 0), (100, 0), (6, 2)] (38, 7)
        = [(101, 0), (100, 0), (6, 2), (38, 7)] := by decide
    have hb : rpnBendSensitivity [(101, 0), (100, 0), (6, 2), (38, 7)]
        = some (dadd (dmul (toDouble (1 / 100)) ((7 : Int) : ℚ)) ((2 : Int) : ℚ)) := by
      unfold rpnBendSensitivity
      exact if_pos (by decide)
    rw [hhist, hpush]
    unfold rpnPublished
    rw [if_pos rfl, hb, hv]
  refine ⟨s1, s2, f1, g1, ?_, by norm_num⟩
  rw [c3, if_pos (by unfold isRpnController; decide), hpub]
  rfl

/-- C25, amended. Rolling RPN history: a sequence `msgs` of `processControllerChanged` calls
from the initial state, followed by one more call `(n, v)`, is handled; the RPN history is then
the last four (at most) of the messages of controllers 101, 100, 6 and 38 received so far, so
it has at most 4 entries, all of these controllers; and the last call publishes a bend
sensitivity `x` exactly when `n = 38` and the last four recorded messages are `(101,0),
(100,0), (6,sv), (38,c)`, `x` being the double value of `0.01 * c + sv` (the product rounded to
double, then the sum), within `(|sv| + |c| + 1) / 2 ^ 52` of `sv + 0.01 * c`; `x` is then the
stored bend sensitivity; otherwise the call publishes nothing. -/
theorem rpn_rolling_history (fuel : Nat) (sync kb ca : Bool) (hA : sync = true → ca = true)
    (msgs : List (Int × Int)) (n v : Int) :
    ∃ s1 s2,
      MidiDevice.feedControllers fuel sync
        { MidiDevice.init with keyboard := kb, controllerArea := ca } msgs = Except.ok s1 ∧
      s1.processControllerChanged fuel n v sync = Except.ok s2 ∧
      s1.rpnHistory = lastFour (recordedRpn msgs) ∧
      s2.rpnHistory = lastFour (recordedRpn (msgs ++ [(n, v)])) ∧
      s2.rpnHistory.length ≤ 4 ∧ (∀ p ∈ s2.rpnHistory, isRpnController p.1) ∧
      (∀ x : ℚ, bendSensitivityEvents s2.out = bendSensitivityEvents s1.out ++ [x] ↔
        n = 38 ∧ ∃ sv c : Int,
          lastFour (recordedRpn (msgs ++ [(n, v)])) = [(101, 0), (100, 0), (6, sv), (38, c)] ∧
          x = dadd (dmul (toDouble (1 / 100)) (c : ℚ)) (sv : ℚ)) ∧
      (∀ x : ℚ, bendSensitivityEvents s2.out = bendSensitivityEvents s1.out ++ [x] →
        ∃ sv c : Int,
          lastFour (recordedRpn (msgs ++ [(n, v)])) = [(101, 0), (100, 0), (6, sv), (38, c)] ∧
          |x - ((sv : ℚ) + (1 / 100 : ℚ) * (c : ℚ))| ≤ (|(sv : ℚ)| + |(c : ℚ)| + 1) / 2 ^ 52) ∧
      (∀ x : ℚ, bendSensitivityEvents s2.out = bendSensitivityEvents s1.out ++ [x] →
        s2.getBendSensitivityValue = x) ∧
      (bendSensitivityEvents s2.out = bendSensitivityEvents s1.out ∨
        ∃ x : ℚ, bendSensitivityEvents s2.out = bendSensitivityEvents s1.out ++ [x]) := by
  obtain ⟨s1, f1, f2, f3⟩ := MidiDevice.feedControllers_returns fuel sync msgs
    { MidiDevice.init with keyboard := kb, controllerArea := ca } hA (Nat.zero_le _)
  obtain ⟨s2, g1, _⟩ := MidiDevice.processControllerChanged_returns fuel s1 n v sync
    (by rw [f2]; exact hA) f3
  obtain ⟨_, d2⟩ := MidiDevice.feedControllers_fields _ _ _ _ _ f1
  obtain ⟨_, c2, c3, c4⟩ := MidiDevice.processControllerChanged_fields _ _ _ _ _ _ g1
  have h1 : s1.rpnHistory = lastFour (recordedRpn msgs) := by
    have := foldl_rpnPush_lastFour (recordedRpn msgs) []
    rw [d2]
    simpa [lastFour, MidiDevice.init] using this
  have h2 : s2.rpnHistory = lastFour (recordedRpn (msgs ++ [(n, v)])) := by
    rw [c2, recordedRpn_append, h1]
    by_cases hn : isRpnController n
    · simp only [hn, if_true]
      exact rpnPush_lastFour _ _
    · simp [hn]
  have hmem : ∀ q ∈ recordedRpn (msgs ++ [(n, v)]), isRpnController q.1 := by
    intro q hq
    unfold recordedRpn at hq
    simpa using (List.mem_filter.mp hq).2
  have hiff : ∀ x : ℚ, bendSensitivityEvents s2.out = bendSensitivityEvents s1.out ++ [x] ↔
      n = 38 ∧ ∃ sv c : Int,
        lastFour (recordedRpn (msgs ++ [(n, v)])) = [(101, 0), (100, 0), (6, sv), (38, c)] ∧
        x = dadd (dmul (toDouble (1 / 100)) (c : ℚ)) (sv : ℚ) := by
    intro x
    by_cases hn : isRpnController n
    · have hh : rpnPush s1.rpnHistory (n, v) = lastFour (recordedRpn (msgs ++ [(n, v)])) := by
        rw [← h2, c2]; simp [hn]
      rw [c3, ← rpnPublished_iff]
      simp only [hn, if_true, hh]
      cases rpnPublished (lastFour (recordedRpn (msgs ++ [(n, v)]))) n <;> simp
    · rw [c3]
      simp only [hn, if_false, List.append_nil]
      constructor
      · intro h
        simp at h
      · rintro ⟨h38, _⟩
        exact absurd (Or.inr (Or.inr (Or.inr h38))) hn
  refine ⟨s1, s2, f1, g1, h1, h2, ?_, ?_, hiff, ?_, ?_, ?_⟩
  · rw [h2]; exact lastFour_length _
  · intro q hq
    rw [h2] at hq
    exact hmem q (lastFour_mem _ _ hq)
  · intro x hx
    obtain ⟨_, sv, c, hl, hxv⟩ := (hiff x).mp hx
    refine ⟨sv, c, hl, ?_⟩
    have := dadd_dmul_hundredth_err sv c
    have e : (sv : ℚ) + (1 / 100 : ℚ) * (c : ℚ) = (sv : ℚ) + (c : ℚ) / 100 := by ring
    rw [hxv, e]
    exact this
  · intro x hx
    rw [c3] at hx
    unfold MidiDevice.getBendSensitivityValue
    rw [c4]
    by_cases hn : isRpnController n
    · simp only [hn, if_true] at hx ⊢
      cases hp : rpnPublished (rpnPush s1.rpnHistory (n, v)) n with
      | none => rw [hp] at hx; simp at hx
      | some y =>
        rw [hp] at hx
        simp at hx
        simp [hx]
    · simp [hn] at hx
  · rw [c3]
    by_cases hn : isRpnController n
    · simp only [hn, if_true]
      cases rpnPublished (rpnPush s1.rpnHistory (n, v)) n with
      | none => left; simp
      | some y => right; exact ⟨y, by simp⟩
    · left; simp [hn]

/-- Witness of C25: the messages `(101,0), (100,0), (6,12)` followed by `(38,50)`. -/
theorem rpn_rolling_history_witness :
    (false = true → false = true) ∧
    ∃ s1 s2,
      MidiDevice.feedControllers 0 false
        { MidiDevice.init with keyboard := false, controllerArea := false }
        [(101, 0), (100, 0), (6, 12)] = Except.ok s1 ∧
      s1.processControllerChanged 0 38 50 false = Except.ok s2 ∧
      s2.rpnHistory = lastFour (recordedRpn ([(101, 0), (100, 0), (6, 12)] ++ [(38, 50)])) ∧
      s2.rpnHistory.length ≤ 4 ∧
      (∀ x : ℚ, bendSensitivityEvents s2.out = bendSensitivityEvents s1.out ++ [x] ↔
        (38 : Int) = 38 ∧ ∃ sv c : Int,
          lastFour (recordedRpn ([(101, 0), (100, 0), (6, 12)] ++ [(38, 50)]))
            = [(101, 0), (100, 0), (6, sv), (38, c)] ∧
          x = dadd (dmul (toDouble (1 / 100)) (c : ℚ)) (sv : ℚ)) :=
  ⟨id, (rpn_rolling_history 0 false false false id [(101, 0), (100, 0), (6, 12)] 38 50).elim
    (fun s1 h1 => h1.elim (fun s2 h =>
      ⟨s1, s2, h.1, h.2.1, h.2.2.2.1, h.2.2.2.2.1, h.2.2.2.2.2.2.1⟩))⟩

/-- C26. Implicit invariant of the MIDI state machine: in every state reached from the
initial state by calls of `processKeyOn`, `processKeyOff` and `processControllerChanged`, the
held queue is empty when the sustain flag is off. -/
theorem sustain_off_queue_empty (s : MidiDevice) (h : MidiDevice.Reachable s)
    (hoff : s.isSustainOn = false) : s.listKeysToRelease = [] :=
  (MidiDevice.reachable_invariant s h).2.2 hoff

/-- Witness of C26: pedal down, key 60 pressed and released (so it is queued), pedal up. -/
theorem sustain_off_queue_empty_witness :
    ∃ s1 s2 : MidiDevice,
      MidiDevice.init.processControllerChanged 1 64 127 false = Except.ok s1 ∧
      s1.isSustainOn = true ∧
      ((s1.processKeyOn 60 100 false).processKeyOff 60 false).listKeysToRelease = [60] ∧
      ((s1.processKeyOn 60 100 false).processKeyOff 60 false).processControllerChanged 1 64 0
        false = Except.ok s2 ∧
      s2.isSustainOn = false ∧ s2.listKeysToRelease = [] := by
  obtain ⟨s1, a1, a2, a3, _⟩ := MidiDevice.processControllerChanged_sustainDown 1
    MidiDevice.init 127 false (by decide) (fun h => Bool.noConfusion h)
  have r1 : MidiDevice.Reachable s1 :=
    MidiDevice.Reachable.controller 1 64 127 false (MidiDevice.Reachable.init false false) a1
  have hq : ((s1.processKeyOn 60 100 false).processKeyOff 60 false).listKeysToRelease = [60] := by
    have b := MidiDevice.processKeyOn_notHeld s1 60 100 false (by rw [a3]; simp [MidiDevice.init])
    have c := MidiDevice.processKeyOff_sustainOn (s1.processKeyOn 60 100 false) 60 false
      (by decide) (by rw [b.2.1]; exact a2)
    rw [c.1, b.1, a3]
    simp [MidiDevice.init]
  obtain ⟨s2, d1, _⟩ := MidiDevice.processControllerChanged_returns 1
    ((s1.processKeyOn 60 100 false).processKeyOff 60 false) 64 0 false
    (fun h => Bool.noConfusion h) (by rw [hq]; simp)
  have r2 : MidiDevice.Reachable s2 :=
    MidiDevice.Reachable.controller 1 64 0 false
      (MidiDevice.Reachable.keyOff 60 false (MidiDevice.Reachable.keyOn 60 100 false r1)) d1
  have hoff : s2.isSustainOn = false := by
    rcases MidiDevice.processControllerChanged_frame _ _ _ _ _ _ d1 with
      ⟨_, _, _, h⟩ | ⟨_, h, _⟩ | ⟨h, _⟩
    · exact h
    · exact absurd h (by decide)
    · exact absurd rfl h
  exact ⟨s1, s2, a1, a2, hq, d1, hoff, sustain_off_queue_empty s2 r2 hoff⟩

/-- C23 as stated fails: with one available port, which is open, `openMidiPort(-1)` and
`openMidiPort(1)` are invalid-index calls that surface no error and leave no port open: the
port that was open is closed, so the MIDI input state is not unchanged. -/
theorem openMidiPort_closes_open_port :
    exampleMidiIn.openedPort = some 0 ∧
    ((1 : Int) ≥ (exampleMidiIn.portCount : Int)) ∧
    (∃ m2, MidiDevice.openMidiPort (some exampleMidiIn) (-1) = Except.ok (some m2) ∧
      m2.openedPort = none ∧ m2.openedPort ≠ exampleMidiIn.openedPort) ∧
    (∃ m2, MidiDevice.openMidiPort (some exampleMidiIn) 1 = Except.ok (some m2) ∧
      m2.openedPort = none ∧ m2.openedPort ≠ exampleMidiIn.openedPort) := by
  refine ⟨rfl, by decide, ⟨exampleMidiIn.closePort, ?_, rfl, ?_⟩,
    ⟨exampleMidiIn.closePort, ?_, rfl, ?_⟩⟩
  · simp [MidiDevice.openMidiPort]
  · simp [exampleMidiIn, RtMidiIn.closePort]
  · simp [MidiDevice.openMidiPort, exampleMidiIn, RtMidiIn.closePort, wrapInt32]
  · simp [exampleMidiIn, RtMidiIn.closePort]

/-- C23, amended. For every index that is -1 or not below the number of available ports (a
number that fits an `int`), `openMidiPort(index)` surfaces no error and opens no port, and
closes the port that is open: the MIDI input is left as `closePort()` leaves it, with no open
port; it is unchanged exactly when no port was open, and a null `_midiin` stays null. -/
theorem invalid_port_index (m : RtMidiIn) (index : Int)
    (hc : fitsInt32 (m.portCount : Int))
    (hi : index = -1 ∨ (m.portCount : Int) ≤ index) :
    MidiDevice.openMidiPort (some m) index = Except.ok (some m.closePort) ∧
    m.closePort.openedPort = none ∧
    m.closePort.portCount = m.portCount ∧
    (MidiDevice.openMidiPort (some m) index = Except.ok (some m) ↔ m.openedPort = none) ∧
    MidiDevice.openMidiPort none index = Except.ok none := by
  have hw : wrapInt32 (m.portCount : Int) = (m.portCount : Int) := by
    obtain ⟨h1, h2⟩ := hc
    unfold wrapInt32
    omega
  have h1 : MidiDevice.openMidiPort (some m) index = Except.ok (some m.closePort) := by
    unfold MidiDevice.openMidiPort
    have hn : ¬ (index < wrapInt32 ((m.closePort.portCount : Nat) : Int) ∧ index ≠ -1) := by
      rintro ⟨a, b⟩
      have a2 : index < wrapInt32 (m.portCount : Int) := a
      rw [hw] at a2
      rcases hi with hi | hi
      · exact b hi
      · omega
    simp only [hn, if_false]
  refine ⟨h1, rfl, rfl, ?_, rfl⟩
  rw [h1]
  constructor
  · intro h
    simp only [Except.ok.injEq, Option.some.injEq] at h
    rw [← h]
    rfl
  · intro h
    cases m with
    | mk pc acc op =>
      simp only at h
      subst h
      rfl

/-- Witness of C23 (amended): the example input, one open port, and the index -1. -/
theorem invalid_port_index_witness :
    fitsInt32 (exampleMidiIn.portCount : Int) ∧
    ((-1 : Int) = -1 ∨ (exampleMidiIn.portCount : Int) ≤ -1) ∧
    MidiDevice.openMidiPort (some exampleMidiIn) (-1)
      = Except.ok (some exampleMidiIn.closePort) ∧
    exampleMidiIn.closePort.openedPort = none ∧
    exampleMidiIn.closePort.portCount = exampleMidiIn.portCount ∧
    (MidiDevice.openMidiPort (some exampleMidiIn) (-1) = Except.ok (some exampleMidiIn)
      ↔ exampleMidiIn.openedPort = none) ∧
    MidiDevice.openMidiPort none (-1) = Except.ok none :=
  ⟨by unfold fitsInt32; decide, Or.inl rfl,
    invalid_port_index exampleMidiIn (-1) (by unfold fitsInt32; decide) (Or.inl rfl)⟩

namespace GrandOrgueDataThrough

/-- What `setMaxRankGain` leaves in the map. -/
theorem setMaxRankGain_map (d : GrandOrgueDataThrough) (r0 : Int) (g0 : ℚ) (r : Int) :
    (d.setMaxRankGain r0 g0).maxGainPerRank r
      = if r = r0 then
          (match d.maxGainPerRank r0 with
            | some g => some (qMax g g0)
            | none => some g0)
        else d.maxGainPerRank r := by
  unfold setMaxRankGain
  cases h : d.maxGainPerRank r0 <;> simp

/-- After a sequence of calls on a new object, a rank for which no gain was set is not in the
map, and a rank for which gains were set holds one of them, not below any of them. -/
theorem setAll_map (calls : List (Int × ℚ)) :
    ∀ r : Int,
      (gainsOf calls r = [] → (setAll calls).maxGainPerRank r = none) ∧
      (gainsOf calls r ≠ [] → ∃ x, (setAll calls).maxGainPerRank r = some x ∧
        x ∈ gainsOf calls r ∧ ∀ g ∈ gainsOf calls r, g ≤ x) := by
  induction calls using List.reverseRecOn with
  | nil =>
    intro r
    exact ⟨fun _ => rfl, fun h => absurd rfl h⟩
  | append_singleton cs c ih =>
    intro r
    have hset : setAll (cs ++ [c]) = (setAll cs).setMaxRankGain c.1 c.2 := by
      simp [setAll, List.foldl_append]
    have hg : gainsOf (cs ++ [c]) r = gainsOf cs r ++ (if c.1 = r then [c.2] else []) := by
      unfold gainsOf
      rw [List.filter_append, List.map_append]
      by_cases hc : c.1 = r <;> simp [hc]
    rw [hset, hg, setMaxRankGain_map]
    by_cases hc : c.1 = r
    · subst hc
      simp only [if_true]
      refine ⟨fun h => by simp at h, fun _ => ?_⟩
      by_cases he : gainsOf cs c.1 = []
      · rw [(ih c.1).1 he, he]
        exact ⟨c.2, rfl, by simp, by simp⟩
      · obtain ⟨x, hx, hmem, hmax⟩ := (ih c.1).2 he
        rw [hx]
        refine ⟨qMax x c.2, rfl, ?_, ?_⟩
        · unfold qMax
          by_cases hlt : x < c.2
          · simp [hlt]
          · simp [hlt, hmem]
        · intro g hgm
          unfold qMax
          rcases List.mem_append.mp hgm with hgm | hgm
          · have := hmax g hgm
            by_cases hlt : x < c.2
            · simp only [hlt, if_true]; linarith
            · simp only [hlt, if_false]; exact this
          · rw [List.mem_singleton] at hgm
            subst hgm
            by_cases hlt : x < c.2
            · simp [hlt]
            · simp only [hlt, if_false]; exact not_lt.mp hlt
    · have hne : ¬ r = c.1 := fun e => hc e.symm
      simp only [hc, hne, if_false, List.append_nil]
      exact ih r

end GrandOrgueDataThrough

/-- C30. Per-rank maximum gain: after any sequence of `setMaxRankGain` calls on a new object,
`getMaxRankGain(r)` is 0 for a rank for which no gain was set, and otherwise is one of the
gains set for `r` and not below any of them, that is, their maximum; and
`setMaxRankGain(r0, g0)`, in any state, does not change `getMaxRankGain(r)` for `r ≠ r0`. -/
theorem max_rank_gain (calls : List (Int × ℚ)) (r : Int) :
    (GrandOrgueDataThrough.gainsOf calls r = [] →
      (GrandOrgueDataThrough.setAll calls).getMaxRankGain r = 0) ∧
    (GrandOrgueDataThrough.gainsOf calls r ≠ [] →
      (GrandOrgueDataThrough.setAll calls).getMaxRankGain r
          ∈ GrandOrgueDataThrough.gainsOf calls r ∧
        ∀ g ∈ GrandOrgueDataThrough.gainsOf calls r,
          g ≤ (GrandOrgueDataThrough.setAll calls).getMaxRankGain r) ∧
    (∀ (d : GrandOrgueDataThrough) (r0 : Int) (g0 : ℚ), r ≠ r0 →
      (d.setMaxRankGain r0 g0).getMaxRankGain r = d.getMaxRankGain r) := by
  refine ⟨?_, ?_, ?_⟩
  · intro h
    unfold GrandOrgueDataThrough.getMaxRankGain
    rw [(GrandOrgueDataThrough.setAll_map calls r).1 h]
  · intro h
    obtain ⟨x, hx, hmem, hmax⟩ := (GrandOrgueDataThrough.setAll_map calls r).2 h
    unfold GrandOrgueDataThrough.getMaxRankGain
    rw [hx]
    exact ⟨hmem, hmax⟩
  · intro d r0 g0 hne
    unfold GrandOrgueDataThrough.getMaxRankGain
    rw [GrandOrgueDataThrough.setMaxRankGain_map]
    simp [hne]

/-! ## Bulk renaming -/

/-- The string `left(n)` has at most `n` characters. -/
theorem qLeft_length (s : List Char) (n : Int) (hn : 0 ≤ n) : ((qLeft s n).length : Int) ≤ n := by
  unfold qLeft
  by_cases h : n < 0 ∨ (s.length : Int) ≤ n
  · rw [if_pos h]
    rcases h with h | h
    · omega
    · exact h
  · rw [if_neg h, List.length_take]
    omega

/-- A string of at most `n` characters is its own `left(n)`. -/
theorem qLeft_of_length_le (s : List Char) (n : Int) (h : (s.length : Int) ≤ n) :
    qLeft s n = s := by
  unfold qLeft
  rw [if_pos (Or.inr h)]

set_option maxRecDepth 100000 in
/-- Below 100, `QString::number` with the leading zero of `bulkRename` gives two digits. -/
theorem qNumber_two_digits : ∀ k : Nat, k < 100 →
    (if k < 10 then '0' :: qNumber k else qNumber k)
      = [Nat.digitChar (k / 10), Nat.digitChar (k % 10)] := by
  decide

/-- Every name that the loop stores comes from one of its iterations: it is the `left(20)` of
the name that the `switch` computes for the element at that position. -/
theorem bulkRenameLoop_stored {σ : Type} (env : RenameEnv σ) (renameType : Int)
    (text1 text2 : List Char) (val2 : Int) (ids : List EltID) :
    ∀ (i : Nat) (st : RenameState σ),
      ∀ e ∈ (bulkRenameLoop env renameType text1 text2 val2 i ids st).stored,
        e ∈ st.stored ∨
        ∃ (j : Nat) (ID : EltID) (sm : σ) (v v2 : Int) (name : List Char),
          ids[j]? = some ID ∧
          bulkRenameName env sm renameType text1 text2 v val2 (i + j) ID = some (name, v2) ∧
          e = (ID, qLeft name 20) := by
  induction ids with
  | nil =>
    intro i st e he
    left
    simpa [bulkRenameLoop] using he
  | cons ID rest ih =>
    intro i st e he
    unfold bulkRenameLoop at he
    cases hn : bulkRenameName env st.store renameType text1 text2 st.val1 val2 i ID with
    | none =>
      rw [hn] at he
      left
      exact he
    | some r =>
      obtain ⟨name, v⟩ := r
      rw [hn] at he
      simp only at he
      have key : ∀ st2 : RenameState σ,
          (∀ x ∈ st2.stored, x ∈ st.stored ∨ x = (ID, qLeft name 20)) →
          e ∈ (bulkRenameLoop env renameType text1 text2 val2 (i + 1) rest st2).stored →
          e ∈ st.stored ∨
          ∃ (j : Nat) (ID2 : EltID) (sm : σ) (v v2 : Int) (name2 : List Char),
            (ID :: rest)[j]? = some ID2 ∧
            bulkRenameName env sm renameType text1 text2 v val2 (i + j) ID2
              = some (name2, v2) ∧
            e = (ID2, qLeft name2 20) := by
        intro st2 hst2 he2
        rcases ih (i + 1) st2 e he2 with h | ⟨j, ID2, sm, w, w2, name2, h1, h2, h3⟩
        · rcases hst2 e h with h | h
          · left; exact h
          · right
            exact ⟨0, ID, st.store, st.val1, v, name, by simp, hn, h⟩
        · right
          refine ⟨j + 1, ID2, sm, w, w2, name2, ?_, ?_, h3⟩
          · simpa using h1
          · rw [← h2]
            congr 1
            omega
      split at he
      · refine key _ ?_ he
        intro x hx
        simp only [List.mem_append, List.mem_singleton] at hx
        exact hx
      · refine key _ ?_ he
        intro x hx
        left
        exact hx

/-- The name that the `switch` computes for rename type 1 and a non-empty text. -/
theorem bulkRenameName_index {σ : Type} (env : RenameEnv σ) (sm : σ) (text1 text2 : List Char)
    (val1 val2 : Int) (i : Nat) (ID : EltID) (ht : text1 ≠ []) :
    bulkRenameName env sm 1 text1 text2 val1 val2 i ID
      = some (qLeft text1 17 ++
          ['-', Nat.digitChar ((i + 1) % 100 / 10), Nat.digitChar ((i + 1) % 100 % 10)],
          val1) := by
  have hk := qNumber_two_digits ((i + 1) % 100) (Nat.mod_lt _ (by decide))
  have he : text1.isEmpty = false := by
    cases text1 with
    | nil => exact absurd rfl ht
    | cons a l => rfl
  unfold bulkRenameName
  simp only [show ¬ ((1 : Int) = 0) by decide, if_false, if_true, he, Bool.false_eq_true]
  by_cases h10 : (i + 1) % 100 < 10
  · rw [if_pos h10] at hk
    rw [if_pos h10]
    simp only [List.append_assoc, List.cons_append, List.nil_append, hk]
  · rw [if_neg h10] at hk
    rw [if_neg h10]
    simp only [List.append_assoc, List.cons_append, List.nil_append, hk]

/-- The name of rename type 1 has at most 20 characters. -/
theorem indexName_length (text1 : List Char) (a b : Char) :
    ((qLeft text1 17 ++ ['-', a, b]).length : Int) ≤ 20 := by
  have := qLeft_length text1 17 (by decide)
  simp only [List.length_append, List.length_cons, List.length_nil]
  push_cast
  omega

/-- C29. Bulk rename keeps the 20-character limit without losing the index suffix: with
rename type 1 and a non-empty text, the name computed for the element at position `i` is the
first 17 characters of the text, then `-`, then the two decimal digits of `(i+1) mod 100`; it
has at most 20 characters, so `left(20)` returns it whole, and every name that `bulkRename`
then stores is that name for a position `j` of the selection. For every rename type and every
text, every name that `bulkRename` stores has at most 20 characters. -/
theorem bulkRename_keeps_limit {σ : Type} (env : RenameEnv σ) (currentIds : List EltID)
    (sm : σ) (text1 text2 : List Char) (val1 val2 : Int) (i : Nat) (ID : EltID)
    (ht : text1 ≠ []) :
    bulkRenameName env sm 1 text1 text2 val1 val2 i ID
      = some (qLeft text1 17 ++
          ['-', Nat.digitChar ((i + 1) % 100 / 10), Nat.digitChar ((i + 1) % 100 % 10)],
          val1) ∧
    (qLeft text1 17 ++
      ['-', Nat.digitChar ((i + 1) % 100 / 10), Nat.digitChar ((i + 1) % 100 % 10)]).length
        ≤ 20 ∧
    qLeft (qLeft text1 17 ++
      ['-', Nat.digitChar ((i + 1) % 100 / 10), Nat.digitChar ((i + 1) % 100 % 10)]) 20
        = qLeft text1 17 ++
          ['-', Nat.digitChar ((i + 1) % 100 / 10), Nat.digitChar ((i + 1) % 100 % 10)] ∧
    (∀ e ∈ (bulkRename env currentIds sm 1 text1 text2 val1 val2).stored,
      ∃ j : Nat, currentIds[j]? = some e.1 ∧
        e.2 = qLeft text1 17 ++
          ['-', Nat.digitChar ((j + 1) % 100 / 10), Nat.digitChar ((j + 1) % 100 % 10)]) ∧
    (∀ (renameType : Int) (t1 t2 : List Char) (v1 v2 : Int),
      ∀ e ∈ (bulkRename env currentIds sm renameType t1 t2 v1 v2).stored, e.2.length ≤ 20) := by
  refine ⟨bulkRenameName_index env sm text1 text2 val1 val2 i ID ht, ?_, ?_, ?_, ?_⟩
  · have := indexName_length text1 (Nat.digitChar ((i + 1) % 100 / 10))
      (Nat.digitChar ((i + 1) % 100 % 10))
    exact_mod_cast this
  · exact qLeft_of_length_le _ _ (indexName_length text1 _ _)
  · intro e he
    unfold bulkRename at he
    rcases bulkRenameLoop_stored env 1 text1 text2 val2 currentIds 0 _ e he with
      h | ⟨j, ID2, sm2, w, w2, name, h1, h2, h3⟩
    · simp at h
    · refine ⟨j, ?_, ?_⟩
      · rw [h3]; exact h1
      · rw [bulkRenameName_index env sm2 text1 text2 w val2 (0 + j) ID2 ht] at h2
        simp only [Option.some.injEq, Prod.mk.injEq] at h2
        rw [h3, ← h2.1]
        simp only [Nat.zero_add]
        exact qLeft_of_length_le _ _ (indexName_length text1 _ _)
  · intro renameType t1 t2 v1 v2 e he
    unfold bulkRename at he
    rcases bulkRenameLoop_stored env renameType t1 t2 v2 currentIds 0 _ e he with
      h | ⟨j, ID2, sm2, w, w2, name, _, _, h3⟩
    · simp at h
    · rw [h3]
      have := qLeft_length name 20 (by decide)
      exact_mod_cast this

/-- Witness of C29: two samples named `a` are renamed with the text `Organ`, and are stored
as `Organ-01` and `Organ-02`. -/
theorem bulkRename_keeps_limit_witness :
    (['O', 'r', 'g', 'a', 'n'] : List Char) ≠ [] ∧
    (bulkRename exampleRenameEnv
        [EltID.ofElt ElementType.elementSmpl 0 0, EltID.ofElt ElementType.elementSmpl 0 1]
        (fun _ => ['a']) 1 ['O', 'r', 'g', 'a', 'n'] [] 0 0).stored
      = [(EltID.ofElt ElementType.elementSmpl 0 0, ['O', 'r', 'g', 'a', 'n', '-', '0', '1']),
         (EltID.ofElt ElementType.elementSmpl 0 1, ['O', 'r', 'g', 'a', 'n', '-', '0', '2'])] ∧
    ∀ e ∈ (bulkRename exampleRenameEnv
        [EltID.ofElt ElementType.elementSmpl 0 0, EltID.ofElt ElementType.elementSmpl 0 1]
        (fun _ => ['a']) 1 ['O', 'r', 'g', 'a', 'n'] [] 0 0).stored,
      ∃ j : Nat,
        [EltID.ofElt ElementType.elementSmpl 0 0, EltID.ofElt ElementType.elementSmpl 0 1][j]?
          = some e.1 ∧
        e.2 = qLeft ['O', 'r', 'g', 'a', 'n'] 17 ++
          ['-', Nat.digitChar ((j + 1) % 100 / 10), Nat.digitChar ((j + 1) % 100 % 10)] :=
  ⟨by decide, by decide,
    (bulkRename_keeps_limit exampleRenameEnv
      [EltID.ofElt ElementType.elementSmpl 0 0, EltID.ofElt ElementType.elementSmpl 0 1]
      (fun _ => ['a']) ['O', 'r', 'g', 'a', 'n'] [] 0 0 0
      (EltID.ofElt ElementType.elementSmpl 0 0) (by decide)).2.2.2.1⟩

/-! ## Copying and pasting modulators -/

namespace ModulatorEditor

/-- With pairwise distinct indexes, the list of indexes is the list of the indexes read. -/
theorem listIndexes_nodup (l : List Modulator) (h : (l.map Modulator.index).Nodup) :
    listIndexes l = l.map Modulator.index := by
  have key : ∀ (l : List Modulator) (acc : List Int),
      (acc ++ l.map Modulator.index).Nodup →
      l.foldl (fun acc mod => if acc.contains mod.index then acc else acc ++ [mod.index]) acc
        = acc ++ l.map Modulator.index := by
    intro l
    induction l with
    | nil => intro acc _; simp
    | cons m ms ih =>
      intro acc hnd
      have hm : ¬ m.index ∈ acc := by
        intro hmem
        rw [List.nodup_append] at hnd
        exact hnd.2.2 hmem (by simp)
      rw [List.foldl_cons]
      have hc : acc.contains m.index = false := by simpa using hm
      simp only [hc, Bool.false_eq_true, if_false]
      rw [ih (acc ++ [m.index]) (by simpa using hnd)]
      simp
  have := key l [] (by simpa using h)
  simpa [listIndexes] using this

/-- The position of a value that occurs is a position of the list. -/
theorem qIndexOf_mem (l : List Int) (x : Int) (h : x ∈ l) :
    ∃ j : Nat, j < l.length ∧ qIndexOf l x = (j : Int) := by
  refine ⟨l.indexOf x, List.indexOf_lt_length.mpr h, ?_⟩
  unfold qIndexOf
  have : l.contains x = true := by simpa using h
  rw [if_pos this]

/-- In a list without repetition, the position of the entry at `i` is `i`. -/
theorem qIndexOf_getElem (l : List Int) (hd : l.Nodup) (i : Nat) (hi : i < l.length) :
    qIndexOf l l[i] = (i : Int) := by
  unfold qIndexOf
  have : l.contains l[i] = true := by simp
  rw [if_pos this, List.indexOf_getElem hd i hi]

/-- The third loop keeps the length. -/
theorem unlinkStep_length (l : List Modulator) (i : Nat) :
    (unlinkStep l i).length = l.length := by
  unfold unlinkStep
  split
  · rfl
  · split
    · split
      · simp
      · rfl
    · rfl

/-- The third loop changes the member `Index` of the source at most: every modulator keeps its
destination and its index. -/
theorem unlinkStep_getElem (l : List Modulator) (i k : Nat) (m : Modulator)
    (h : (unlinkStep l i)[k]? = some m) :
    ∃ m0, l[k]? = some m0 ∧ m.modDestOper = m0.modDestOper ∧ m.index = m0.index ∧
      m.modSrcOper.CC = m0.modSrcOper.CC ∧
      (m.modSrcOper.Index = m0.modSrcOper.Index ∨ (k = i ∧ m.modSrcOper.Index = 0)) ∧
      (k ≠ i → m = m0) := by
  unfold unlinkStep at h
  split at h
  · exact ⟨m, h, rfl, rfl, rfl, Or.inl rfl, fun _ => rfl⟩
  · rename_i mod hmod
    split at h
    · split at h
      · by_cases hk : i = k
        · subst hk
          have hi : i < l.length := by
            by_contra hc
            rw [List.getElem?_eq_none (by omega)] at hmod
            exact Option.noConfusion hmod
          rw [List.getElem?_set_self hi] at h
          simp only [Option.some.injEq] at h
          subst h
          exact ⟨mod, hmod, rfl, rfl, rfl, Or.inr ⟨rfl, rfl⟩, fun hne => absurd rfl hne⟩
        · rw [List.getElem?_set_ne hk] at h
          exact ⟨m, h, rfl, rfl, rfl, Or.inl rfl, fun _ => rfl⟩
      · exact ⟨m, h, rfl, rfl, rfl, Or.inl rfl, fun _ => rfl⟩
    · exact ⟨m, h, rfl, rfl, rfl, Or.inl rfl, fun _ => rfl⟩

/-- The destinations after a step of the third loop. -/
theorem unlinkStep_dest (l : List Modulator) (i : Nat) :
    (unlinkStep l i).map Modulator.modDestOper = l.map Modulator.modDestOper := by
  apply List.ext_getElem?
  intro k
  rw [List.getElem?_map, List.getElem?_map]
  cases h : (unlinkStep l i)[k]? with
  | none =>
    have hk : l.length ≤ k := by
      have := List.getElem?_eq_none_iff.mp h
      rw [unlinkStep_length] at this
      exact this
    rw [List.getElem?_eq_none hk]
  | some m =>
    obtain ⟨m0, h0, hd, _⟩ := unlinkStep_getElem l i k m h
    rw [h0]
    simp [hd]

/-- A modulator whose source is the link source is the destination of another one. -/
theorem unlinkStep_linked_self (l : List Modulator) (i : Nat) (m : Modulator)
    (hm : (unlinkStep l i)[i]? = some m) (h127 : m.modSrcOper.Index = 127)
    (hcc : m.modSrcOper.CC = 0) :
    ∃ j : Nat, j ≠ i ∧ (l.map Modulator.modDestOper)[j]? = some (32768 + (i : Int)) := by
  unfold unlinkStep at hm
  split at hm
  · rename_i hnone
    rw [hnone] at hm
    exact Option.noConfusion hm
  · rename_i mod hmod
    have hi : i < l.length := by
      by_contra hc
      rw [List.getElem?_eq_none (by omega)] at hmod
      exact Option.noConfusion hmod
    have hfound : linkFound l i = true →
        ∃ j : Nat, j ≠ i ∧ (l.map Modulator.modDestOper)[j]? = some (32768 + (i : Int)) := by
      intro hf
      unfold linkFound at hf
      rw [List.any_eq_true] at hf
      obtain ⟨j, _, hj⟩ := hf
      simp only [Bool.and_eq_true, decide_eq_true_eq] at hj
      exact ⟨j, fun e => hj.1 e.symm, by rw [List.getElem?_map]; exact hj.2⟩
    split at hm
    · split at hm
      · rw [List.getElem?_set_self hi] at hm
        simp only [Option.some.injEq] at hm
        rw [← hm] at h127
        simp at h127
      · rename_i hnf
        apply hfound
        simpa using hnf
    · rename_i hcond
      rw [hmod] at hm
      simp only [Option.some.injEq] at hm
      subst hm
      exact absurd ⟨h127, hcc⟩ hcond

/-- The property that the third loop establishes at the position `i`. -/
theorem foldl_unlinkStep (is : List Nat) :
    ∀ l : List Modulator,
      (is.foldl unlinkStep l).length = l.length ∧
      (is.foldl unlinkStep l).map Modulator.modDestOper = l.map Modulator.modDestOper ∧
      (∀ (k : Nat) (m : Modulator), (is.foldl unlinkStep l)[k]? = some m →
        ∃ m0, l[k]? = some m0 ∧ m.index = m0.index ∧
          m.modSrcOper.CC = m0.modSrcOper.CC ∧
          (m.modSrcOper.Index = m0.modSrcOper.Index ∨ m.modSrcOper.Index = 0)) ∧
      (∀ i ∈ is, ∀ m : Modulator, (is.foldl unlinkStep l)[i]? = some m →
        m.modSrcOper.Index = 127 → m.modSrcOper.CC = 0 →
        ∃ j : Nat, j ≠ i ∧ (l.map Modulator.modDestOper)[j]? = some (32768 + (i : Int))) := by
  induction is with
  | nil =>
    intro l
    refine ⟨rfl, rfl, ?_, ?_⟩
    · intro k m h
      exact ⟨m, h, rfl, rfl, Or.inl rfl⟩
    · intro i hi
      exact absurd hi (List.not_mem_nil _)
  | cons a rest ih =>
    intro l
    obtain ⟨h1, h2, h3, h4⟩ := ih (unlinkStep l a)
    rw [List.foldl_cons]
    refine ⟨by rw [h1, unlinkStep_length], by rw [h2, unlinkStep_dest], ?_, ?_⟩
    · intro k m h
      obtain ⟨m1, g1, g2, g3, g4⟩ := h3 k m h
      obtain ⟨m0, f1, _, f3, f4, f5, _⟩ := unlinkStep_getElem l a k m1 g1
      refine ⟨m0, f1, by rw [g2, f3], by rw [g3, f4], ?_⟩
      rcases g4 with g4 | g4
      · rcases f5 with f5 | ⟨_, f5⟩
        · left; rw [g4, f5]
        · right; rw [g4, f5]
      · right; exact g4
    · intro i hi m hm h127 hcc
      by_cases hmem : i ∈ rest
      · obtain ⟨j, hj1, hj2⟩ := h4 i hmem m hm h127 hcc
        rw [unlinkStep_dest] at hj2
        exact ⟨j, hj1, hj2⟩
      · have hia : i = a := by
          rcases List.mem_cons.mp hi with h | h
          · exact h
          · exact absurd h hmem
        subst hia
        obtain ⟨m1, g1, _, g3, g4⟩ := h3 i m hm
        have hI : m1.modSrcOper.Index = 127 := by
          rcases g4 with g4 | g4
          · rw [← g4]; exact h127
          · rw [g4] at h127; exact absurd h127 (by decide)
        exact unlinkStep_linked_self l i m1 g1 hI (by rw [← g3]; exact hcc)

/-- What the second loop of `getModList` makes of the modulator at position `i`, the indexes
being pairwise distinct. -/
theorem relink_spec (fineTune : Int) (l : List Modulator)
    (hd : (l.map Modulator.index).Nodup) (i : Nat) (m0 : Modulator) (h0 : l[i]? = some m0) :
    (relink fineTune (l.map Modulator.index) m0).index = (i : Int) ∧
    (relink fineTune (l.map Modulator.index) m0).modSrcOper = m0.modSrcOper ∧
    (m0.modDestOper < 32768 →
      (relink fineTune (l.map Modulator.index) m0).modDestOper = m0.modDestOper) ∧
    (32768 ≤ m0.modDestOper → (∀ x ∈ l, x.index ≠ m0.modDestOper - 32768) →
      (relink fineTune (l.map Modulator.index) m0).modDestOper = fineTune) ∧
    (32768 ≤ m0.modDestOper → (∃ x ∈ l, x.index = m0.modDestOper - 32768) →
      ∃ j : Nat, j < l.length ∧
        (relink fineTune (l.map Modulator.index) m0).modDestOper = 32768 + (j : Int)) := by
  have hi : i < l.length := by
    by_contra hc
    rw [List.getElem?_eq_none (by omega)] at h0
    exact Option.noConfusion h0
  have hli : l[i] = m0 := by
    rw [List.getElem?_eq_getElem hi] at h0
    exact Option.some.inj h0
  have hidx : qIndexOf (l.map Modulator.index) m0.index = (i : Int) := by
    have := qIndexOf_getElem (l.map Modulator.index) hd i (by simpa using hi)
    simpa [hli] using this
  refine ⟨?_, ?_, ?_, ?_, ?_⟩
  · simp only [relink]
    exact hidx
  · simp only [relink]
    split
    · split <;> rfl
    · rfl
  · intro hlt
    simp only [relink]
    rw [if_neg (by omega)]
  · intro hge hno
    have hex : ¬ ∃ a ∈ l, a.index = m0.modDestOper - 32768 :=
      fun ⟨x, hx, e⟩ => hno x hx e
    simp only [relink]
    rw [if_pos hge]
    simp [hex]
  · intro hge hyes
    have hex : ∃ a ∈ l, a.index = m0.modDestOper - 32768 := hyes
    obtain ⟨x, hx, hxe⟩ := hyes
    have hmem : m0.modDestOper - 32768 ∈ l.map Modulator.index := by
      rw [← hxe]
      exact List.mem_map_of_mem _ hx
    obtain ⟨j, hj, hje⟩ := qIndexOf_mem _ _ hmem
    refine ⟨j, by simpa using hj, ?_⟩
    simp only [relink]
    rw [if_pos hge]
    simp [hex, hje]

/-- The result of the second part of `getModList` on a list with pairwise distinct indexes. -/
theorem renumber_spec (fineTune : Int) (hft : fineTune < 32768) (l : List Modulator)
    (hd : (l.map Modulator.index).Nodup) :
    (renumber fineTune l).length = l.length ∧
    (∀ (i : Nat) (m : Modulator), (renumber fineTune l)[i]? = some m → m.index = (i : Int)) ∧
    (∀ (i : Nat) (m : Modulator), (renumber fineTune l)[i]? = some m →
      32768 ≤ m.modDestOper →
      ∃ j : Nat, j < (renumber fineTune l).length ∧ m.modDestOper = 32768 + (j : Int)) ∧
    (∀ (i : Nat) (m : Modulator), (renumber fineTune l)[i]? = some m →
      m.modSrcOper.Index = 127 → m.modSrcOper.CC = 0 →
      ∃ (j : Nat) (mj : Modulator), j ≠ i ∧ (renumber fineTune l)[j]? = some mj ∧
        mj.modDestOper = 32768 + (i : Int)) ∧
    (∀ (i : Nat) (m0 m : Modulator), l[i]? = some m0 → (renumber fineTune l)[i]? = some m →
      32768 ≤ m0.modDestOper → (∀ x ∈ l, x.index ≠ m0.modDestOper - 32768) →
      m.modDestOper = fineTune) ∧
    (∀ (i : Nat) (m0 m : Modulator), l[i]? = some m0 → (renumber fineTune l)[i]? = some m →
      m0.modSrcOper.Index = 127 → m0.modSrcOper.CC = 0 →
      (¬ ∃ (j : Nat) (mj : Modulator), j ≠ i ∧ (renumber fineTune l)[j]? = some mj ∧
        mj.modDestOper = 32768 + (i : Int)) →
      m.modSrcOper.Index = 0) := by
  have hL : listIndexes l = l.map Modulator.index := listIndexes_nodup l hd
  obtain ⟨h1, h2, h3, h4⟩ := foldl_unlinkStep
    (List.range (l.map (relink fineTune (listIndexes l))).length)
    (l.map (relink fineTune (listIndexes l)))
  have hr : renumber fineTune l
      = (List.range (l.map (relink fineTune (listIndexes l))).length).foldl unlinkStep
          (l.map (relink fineTune (listIndexes l))) := rfl
  rw [← hr] at h1 h2 h3 h4
  rw [hL] at h1 h2 h3 h4
  have hlen : (renumber fineTune l).length = l.length := by
    rw [h1, List.length_map]
  -- the modulator at a position of the result, and the one it was read as
  have hpos : ∀ (i : Nat) (m : Modulator), (renumber fineTune l)[i]? = some m →
      ∃ m0, l[i]? = some m0 ∧
        m.index = (relink fineTune (l.map Modulator.index) m0).index ∧
        m.modDestOper = (relink fineTune (l.map Modulator.index) m0).modDestOper ∧
        m.modSrcOper.CC = m0.modSrcOper.CC ∧
        (m.modSrcOper.Index = m0.modSrcOper.Index ∨ m.modSrcOper.Index = 0) := by
    intro i m hm
    obtain ⟨m1, g1, g2, g3, g4⟩ := h3 i m hm
    rw [List.getElem?_map] at g1
    cases h0 : l[i]? with
    | none => rw [h0] at g1; exact Option.noConfusion g1
    | some m0 =>
      rw [h0] at g1
      simp only [Option.map_some', Option.some.injEq] at g1
      have hdest : m.modDestOper = m1.modDestOper := by
        have e := congrArg (fun x => x[i]?) h2
        simp only [List.getElem?_map, hm, h0, Option.map_some', Option.some.injEq] at e
        rw [e, g1]
      have hsrc := (relink_spec fineTune l hd i m0 h0).2.1
      rw [g1] at hsrc
      refine ⟨m0, rfl, by rw [g2, g1], by rw [hdest, g1], by rw [g3, hsrc], ?_⟩
      rw [← hsrc]
      exact g4
  have hlink : ∀ (i : Nat) (m : Modulator), (renumber fineTune l)[i]? = some m →
      m.modSrcOper.Index = 127 → m.modSrcOper.CC = 0 →
      ∃ (j : Nat) (mj : Modulator), j ≠ i ∧ (renumber fineTune l)[j]? = some mj ∧
        mj.modDestOper = 32768 + (i : Int) := by
    intro i m hm h127 hcc
    have hi : i < (renumber fineTune l).length := by
      by_contra hc
      rw [List.getElem?_eq_none (by omega)] at hm
      exact Option.noConfusion hm
    have hmem : i ∈ List.range (l.map (relink fineTune (l.map Modulator.index))).length := by
      rw [List.mem_range, ← h1]
      exact hi
    obtain ⟨j, hj1, hj2⟩ := h4 i hmem m hm h127 hcc
    rw [← h2, List.getElem?_map] at hj2
    cases hmj : (renumber fineTune l)[j]? with
    | none => rw [hmj] at hj2; exact Option.noConfusion hj2
    | some mj =>
      rw [hmj] at hj2
      simp only [Option.map_some', Option.some.injEq] at hj2
      exact ⟨j, mj, hj1, hmj, hj2⟩
  refine ⟨hlen, ?_, ?_, hlink, ?_, ?_⟩
  · intro i m hm
    obtain ⟨m0, h0, e1, _⟩ := hpos i m hm
    rw [e1]
    exact (relink_spec fineTune l hd i m0 h0).1
  · intro i m hm hge
    obtain ⟨m0, h0, _, e2, _⟩ := hpos i m hm
    obtain ⟨_, _, r3, r4, r5⟩ := relink_spec fineTune l hd i m0 h0
    rw [hlen]
    by_cases hlt : m0.modDestOper < 32768
    · rw [e2, r3 hlt] at hge
      omega
    · have hge0 : 32768 ≤ m0.modDestOper := by omega
      by_cases hex : ∃ x ∈ l, x.index = m0.modDestOper - 32768
      · obtain ⟨j, hj, hje⟩ := r5 hge0 hex
        exact ⟨j, hj, by rw [e2, hje]⟩
      · have hno : ∀ x ∈ l, x.index ≠ m0.modDestOper - 32768 :=
          fun x hx e => hex ⟨x, hx, e⟩
        rw [e2, r4 hge0 hno] at hge
        omega
  · intro i m0 m h0 hm hge hno
    obtain ⟨m0b, h0b, _, e2, _⟩ := hpos i m hm
    rw [h0] at h0b
    simp only [Option.some.injEq] at h0b
    subst h0b
    rw [e2]
    exact (relink_spec fineTune l hd i m0 h0).2.2.2.1 hge hno
  · intro i m0 m h0 hm h127 hcc hnot
    obtain ⟨m0b, h0b, _, _, e3, e4⟩ := hpos i m hm
    rw [h0] at h0b
    simp only [Option.some.injEq] at h0b
    subst h0b
    rcases e4 with e4 | e4
    · exact absurd (hlink i m hm (by rw [e4]; exact h127) (by rw [e3]; exact hcc)) hnot
    · exact e4

end ModulatorEditor

/-- C27. Copied modulator lists have no dangling links: when the modulators that
`getModList` reads have pairwise distinct indexes (and `champ_fineTune` has a value below
32768), the list returned has as many modulators; the modulator at position `i` has index
`i`; every destination from 32768 on is `32768 + j` for a position `j` of the list, a link to
a modulator that was not read being replaced by `champ_fineTune`; and every modulator at a
position `i` whose source is the link source (`Index` 127, `CC` 0) is the destination
`32768 + i` of a modulator at another position, the `Index` of a link source that was read
and is no such destination being reset to 0. -/
theorem getModList_no_dangling_links {σ : Type} (env : ModulatorEditor.Env σ) (sm : σ)
    (id : EltID) (listSelectedMods : List EltID)
    (hft : env.code AttributeType.champ_fineTune < 32768)
    (hd : ((ModulatorEditor.readModList env sm id listSelectedMods).map
      ModulatorEditor.Modulator.index).Nodup) :
    (ModulatorEditor.getModList env sm id listSelectedMods).length
      = (ModulatorEditor.readModList env sm id listSelectedMods).length ∧
    (∀ (i : Nat) (m : ModulatorEditor.Modulator),
      (ModulatorEditor.getModList env sm id listSelectedMods)[i]? = some m →
      m.index = (i : Int)) ∧
    (∀ (i : Nat) (m : ModulatorEditor.Modulator),
      (ModulatorEditor.getModList env sm id listSelectedMods)[i]? = some m →
      32768 ≤ m.modDestOper →
      ∃ j : Nat, j < (ModulatorEditor.getModList env sm id listSelectedMods).length ∧
        m.modDestOper = 32768 + (j : Int)) ∧
    (∀ (i : Nat) (m : ModulatorEditor.Modulator),
      (ModulatorEditor.getModList env sm id listSelectedMods)[i]? = some m →
      m.modSrcOper.Index = 127 → m.modSrcOper.CC = 0 →
      ∃ (j : Nat) (mj : ModulatorEditor.Modulator), j ≠ i ∧
        (ModulatorEditor.getModList env sm id listSelectedMods)[j]? = some mj ∧
        mj.modDestOper = 32768 + (i : Int)) ∧
    (∀ (i : Nat) (m0 m : ModulatorEditor.Modulator),
      (ModulatorEditor.readModList env sm id listSelectedMods)[i]? = some m0 →
      (ModulatorEditor.getModList env sm id listSelectedMods)[i]? = some m →
      32768 ≤ m0.modDestOper →
      (∀ x ∈ ModulatorEditor.readModList env sm id listSelectedMods,
        x.index ≠ m0.modDestOper - 32768) →
      m.modDestOper = env.code AttributeType.champ_fineTune) ∧
    (∀ (i : Nat) (m0 m : ModulatorEditor.Modulator),
      (ModulatorEditor.readModList env sm id listSelectedMods)[i]? = some m0 →
      (ModulatorEditor.getModList env sm id listSelectedMods)[i]? = some m →
      m0.modSrcOper.Index = 127 → m0.modSrcOper.CC = 0 →
      (¬ ∃ (j : Nat) (mj : ModulatorEditor.Modulator), j ≠ i ∧
        (ModulatorEditor.getModList env sm id listSelectedMods)[j]? = some mj ∧
        mj.modDestOper = 32768 + (i : Int)) →
      m.modSrcOper.Index = 0) :=
  ModulatorEditor.renumber_spec _ hft _ hd

/-- Witness of C27: modulators 5 and 9 are copied; the link of 5 to 9 becomes a link to
position 1, the link of 9 to the modulator 7, which is not copied, becomes `champ_fineTune`,
and the source of the first one, to which nothing is linked, loses its `Index`. -/
theorem getModList_no_dangling_links_witness :
    ModulatorEditor.exampleCode AttributeType.champ_fineTune < 32768 ∧
    ((ModulatorEditor.readModList (ModulatorEditor.exampleEnv ModulatorEditor.exampleCode) []
      (EltID.ofElt ElementType.elementInst 0 0) exampleSelection).map
        ModulatorEditor.Modulator.index).Nodup ∧
    ModulatorEditor.getModList (ModulatorEditor.exampleEnv ModulatorEditor.exampleCode) []
        (EltID.ofElt ElementType.elementInst 0 0) exampleSelection
      = [{ modSrcOper := { Index := 0, CC := 0, rest := 0 }, modDestOper := 32768 + 1,
           modAmount := 0, modAmtSrcOper := { Index := 0, CC := 0, rest := 0 },
           modTransOper := 0, index := 0 },
         { modSrcOper := { Index := 127, CC := 0, rest := 0 },
           modDestOper := ModulatorEditor.exampleCode AttributeType.champ_fineTune,
           modAmount := 0, modAmtSrcOper := { Index := 0, CC := 0, rest := 0 },
           modTransOper := 0, index := 1 }] ∧
    (ModulatorEditor.getModList (ModulatorEditor.exampleEnv ModulatorEditor.exampleCode) []
        (EltID.ofElt ElementType.elementInst 0 0) exampleSelection).length
      = (ModulatorEditor.readModList (ModulatorEditor.exampleEnv ModulatorEditor.exampleCode) []
        (EltID.ofElt ElementType.elementInst 0 0) exampleSelection).length :=
  ⟨by decide, by decide, by decide,
    (getModList_no_dangling_links (ModulatorEditor.exampleEnv ModulatorEditor.exampleCode) []
      (EltID.ofElt ElementType.elementInst 0 0) exampleSelection (by decide) (by decide)).1⟩

namespace ModulatorEditor

/-- The check loop of `pasteMod` stops on a list with a forbidden destination. -/
theorem checkDestinations_forbidden (code : AttributeType → Int) (l : List Modulator)
    (h : ∃ mod ∈ l, isOffsetDest code mod.modDestOper ∨ isFixedDest code mod.modDestOper) :
    ∃ w, checkDestinations code l = some w := by
  induction l with
  | nil =>
    obtain ⟨mod, hm, _⟩ := h
    exact absurd hm (List.not_mem_nil _)
  | cons a rest ih =>
    unfold checkDestinations
    by_cases h1 : isOffsetDest code a.modDestOper
    · exact ⟨_, if_pos h1⟩
    · rw [if_neg h1]
      by_cases h2 : isFixedDest code a.modDestOper
      · exact ⟨_, if_pos h2⟩
      · rw [if_neg h2]
        apply ih
        obtain ⟨mod, hm, hf⟩ := h
        rcases List.mem_cons.mp hm with e | hm2
        · subst e
          rcases hf with hf | hf
          · exact absurd hf h1
          · exact absurd hf h2
        · exact ⟨mod, hm2, hf⟩

end ModulatorEditor

/-- C28. Pasting forbidden modulators is atomic: when the destination `id` is a preset or a
preset zone and a modulator of the list has as destination an address offset or one of
`keynum`, `velocity`, `sampleModes`, `exclusiveClass`, `overridingRootKey`, `pasteMod` shows
one warning and returns the store as it was, whatever `add` and `set` would do: no modulator
is added and no attribute is set. With an empty list `pasteMod` returns the store as it was,
for every `id`, and shows nothing. -/
theorem pasteMod_forbidden_is_atomic {σ : Type} (env : ModulatorEditor.Env σ)
    (valTmp : AttributeValue) (sm : σ) (id : EltID)
    (modulators : List ModulatorEditor.Modulator)
    (hid : id.typeElement = ElementType.elementPrst ∨
      id.typeElement = ElementType.elementPrstInst)
    (hf : ∃ mod ∈ modulators, ModulatorEditor.isOffsetDest env.code mod.modDestOper ∨
      ModulatorEditor.isFixedDest env.code mod.modDestOper) :
    (ModulatorEditor.pasteMod env valTmp sm id modulators).1 = sm ∧
    (∃ w, (ModulatorEditor.pasteMod env valTmp sm id modulators).2 = [w]) ∧
    (∀ id2 : EltID, ModulatorEditor.pasteMod env valTmp sm id2 [] = (sm, [])) := by
  obtain ⟨w, hw⟩ := ModulatorEditor.checkDestinations_forbidden env.code modulators hf
  have hne : modulators.isEmpty = false := by
    obtain ⟨mod, hm, _⟩ := hf
    cases modulators with
    | nil => exact absurd hm (List.not_mem_nil _)
    | cons a l => rfl
  have hp : ModulatorEditor.pasteMod env valTmp sm id modulators = (sm, [w]) := by
    unfold ModulatorEditor.pasteMod
    rcases hid with hid | hid
    · simp [hne, hid, ModulatorEditor.modElementType, hw]
    · simp [hne, hid, ModulatorEditor.modElementType, hw]
  refine ⟨by rw [hp], ⟨w, by rw [hp]⟩, ?_⟩
  intro id2
  simp [ModulatorEditor.pasteMod]

/-- Witness of C28: on the store that records the calls, pasting into a preset two
modulators, the second of which has the destination `champ_keynum`, records no call. -/
theorem pasteMod_forbidden_is_atomic_witness :
    ((EltID.ofElt ElementType.elementPrst 0 0).typeElement = ElementType.elementPrst ∨
      (EltID.ofElt ElementType.elementPrst 0 0).typeElement = ElementType.elementPrstInst) ∧
    (∃ mod ∈ exampleModulators,
      ModulatorEditor.isOffsetDest
        (ModulatorEditor.exampleEnv ModulatorEditor.exampleCode).code mod.modDestOper ∨
      ModulatorEditor.isFixedDest
        (ModulatorEditor.exampleEnv ModulatorEditor.exampleCode).code mod.modDestOper) ∧
    (ModulatorEditor.pasteMod (ModulatorEditor.exampleEnv ModulatorEditor.exampleCode)
      { bits := 0 } [] (EltID.ofElt ElementType.elementPrst 0 0) exampleModulators).1 = [] ∧
    (ModulatorEditor.pasteMod (ModulatorEditor.exampleEnv ModulatorEditor.exampleCode)
      { bits := 0 } [] (EltID.ofElt ElementType.elementInst 0 0) exampleModulators).1.length
        = 12 :=
  ⟨Or.inl rfl, by decide,
    (pasteMod_forbidden_is_atomic (ModulatorEditor.exampleEnv ModulatorEditor.exampleCode)
      { bits := 0 } [] (EltID.ofElt ElementType.elementPrst 0 0) exampleModulators
      (Or.inl rfl) (by decide)).1,
    by decide⟩

end Polyphone
